import Mathlib

/-!
# otg_jammer: session state machine and channel scheduling of `src/jam.cpp`

A shallow embedding of `jam.cpp`.  The file-scope variables of the translation
unit become the fields of `State`; every function of the source becomes a
function on `State` of the same name.  The radio driver (`RF24`), the bus
(`SPIClass`) and `random` are external collaborators: a call to one of them is
not interpreted but recorded, in program order, in the field `hw`.

Conventions.
* `uint8_t` values are natural numbers below 256; where the source stores the
  result of `int` arithmetic into a `uint8_t` the model reduces it `% 256`.
* A pointer is an `Option`: `none` is `nullptr`, `some k` is the object that was
  the `k`-th one constructed.
* A member call through a driver pointer is recorded together with the value
  the pointer has at that moment, and the model goes on to the next statement.
  A call recorded with `none` is a call through `nullptr`: the trace shows that
  the program makes it, and the status `returns` of a call whose trace has such
  an entry says that the loops were left, not that a machine survives the call.
  `validHandle` is the condition under which a recorded call is an ordinary
  one, and `run_bound` shows that in the states where it holds every radio call
  of a protocol entry point goes through a pointer to a constructed object.
* An integer division by zero has no result: the call stops with status
  `divisionByZero`.
* A `for` loop over a `uint8_t` counter whose condition can never fail does not
  return: the call stops with status `endlessLoop`.
-/

namespace Jam

/-! ## Data model -/

/-- Modelled from the spec: the constant `RF24_PA_MAX`, the maximum supported
power level (`powerLevel ∈ [0, MAX]`).  It is an enumerator of `rf24_pa_dbm_e`
in the driver header `RF24.h`, which is not among the sources; the driver
declares `RF24_PA_MIN = 0, RF24_PA_LOW, RF24_PA_HIGH, RF24_PA_MAX,
RF24_PA_ERROR`.  The theorems use the value only in their concrete examples. -/
def RF24_PA_MAX : Nat := 3

/-- The enumeration `jam_mode_e` of `jam.cpp`. -/
inductive jam_mode_e
  | JAMMING_IDLE
  | JAMMING_BLUETOOTH
  | JAMMING_DRONE
  | JAMMING_BLE
  | JAMMING_WIFI
  | JAMMING_ZIGBEE
  | JAMMING_MISC
deriving DecidableEq

/-- The enumeration `jam_tx_mode_e` of `jam.h`. -/
inductive jam_tx_mode_e
  | JAM_TX_SIMULTANEOUS
  | JAM_TX_STANDALONE
deriving DecidableEq

open jam_mode_e jam_tx_mode_e

/-- The record `radio_config_s` of `jam.h`. -/
structure radio_config_s where
  ce_pin : Nat
  csn_pin : Nat
  pa_level : Nat
deriving DecidableEq

/-- The record `__radio_t` of `jam.cpp`; `radio` is the `RF24 *`. -/
structure __radio_t where
  radio : Option Nat
  ce_pin : Nat
  csn_pin : Nat
  pa_level : Nat
deriving DecidableEq

/-- The member functions of `RF24` that `jam.cpp` calls, with their arguments. -/
inductive RadioCall
  | begin (bus : Option Nat)
  | setAutoAck (enable : Bool)
  | stopListening
  | setRetries (delay count : Nat)
  | setPayloadSize (size : Nat)
  | setAddressWidth (width : Nat)
  | setPALevel (level : Nat) (lnaEnable : Bool)
  | setDataRate_RF24_2MBPS
  | setCRCLength_RF24_CRC_DISABLED
  | startConstCarrier (level channel : Nat)
  | stopConstCarrier
  | powerDown
  | setChannel (channel : Nat)
  | writeFast (buf : String) (len : Nat)
deriving DecidableEq

/-- The member functions of `SPIClass` that `jam.cpp` calls. -/
inductive SpiCall
  | begin
  | setFrequency (hz : Nat)
  | setBitOrder_MSBFIRST
  | setDataMode_SPI_MODE0
  | finish
deriving DecidableEq

/-- One action on the hardware layer.  `radio radio_i p c` is the call `c` made
through `__radios[radio_i].radio`, whose value at that moment is `p`. -/
inductive HwCall
  | newRF24 (obj ce_pin csn_pin : Nat)
  | deleteRF24 (obj : Nat)
  | radio (radio_i : Nat) (p : Option Nat) (c : RadioCall)
  | newSPI (obj : Nat)
  | spi (p : Option Nat) (c : SpiCall)
  | deleteSPI (obj : Nat)
deriving DecidableEq

/-- The file-scope variables of `jam.cpp`, and two ghost fields: `hw`, the
hardware actions issued so far (oldest first), and `objects`, the number of
driver and bus objects constructed so far. -/
structure State where
  __hp : Option Nat
  __nrf24_count : Nat
  __radios : Option (List __radio_t)
  __constCarrier : Bool
  __jam : jam_mode_e
  __is_initialized : Bool
  __mode : jam_tx_mode_e
  hw : List HwCall
  objects : Nat
deriving DecidableEq

/-- The state at program start: the initialisers of the file-scope variables
(`__nrf24_count` has none and is zero-initialised). -/
def init : State where
  __hp := none
  __nrf24_count := 0
  __radios := none
  __constCarrier := false
  __jam := JAMMING_IDLE
  __is_initialized := false
  __mode := JAM_TX_STANDALONE
  hw := []
  objects := 0

/-- The tables `bluetooth_channels`, `ble_channels` and the text `jam_text`. -/
def bluetooth_channels : List Nat :=
  [32, 34, 46, 48, 50, 52, 0, 1, 2, 4, 6, 8, 22, 24, 26, 28, 30, 74, 76, 78, 80]

/-- The table `ble_channels`. -/
def ble_channels : List Nat := [2, 26, 80]

/-- The filler text `jam_text`: sixteen characters and the terminating zero. -/
def jam_text : String := "xxxxxxxxxxxxxxxx"

/-- The value of `sizeof(jam_text)`. -/
def sizeof_jam_text : Nat := jam_text.length + 1

/-- The element `__radios[radio_i]`.  The array has `__nrf24_count` elements
in every reachable state (`reachable_pool_shape`), and every loop indexes it
below `__nrf24_count`, so the default is never used. -/
def unit (s : State) (radio_i : Nat) : __radio_t :=
  (s.__radios.getD []).getD radio_i ⟨none, 0, 0, 0⟩

/-- The assignment `__radios[radio_i] = u`. -/
def setUnit (s : State) (radio_i : Nat) (u : __radio_t) : State :=
  { s with __radios := s.__radios.map fun rs => rs.set radio_i u }

/-- Record hardware actions. -/
def emit (s : State) (calls : List HwCall) : State :=
  { s with hw := s.hw ++ calls }

/-- The loop `for (int radio_i = 0; radio_i < __nrf24_count; radio_i++) body`. -/
def forEachRadio (body : Nat → State → State) (s : State) : State :=
  (List.range s.__nrf24_count).foldl (fun s radio_i => body radio_i s) s

/-! ## Local functions -/

/-- The body of the loop of `__init_radios`. -/
def __init_radios_body (radio_i : Nat) (s : State) : State :=
  let u := unit s radio_i
  let s := emit s [HwCall.newRF24 s.objects u.ce_pin u.csn_pin]
  { setUnit s radio_i { u with radio := some s.objects } with objects := s.objects + 1 }

/-- The function `__init_radios`. -/
def __init_radios (s : State) : State :=
  forEachRadio __init_radios_body s

/-- The body of the loop of `__deinit_radios`. -/
def __deinit_radios_body (stopConstCarrier : Bool) (radio_i : Nat) (s : State) : State :=
  let u := unit s radio_i
  match u.radio with
  | none => s
  | some obj =>
    let s := if stopConstCarrier then emit s [HwCall.radio radio_i u.radio RadioCall.stopConstCarrier]
             else s
    let s := emit s [HwCall.radio radio_i u.radio RadioCall.powerDown, HwCall.deleteRF24 obj]
    setUnit s radio_i { u with radio := none }

/-- The function `__deinit_radios`. -/
def __deinit_radios (stopConstCarrier : Bool) (s : State) : State :=
  forEachRadio (__deinit_radios_body stopConstCarrier) s

/-- The body of the loop of `__hspi_init`.  The level handed to `setPALevel` is
the stored `pa_level` converted to the `uint8_t` of the driver's parameter. -/
def __hspi_init_body (radio_i : Nat) (s : State) : State :=
  let u := unit s radio_i
  emit s ([RadioCall.begin s.__hp, RadioCall.setAutoAck false, RadioCall.stopListening,
    RadioCall.setRetries 0 0, RadioCall.setPayloadSize 5, RadioCall.setAddressWidth 3,
    RadioCall.setPALevel (u.pa_level % 256) true, RadioCall.setDataRate_RF24_2MBPS,
    RadioCall.setCRCLength_RF24_CRC_DISABLED].map (HwCall.radio radio_i u.radio))

/-- The function `__hspi_init`. -/
def __hspi_init (s : State) : State :=
  let s := { emit s [HwCall.newSPI s.objects] with
    __hp := some s.objects, objects := s.objects + 1 }
  let s := emit s ([SpiCall.begin, SpiCall.setFrequency 16000000, SpiCall.setBitOrder_MSBFIRST,
    SpiCall.setDataMode_SPI_MODE0].map (HwCall.spi s.__hp))
  forEachRadio __hspi_init_body s

/-- The function `__hspi_deinit`. -/
def __hspi_deinit (s : State) : State :=
  match s.__hp with
  | none => s
  | some obj =>
    { emit s [HwCall.spi s.__hp SpiCall.finish, HwCall.deleteSPI obj] with __hp := none }

/-! ## Global functions: pool and lifecycle -/

/-- The loop of `load_radios` with `k` rounds left, on the array `rs`: the
result is `false` when a round took the early `return false`. -/
def load_radios_loop (radios_config : Nat → radio_config_s) :
    Nat → Nat → List __radio_t → Bool × List __radio_t
  | 0, _, rs => (true, rs)
  | k + 1, radio_i, rs =>
    let u := rs.getD radio_i ⟨none, 0, 0, 0⟩
    let u := { u with ce_pin := (radios_config radio_i).ce_pin,
                      csn_pin := (radios_config radio_i).csn_pin }
    if (radios_config radio_i).pa_level > RF24_PA_MAX then
      (false, rs.set radio_i u)
    else
      let u := { u with pa_level := (radios_config radio_i).pa_level, radio := none }
      load_radios_loop radios_config k (radio_i + 1) (rs.set radio_i u)

/-- The function `load_radios`.  `radios_config` is the pointer argument
(`radios_config i` is `radios_config[i]`); `fresh i` is the content of element
`i` of the array returned by `new __radio_t[count]`, which C++ leaves
uninitialised. -/
def load_radios (fresh : Nat → __radio_t) (radios_config : Nat → radio_config_s) (count : Nat)
    (s : State) : Bool × State :=
  if s.__radios ≠ none then
    (false, s)
  else
    let r := load_radios_loop radios_config count 0 ((List.range count).map fresh)
    (r.1, { s with __nrf24_count := count, __radios := some r.2 })

/-- The function `set_jam_tx_mode`. -/
def set_jam_tx_mode (mode : jam_tx_mode_e) (s : State) : State :=
  { s with __mode := mode }

/-- The body of the loop of `jam_start`: the call
`__radios[radio_i].radio->startConstCarrier(RF24_PA_MAX, 45)`, recorded with
the value the pointer has; the source does not test the pointer, and with
`none` this is a call through a null pointer. -/
def jam_start_body (radio_i : Nat) (s : State) : State :=
  emit s [HwCall.radio radio_i (unit s radio_i).radio (RadioCall.startConstCarrier RF24_PA_MAX 45)]

/-- The function `jam_start`. -/
def jam_start (s : State) : State :=
  let s := if s.__is_initialized then s else __hspi_init (__init_radios s)
  let s := if s.__constCarrier then forEachRadio jam_start_body s else s
  { s with __is_initialized := true }

/-- The function `jam_stop`. -/
def jam_stop (s : State) : State :=
  if s.__is_initialized then
    { __hspi_deinit (__deinit_radios s.__constCarrier s) with
      __constCarrier := false, __is_initialized := false, __jam := JAMMING_IDLE }
  else s

/-! ## Scheduling loops -/

/-- What the environment supplies to one call.  `random k` is the value
returned by the call of `random(total_channels)` made in round `k` of the
channel loop (rounds counted from 0); `channel ch` is the content of the local
variable `channel` in the round with counter `ch` when no case of the `switch`
has assigned it. -/
structure Env where
  random : Nat → Nat
  channel : Nat → Nat

/-- How a call ends. -/
inductive Status
  | returns
  | divisionByZero
  | endlessLoop
deriving DecidableEq

/-- The end of a call: `state` is the state at the return, at the division by
zero, or after the first 256 rounds of a loop that is never left (the loop
then repeats these rounds for ever). -/
structure Outcome where
  status : Status
  state : State
deriving DecidableEq

/-- The initialiser of `base`: `total_channels / __nrf24_count`. -/
def base (total_channels nrf24_count : Nat) : Nat :=
  total_channels / nrf24_count % 256

/-- The initialiser of `rem`: `total_channels % __nrf24_count`. -/
def rem (total_channels nrf24_count : Nat) : Nat :=
  total_channels % nrf24_count % 256

/-- The initialiser of `count`: `base + (radio_i < rem ? 1 : 0)`. -/
def count (total_channels nrf24_count radio_i : Nat) : Nat :=
  (base total_channels nrf24_count +
    (if radio_i < rem total_channels nrf24_count then 1 else 0)) % 256

/-- The inner loop
`for (uint8_t chPerRadio = 0; chPerRadio < count; chPerRadio++, ch++)`, entered
with the given `count` and `ch`: the pairs `(radio_i, ch)` of its rounds, and
the value of `ch` when it is left. -/
def chPerRadioLoop (radio_i : Nat) : Nat → Nat → List (Nat × Nat) × Nat
  | 0, ch => ([], ch)
  | count + 1, ch =>
    let r := chPerRadioLoop radio_i count ((ch + 1) % 256)
    ((radio_i, ch) :: r.1, r.2)

/-- The outer loop
`for (uint8_t radio_i = 0; radio_i < __nrf24_count; radio_i++)` of a Standalone
pass with `k` rounds left: the pairs `(radio_i, ch)` at which the loop body
runs, in order. -/
def radioLoop (total_channels nrf24_count : Nat) : Nat → Nat → Nat → List (Nat × Nat)
  | 0, _, _ => []
  | k + 1, radio_i, ch =>
    let r := chPerRadioLoop radio_i (count total_channels nrf24_count radio_i) ch
    r.1 ++ radioLoop total_channels nrf24_count k (radio_i + 1) r.2

/-- The loop nest of a Standalone pass over `total_channels` channels whose
counter `ch` starts at `ch`; `none` is the division by `__nrf24_count = 0`. -/
def standalone (total_channels ch nrf24_count : Nat) : Option (List (Nat × Nat)) :=
  if nrf24_count = 0 then none
  else some (radioLoop total_channels nrf24_count nrf24_count 0 ch)

/-- The loop `for (uint8_t ch = start; cond(ch); ch++)`, cut after `fuel`
rounds: the values of `ch` in the rounds made, and whether the loop was left. -/
def forU8 (cond : Nat → Bool) : Nat → Nat → List Nat × Bool
  | 0, ch => ([], !cond ch)
  | fuel + 1, ch =>
    if cond ch then
      let r := forU8 cond fuel ((ch + 1) % 256)
      (ch :: r.1, r.2)
    else ([], true)

/-- The loop `for (uint8_t ch = start; cond(ch); ch++)`.  The counter takes
256 values and the condition reads nothing else, so a loop not left within 256
rounds is never left. -/
def channelLoop (cond : Nat → Bool) (start : Nat) : List Nat × Bool :=
  forU8 cond 256 start

/-- The call `__radios[radio_i].radio->setChannel(channel)`, recorded with the
value the pointer has; the source does not test the pointer, and with `none`
this is a call through a null pointer. -/
def setChannel (s : State) (radio_i channel : Nat) : HwCall :=
  HwCall.radio radio_i (unit s radio_i).radio (RadioCall.setChannel channel)

/-- The call `__radios[radio_i].radio->writeFast(&jam_text, sizeof(jam_text))`,
recorded with the value the pointer has, as for `setChannel`. -/
def writeFast (s : State) (radio_i : Nat) : HwCall :=
  HwCall.radio radio_i (unit s radio_i).radio (RadioCall.writeFast jam_text sizeof_jam_text)

/-- The inner loop of a Simultaneous pass:
`for (uint8_t radio_i = 0; radio_i < __nrf24_count; radio_i++) body`. -/
def allRadios (s : State) (body : Nat → List HwCall) : List HwCall :=
  (List.range s.__nrf24_count).flatMap body

/-- The end of a pass that made the calls `calls`. -/
def pass (left : Bool) (s : State) (calls : List HwCall) : Outcome :=
  ⟨if left then Status.returns else Status.endlessLoop, emit s calls⟩

/-- A Standalone pass over `total_channels` channels whose counter starts at
`ch`: the loop nest, with `body radio_i ch` the calls of one round of the inner
loop. -/
def standalonePass (total_channels ch : Nat) (s : State)
    (body : Nat → Nat → List HwCall) : Outcome :=
  match standalone total_channels ch s.__nrf24_count with
  | none => ⟨Status.divisionByZero, s⟩
  | some rounds => pass true s (rounds.flatMap fun r => body r.1 r.2)

/-! ## Global functions: protocol entry points -/

/-- The block every protocol entry point starts with:
`if (__jam == JAMMING_IDLE) { jam_start(); __constCarrier = constCarrier; __jam = jam; }`. -/
def enter (constCarrier : Bool) (jam : jam_mode_e) (s : State) : State :=
  if s.__jam = JAMMING_IDLE then
    { jam_start s with __constCarrier := constCarrier, __jam := jam }
  else s

/-- The function `bluetooth_jam`. -/
def bluetooth_jam (env : Env) (method : Nat) (s : State) : Outcome :=
  let s := enter true JAMMING_BLUETOOTH s
  if s.__jam = JAMMING_BLUETOOTH then
    if s.__mode = JAM_TX_STANDALONE then
      let total_channels := if method = 0 then 21 else 80
      standalonePass total_channels 0 s fun radio_i ch =>
        if method = 0 then [setChannel s radio_i (bluetooth_channels.getD ch 0)]
        else if method = 1 then [setChannel s radio_i (env.random ch % 256)]
        else if method = 2 then [setChannel s radio_i ch]
        else []
    else
      let total_channels := if method = 0 then 21 else 80
      let l := channelLoop (fun ch => ch < total_channels) 0
      pass l.2 s (l.1.flatMap fun ch =>
        let channel :=
          if method = 0 then bluetooth_channels.getD ch 0
          else if method = 1 then env.random ch % 256
          else if method = 2 then ch
          else env.channel ch % 256
        allRadios s fun radio_i => [setChannel s radio_i channel])
  else ⟨Status.returns, s⟩

/-- The function `drone_jam`. -/
def drone_jam (env : Env) (method : Nat) (s : State) : Outcome :=
  let s := enter true JAMMING_DRONE s
  if s.__jam = JAMMING_DRONE then
    if s.__mode = JAM_TX_STANDALONE then
      let total_channels := 125
      standalonePass total_channels 0 s fun radio_i ch =>
        if method = 0 then [setChannel s radio_i (env.random ch % 256)]
        else if method = 1 then [setChannel s radio_i ch]
        else []
    else
      let total_channels := 125
      let l := channelLoop (fun ch => ch < total_channels) 0
      pass l.2 s (l.1.flatMap fun ch =>
        let channel :=
          if method = 0 then env.random ch % 256
          else if method = 1 then ch
          else env.channel ch % 256
        allRadios s fun radio_i => [setChannel s radio_i channel])
  else ⟨Status.returns, s⟩

/-- The function `ble_jam`. -/
def ble_jam (s : State) : Outcome :=
  let s := enter false JAMMING_BLE s
  if s.__jam = JAMMING_BLE then
    if s.__mode = JAM_TX_STANDALONE then
      let total_channels := 3
      standalonePass total_channels 0 s fun radio_i ch =>
        [setChannel s radio_i (ble_channels.getD ch 0)]
    else
      let total_channels := 3
      let l := channelLoop (fun ch => ch < total_channels) 0
      pass l.2 s (l.1.flatMap fun ch =>
        allRadios s fun radio_i => [setChannel s radio_i (ble_channels.getD ch 0)])
  else ⟨Status.returns, s⟩

/-- The function `wifi_jam`; `channel` is an `int8_t`. -/
def wifi_jam (channel : Int) (s : State) : Outcome :=
  let s := enter false JAMMING_WIFI s
  if s.__jam = JAMMING_WIFI then
    if channel < 0 then
      if s.__mode = JAM_TX_STANDALONE then
        let total_channels := 22
        standalonePass total_channels 1 s fun radio_i ch =>
          [setChannel s radio_i ch, writeFast s radio_i]
      else
        let l := channelLoop (fun ch => ch ≤ 22) 1
        pass l.2 s (l.1.flatMap fun ch =>
          allRadios s fun radio_i => [setChannel s radio_i ch, writeFast s radio_i])
    else
      if s.__mode = JAM_TX_STANDALONE then
        let total_channels := 22
        standalonePass total_channels ((channel * 5 + 1) % 256).toNat s fun radio_i ch =>
          [setChannel s radio_i ch, writeFast s radio_i]
      else
        let l := channelLoop (fun ch => (ch : Int) < channel * 5 + 23)
          ((channel * 5 + 1) % 256).toNat
        pass l.2 s (l.1.flatMap fun ch =>
          allRadios s fun radio_i => [setChannel s radio_i ch, writeFast s radio_i])
  else ⟨Status.returns, s⟩

/-- The function `zigbee_jam`. -/
def zigbee_jam (s : State) : Outcome :=
  let s := enter false JAMMING_ZIGBEE s
  if s.__jam = JAMMING_ZIGBEE then
    if s.__mode = JAM_TX_STANDALONE then
      let total_channels := 16
      standalonePass total_channels 0 s fun radio_i ch =>
        [setChannel s radio_i ((4 + 5 * ch) % 256), writeFast s radio_i]
    else
      let outer := channelLoop (fun channel => channel < 27) 11
      let inner := fun (channel : Nat) =>
        channelLoop (fun ch => (ch : Int) ≤ (5 + 5 * ((channel : Int) - 11)) + 2)
          ((4 + 5 * ((channel : Int) - 11)) % 256).toNat
      pass (outer.2 && outer.1.all fun channel => (inner channel).2) s
        (outer.1.flatMap fun channel => (inner channel).1.flatMap fun ch =>
          allRadios s fun radio_i => [setChannel s radio_i ch, writeFast s radio_i])
  else ⟨Status.returns, s⟩

/-- The function `misc_jam`. -/
def misc_jam (channel1 channel2 : Nat) (s : State) : Outcome :=
  let s := enter true JAMMING_MISC s
  if s.__jam = JAMMING_MISC then
    if s.__mode = JAM_TX_STANDALONE then
      let total_channels := (((channel2 : Int) - (channel1 : Int) + 1) % 256).toNat
      standalonePass total_channels channel1 s fun radio_i ch =>
        [setChannel s radio_i ch, writeFast s radio_i]
    else
      let l := channelLoop (fun ch => ch ≤ channel2) channel1
      pass l.2 s (l.1.flatMap fun ch =>
        allRadios s fun radio_i => [setChannel s radio_i ch, writeFast s radio_i])
  else ⟨Status.returns, s⟩

/-! ## Public operations and reachable states -/

/-- A call of one of the six protocol entry points, with its arguments. -/
inductive Call
  | bluetooth_jam (env : Env) (method : Nat)
  | drone_jam (env : Env) (method : Nat)
  | ble_jam
  | wifi_jam (channel : Int)
  | zigbee_jam
  | misc_jam (channel1 channel2 : Nat)

/-- The arguments fit their C types (`uint8_t`, `int8_t`). -/
def Call.typed : Call → Prop
  | Call.bluetooth_jam _ method => method < 256
  | Call.drone_jam _ method => method < 256
  | Call.ble_jam => True
  | Call.wifi_jam channel => -128 ≤ channel ∧ channel ≤ 127
  | Call.zigbee_jam => True
  | Call.misc_jam channel1 channel2 => channel1 < 256 ∧ channel2 < 256

/-- Run a protocol call. -/
def Call.run : Call → State → Outcome
  | Call.bluetooth_jam env method => Jam.bluetooth_jam env method
  | Call.drone_jam env method => Jam.drone_jam env method
  | Call.ble_jam => Jam.ble_jam
  | Call.wifi_jam channel => Jam.wifi_jam channel
  | Call.zigbee_jam => Jam.zigbee_jam
  | Call.misc_jam channel1 channel2 => Jam.misc_jam channel1 channel2

/-- The mode constant an entry point compares `__jam` with. -/
def Call.jam : Call → jam_mode_e
  | Call.bluetooth_jam _ _ => JAMMING_BLUETOOTH
  | Call.drone_jam _ _ => JAMMING_DRONE
  | Call.ble_jam => JAMMING_BLE
  | Call.wifi_jam _ => JAMMING_WIFI
  | Call.zigbee_jam => JAMMING_ZIGBEE
  | Call.misc_jam _ _ => JAMMING_MISC

/-- A call of one of the functions declared in `jam.h`. -/
inductive Op
  | load_radios (fresh : Nat → __radio_t) (radios_config : Nat → radio_config_s) (count : Nat)
  | set_jam_tx_mode (mode : jam_tx_mode_e)
  | jam_start
  | jam_stop
  | protocol (c : Call)

/-- The arguments fit their C types. -/
def Op.typed : Op → Prop
  | Op.load_radios _ _ count => count < 256
  | Op.protocol c => c.typed
  | _ => True

/-- Run a public operation. -/
def Op.run : Op → State → Outcome
  | Op.load_radios fresh radios_config count, s =>
    ⟨Status.returns, (Jam.load_radios fresh radios_config count s).2⟩
  | Op.set_jam_tx_mode mode, s => ⟨Status.returns, Jam.set_jam_tx_mode mode s⟩
  | Op.jam_start, s => ⟨Status.returns, Jam.jam_start s⟩
  | Op.jam_stop, s => ⟨Status.returns, Jam.jam_stop s⟩
  | Op.protocol c, s => c.run s

/-- The state `s'` is reached from `s` by a sequence of public operations, each
of which returned. -/
inductive Steps (s : State) : State → Prop
  | refl : Steps s s
  | step (op : Op) (s' : State) :
      Steps s s' → op.typed → (op.run s').status = Status.returns → Steps s (op.run s').state

/-- The states reachable from program start. -/
def Reachable (s : State) : Prop := Steps init s

/-! ## Observations on the hardware trace -/

/-- The hardware actions issued by a call that started in state `s`. -/
def issued (s : State) (o : Outcome) : List HwCall :=
  o.state.hw.drop s.hw.length

/-- The channel of a `setChannel` call. -/
def channelOf : HwCall → Option Nat
  | HwCall.radio _ _ (RadioCall.setChannel channel) => some channel
  | _ => none

/-- The channel of a `setChannel` call on radio `radio_i`. -/
def channelOn (radio_i : Nat) : HwCall → Option Nat
  | HwCall.radio i _ (RadioCall.setChannel channel) => if i = radio_i then some channel else none
  | _ => none

/-- The channel values tuned, in order, over all radios. -/
def channels (calls : List HwCall) : List Nat :=
  calls.filterMap channelOf

/-- The channel values tuned on radio `radio_i`, in order. -/
def channelsOn (radio_i : Nat) (calls : List HwCall) : List Nat :=
  calls.filterMap (channelOn radio_i)

/-- The number of rounds of a Standalone pass made before the outer loop
reaches radio `radio_i`. -/
def offset (total_channels nrf24_count radio_i : Nat) : Nat :=
  ((List.range radio_i).map (count total_channels nrf24_count)).sum

/-- The pins and power level of a unit. -/
def config (u : __radio_t) : radio_config_s :=
  ⟨u.ce_pin, u.csn_pin, u.pa_level⟩

/-- The hardware actions other than `setChannel` and `writeFast`: those of the
lifecycle functions. -/
def isLifecycle : HwCall → Bool
  | HwCall.radio _ _ (RadioCall.setChannel _) => false
  | HwCall.radio _ _ (RadioCall.writeFast _ _) => false
  | _ => true

/-- What the lifecycle functions leave alone: `s'` differs from `s` at most in
the pointers `__hp` and `__radios[i].radio`, in `__is_initialized`, and by
further lifecycle actions on the hardware. -/
structure Frame (s s' : State) : Prop where
  nrf24_count : s'.__nrf24_count = s.__nrf24_count
  mode : s'.__mode = s.__mode
  jam : s'.__jam = s.__jam
  constCarrier : s'.__constCarrier = s.__constCarrier
  configs : s'.__radios.map (List.map config) = s.__radios.map (List.map config)
  hw : ∃ calls, s'.hw = s.hw ++ calls ∧ ∀ c ∈ calls, isLifecycle c = true

/-- The Idle-to-protocol default of the constant-carrier flag, as the
specification lists it: set for Bluetooth, Drone and Misc, clear for BLE, WiFi
and Zigbee. -/
def protocolDefault : jam_mode_e → Bool
  | JAMMING_BLUETOOTH => true
  | JAMMING_DRONE => true
  | JAMMING_MISC => true
  | _ => false

/-- The calls whose Simultaneous channel loop has a condition that no
`uint8_t` value fails: `wifi_jam` with `channel * 5 + 23 > 255`, and `misc_jam`
with `channel2 = 255`. -/
def Call.endless : Call → Prop
  | Call.wifi_jam channel => 47 ≤ channel
  | Call.misc_jam _ channel2 => channel2 = 255
  | _ => False

/-- The unit the loop of `load_radios` makes of a configuration record: its
pins and power level, and a null driver pointer. -/
def loaded (c : radio_config_s) : __radio_t :=
  ⟨none, c.ce_pin, c.csn_pin, c.pa_level⟩

/-- The hardware actions recorded between state `s` and the later state `s'`. -/
def since (s s' : State) : List HwCall :=
  s'.hw.drop s.hw.length

/-- The calls of `startConstCarrier`. -/
def isStartCarrier : HwCall → Bool
  | HwCall.radio _ _ (RadioCall.startConstCarrier _ _) => true
  | _ => false

/-- The driver pointers of the units, in index order. -/
def handles (s : State) : List (Option Nat) :=
  (s.__radios.getD []).map fun u => u.radio

/-- The objects constructed by `new RF24(...)`, in order. -/
def constructedRF24 (calls : List HwCall) : List Nat :=
  calls.filterMap fun c => match c with
    | HwCall.newRF24 obj _ _ => some obj
    | _ => none

/-- The objects constructed by `new SPIClass(HSPI)`, in order. -/
def constructedSPI (calls : List HwCall) : List Nat :=
  calls.filterMap fun c => match c with
    | HwCall.newSPI obj => some obj
    | _ => none

/-- The driver objects deleted, in order. -/
def deletedRF24 (calls : List HwCall) : List Nat :=
  calls.filterMap fun c => match c with
    | HwCall.deleteRF24 obj => some obj
    | _ => none

/-- The bus objects deleted, in order. -/
def deletedSPI (calls : List HwCall) : List Nat :=
  calls.filterMap fun c => match c with
    | HwCall.deleteSPI obj => some obj
    | _ => none

/-- The array `rs` with the driver pointers set to the objects numbered from
`obj` on, in index order. -/
def bound (obj : Nat) (rs : List __radio_t) : List __radio_t :=
  List.zipWith (fun u o => { u with radio := some o }) rs (List.range' obj rs.length)

/-- The constructions `new RF24(ce_pin, csn_pin)` for the units of `rs`, the
objects numbered from `obj` on. -/
def constructions (obj : Nat) (rs : List __radio_t) : List HwCall :=
  List.zipWith (fun u o => HwCall.newRF24 o u.ce_pin u.csn_pin) rs (List.range' obj rs.length)

/-- The calls of `writeFast`. -/
def isWriteFast : HwCall → Bool
  | HwCall.radio _ _ (RadioCall.writeFast _ _) => true
  | _ => false

/-- The calls of `setChannel`. -/
def isSetChannel : HwCall → Bool
  | HwCall.radio _ _ (RadioCall.setChannel _) => true
  | _ => false

/-- A trace in which `setChannel` and `writeFast` only occur in pairs: a
`setChannel` through a pointer of a radio, and right after it the `writeFast`
of the filler text through the same pointer of the same radio. -/
inductive Paired : List HwCall → Prop
  | nil : Paired []
  | tune (radio_i : Nat) (p : Option Nat) (channel : Nat) (rest : List HwCall) :
      Paired rest →
      Paired (HwCall.radio radio_i p (RadioCall.setChannel channel) ::
        HwCall.radio radio_i p (RadioCall.writeFast jam_text sizeof_jam_text) :: rest)
  | other (c : HwCall) (rest : List HwCall) :
      isLifecycle c = true → Paired rest → Paired (c :: rest)

/-- The state `s'` is reached from `s` by a sequence of public operations,
each of which returned, and none of which is a direct call of `jam_start`. -/
inductive StepsWithoutStart (s : State) : State → Prop
  | refl : StepsWithoutStart s s
  | step (op : Op) (s' : State) :
      StepsWithoutStart s s' → op ≠ Op.jam_start → op.typed →
      (op.run s').status = Status.returns → StepsWithoutStart s (op.run s').state

/-- From `s` to `s'` the hardware trace has only grown, and by no call of
`startConstCarrier`. -/
def Quiet (s s' : State) : Prop :=
  ∃ calls, s'.hw = s.hw ++ calls ∧ ∀ c ∈ calls, isStartCarrier c = false

/-- A driver pointer that can be called through, given the hardware actions
`calls` made so far: it is not null, and the object it points to has been
constructed by `new RF24(...)` and has not been deleted. -/
def validHandle (calls : List HwCall) (p : Option Nat) : Bool :=
  match p with
  | none => false
  | some obj => decide (obj ∈ constructedRF24 calls) && !decide (obj ∈ deletedRF24 calls)

/-- The calls `calls` are calls on radios of the pool of `s`, each made through
the driver pointer that the unit has in `s`. -/
def ThroughUnits (s : State) (calls : List HwCall) : Prop :=
  ∀ x ∈ calls, ∃ i r, i < s.__nrf24_count ∧ x = HwCall.radio i (unit s i).radio r

/-! ## The partition of the channels over the radios -/

theorem count_eq (total_channels nrf24_count radio_i : Nat) (hn : 1 ≤ nrf24_count)
    (ht : total_channels ≤ 255) :
    count total_channels nrf24_count radio_i =
      total_channels / nrf24_count +
        (if radio_i < total_channels % nrf24_count then 1 else 0) := by
  have hdm := Nat.div_add_mod total_channels nrf24_count
  have hb : total_channels / nrf24_count ≤ nrf24_count * (total_channels / nrf24_count) :=
    Nat.le_mul_of_pos_left _ hn
  have hr : total_channels % nrf24_count ≤ total_channels := Nat.mod_le _ _
  unfold count base rem
  rw [Nat.mod_eq_of_lt (a := total_channels / nrf24_count) (by omega),
    Nat.mod_eq_of_lt (a := total_channels % nrf24_count) (by omega)]
  split_ifs with h
  · apply Nat.mod_eq_of_lt; omega
  · apply Nat.mod_eq_of_lt; omega

theorem offset_succ (t n i : Nat) : offset t n (i + 1) = offset t n i + count t n i := by
  simp [offset, List.range_succ]

theorem offset_eq (t n i : Nat) (hn : 1 ≤ n) (ht : t ≤ 255) :
    offset t n i = i * (t / n) + min i (t % n) := by
  induction i with
  | zero => simp [offset]
  | succ i ih =>
    rw [offset_succ, ih, count_eq t n i hn ht, Nat.succ_mul]
    split_ifs with h
    · rw [Nat.min_def, Nat.min_def]; split_ifs <;> omega
    · rw [Nat.min_def, Nat.min_def]; split_ifs <;> omega

theorem offset_total (t n : Nat) (hn : 1 ≤ n) (ht : t ≤ 255) : offset t n n = t := by
  rw [offset_eq t n n hn ht]
  have := Nat.mod_lt t (show n > 0 by omega)
  rw [Nat.min_eq_right (by omega)]
  exact Nat.div_add_mod t n

theorem chPerRadioLoop_eq (radio_i c ch : Nat) (hch : ch < 256) :
    chPerRadioLoop radio_i c ch =
      ((List.range c).map (fun k => (radio_i, (ch + k) % 256)), (ch + c) % 256) := by
  induction c generalizing ch with
  | zero => simp [chPerRadioLoop, Nat.mod_eq_of_lt hch]
  | succ c ih =>
    rw [chPerRadioLoop, ih _ (Nat.mod_lt _ (by decide)), List.range_succ_eq_map]
    simp only [List.map_cons, List.map_map, Nat.add_zero, Nat.mod_eq_of_lt hch, Prod.mk.injEq,
      List.cons.injEq, true_and]
    refine ⟨?_, by omega⟩
    apply List.map_congr_left
    intro k _
    simp only [Function.comp, Prod.mk.injEq, true_and]
    omega

theorem radioLoop_eq (t n ch0 k i : Nat) :
    radioLoop t n k i ((ch0 + offset t n i) % 256) =
      (List.range' i k).flatMap (fun r =>
        (List.range (count t n r)).map (fun j => (r, (ch0 + offset t n r + j) % 256))) := by
  induction k generalizing i with
  | zero => simp [radioLoop]
  | succ k ih =>
    rw [radioLoop, chPerRadioLoop_eq _ _ _ (Nat.mod_lt _ (by decide)), List.range'_succ,
      List.flatMap_cons]
    have h2 : ((ch0 + offset t n i) % 256 + count t n i) % 256 =
        (ch0 + offset t n (i + 1)) % 256 := by
      rw [offset_succ]; omega
    simp only [h2, ih]
    congr 1
    apply List.map_congr_left
    intro j _
    simp only [Prod.mk.injEq, true_and]
    omega

/-- The rounds of a Standalone pass: radio by radio, each radio a run of
consecutive values of the counter. -/
theorem standalone_eq (t ch n : Nat) (hn : 1 ≤ n) (hch : ch < 256) :
    standalone t ch n = some ((List.range n).flatMap (fun r =>
        (List.range (count t n r)).map (fun j => (r, (ch + offset t n r + j) % 256)))) := by
  have h := radioLoop_eq t n ch n 0
  simp only [offset, List.range_zero, List.map_nil, List.sum_nil, Nat.add_zero,
    Nat.mod_eq_of_lt hch] at h
  rw [standalone, if_neg (by omega), h, List.range_eq_range']
  rfl

theorem flatMap_range_single {α : Type} (f : Nat → List α) (n i : Nat) (hi : i < n) :
    (List.range n).flatMap (fun r => if r = i then f r else []) = f i := by
  induction n with
  | zero => omega
  | succ n ih =>
    rw [List.range_succ, List.flatMap_append]
    rcases Nat.lt_or_ge i n with h | h
    · rw [ih h]; simp; omega
    · have hin : i = n := by omega
      subst hin
      have : (List.range i).flatMap (fun r => if r = i then f r else []) = [] := by
        rw [List.flatMap_eq_nil_iff]
        intro r hr
        rw [List.mem_range] at hr
        rw [if_neg (by omega)]
      rw [this]; simp

/-- C1: for `total_channels` and `nrf24_count` in 1..255 the group size of radio
`radio_i` is `total_channels / nrf24_count`, plus one for the first
`total_channels % nrf24_count` radios, the 8-bit arithmetic of the source never
wrapping; the sizes of radios `0 .. nrf24_count - 1` sum to `total_channels`;
any two of them differ by at most 1; every Standalone loop nest makes exactly
that many rounds for each radio; and 125 channels on 4 radios give the sizes
32, 31, 31, 31. -/
theorem C1_partition_sizes (total_channels nrf24_count : Nat)
    (ht : 1 ≤ total_channels ∧ total_channels ≤ 255)
    (hn : 1 ≤ nrf24_count ∧ nrf24_count ≤ 255) :
    (∀ radio_i, count total_channels nrf24_count radio_i =
        total_channels / nrf24_count +
          (if radio_i < total_channels % nrf24_count then 1 else 0)) ∧
    ((List.range nrf24_count).map (count total_channels nrf24_count)).sum = total_channels ∧
    (∀ i j, i < nrf24_count → j < nrf24_count →
        count total_channels nrf24_count i ≤ count total_channels nrf24_count j + 1) ∧
    (∀ ch, ch < 256 → ∃ rounds, standalone total_channels ch nrf24_count = some rounds ∧
        rounds.length = total_channels ∧
        ∀ radio_i, radio_i < nrf24_count →
          (rounds.filter (fun r => r.1 = radio_i)).length =
            count total_channels nrf24_count radio_i) ∧
    (List.range 4).map (count 125 4) = [32, 31, 31, 31] := by
  refine ⟨fun i => count_eq _ _ i hn.1 ht.2, offset_total _ _ hn.1 ht.2, ?_, ?_, by decide⟩
  · intro i j _ _
    rw [count_eq _ _ i hn.1 ht.2, count_eq _ _ j hn.1 ht.2]
    split_ifs <;> omega
  · intro ch hch
    refine ⟨_, standalone_eq _ ch _ hn.1 hch, ?_, ?_⟩
    · rw [List.length_flatMap]
      simp only [Function.comp_def, List.length_map, List.length_range]
      exact offset_total _ _ hn.1 ht.2
    · intro radio_i hi
      rw [List.filter_flatMap]
      have : ∀ r, List.filter (fun r => decide (r.1 = radio_i))
          ((List.range (count total_channels nrf24_count r)).map
            (fun j => (r, (ch + offset total_channels nrf24_count r + j) % 256))) =
          if r = radio_i then (List.range (count total_channels nrf24_count r)).map
            (fun j => (r, (ch + offset total_channels nrf24_count r + j) % 256)) else [] := by
        intro r
        split_ifs with h
        · rw [List.filter_eq_self]; intro a ha
          rw [List.mem_map] at ha; obtain ⟨_, _, rfl⟩ := ha; simpa using h
        · rw [List.filter_eq_nil_iff]; intro a ha
          rw [List.mem_map] at ha; obtain ⟨_, _, rfl⟩ := ha; simpa using h
      simp only [this]
      rw [flatMap_range_single (fun r => (List.range (count total_channels nrf24_count r)).map
        (fun j => (r, (ch + offset total_channels nrf24_count r + j) % 256))) _ _ hi]
      rw [List.length_map, List.length_range]

/-- The sizes for 125 channels on 4 radios sum to 125. -/
theorem C1_partition_sizes_witness :
    (1 ≤ 125 ∧ 125 ≤ 255) ∧ (1 ≤ 4 ∧ 4 ≤ 255) ∧
    ((List.range 4).map (count 125 4)).sum = 125 :=
  ⟨by decide, by decide, (C1_partition_sizes 125 4 (by decide) (by decide)).2.1⟩

/-! ## The lifecycle functions -/

theorem Frame.refl (s : State) : Frame s s :=
  ⟨rfl, rfl, rfl, rfl, rfl, [], by simp, by simp⟩

theorem Frame.trans {s s' s'' : State} (h : Frame s s') (h' : Frame s' s'') : Frame s s'' := by
  obtain ⟨c1, e1, q1⟩ := h.hw
  obtain ⟨c2, e2, q2⟩ := h'.hw
  refine ⟨h'.nrf24_count.trans h.nrf24_count, h'.mode.trans h.mode, h'.jam.trans h.jam,
    h'.constCarrier.trans h.constCarrier, h'.configs.trans h.configs, c1 ++ c2, ?_, ?_⟩
  · rw [e2, e1, List.append_assoc]
  · intro c hc
    rcases List.mem_append.mp hc with h | h
    · exact q1 c h
    · exact q2 c h

theorem frame_emit (s : State) (calls : List HwCall) (h : ∀ c ∈ calls, isLifecycle c = true) :
    Frame s (emit s calls) :=
  ⟨rfl, rfl, rfl, rfl, rfl, calls, rfl, h⟩

theorem set_radio_config (rs : List __radio_t) (i : Nat) (d : __radio_t) (p : Option Nat) :
    (rs.set i { rs.getD i d with radio := p }).map config = rs.map config := by
  induction rs generalizing i with
  | nil => simp
  | cons a rs ih =>
    cases i with
    | zero => simp [config]
    | succ i => simpa using ih i

theorem frame_setUnit (s : State) (radio_i : Nat) (p : Option Nat) :
    Frame s (setUnit s radio_i { unit s radio_i with radio := p }) := by
  refine ⟨rfl, rfl, rfl, rfl, ?_, [], by simp [Jam.setUnit], by simp⟩
  cases h : s.__radios with
  | none => simp [Jam.setUnit, h]
  | some rs =>
    simp only [Jam.setUnit, unit, h, Option.map_some', Option.getD_some, Option.some.injEq]
    exact set_radio_config rs radio_i _ p

/-- A property kept by the loop body is kept by the loop. -/
theorem forEachRadio_invariant (R : State → Prop) (body : Nat → State → State)
    (hbody : ∀ radio_i s, R s → R (body radio_i s)) (s : State) (h : R s) :
    R (forEachRadio body s) := by
  unfold forEachRadio
  generalize List.range s.__nrf24_count = l
  induction l generalizing s with
  | nil => exact h
  | cons a l ih => exact ih _ (hbody a s h)

theorem frame_forEachRadio (body : Nat → State → State)
    (hbody : ∀ radio_i s, Frame s (body radio_i s)) (s : State) :
    Frame s (forEachRadio body s) :=
  forEachRadio_invariant (Frame s) body (fun i _ h => h.trans (hbody i _)) s (Frame.refl s)

theorem frame_init_radios (s : State) : Frame s (__init_radios s) := by
  apply frame_forEachRadio
  intro i s
  have h1 : Frame s (Jam.emit s [HwCall.newRF24 s.objects (unit s i).ce_pin (unit s i).csn_pin]) :=
    frame_emit _ _ (by simp [isLifecycle])
  have h2 := frame_setUnit
    (Jam.emit s [HwCall.newRF24 s.objects (unit s i).ce_pin (unit s i).csn_pin]) i (some s.objects)
  have h3 := h1.trans h2
  exact ⟨h3.nrf24_count, h3.mode, h3.jam, h3.constCarrier, h3.configs, h3.hw⟩

theorem frame_deinit_radios (stopConstCarrier : Bool) (s : State) :
    Frame s (__deinit_radios stopConstCarrier s) := by
  apply frame_forEachRadio
  intro i s
  cases hu : (unit s i).radio with
  | none =>
    simp only [__deinit_radios_body, hu]
    exact Frame.refl s
  | some obj =>
    simp only [__deinit_radios_body, hu]
    have h1 : Frame s (if stopConstCarrier = true then
        Jam.emit s [HwCall.radio i (some obj) RadioCall.stopConstCarrier] else s) := by
      split_ifs
      · exact frame_emit _ _ (by simp [isLifecycle])
      · exact Frame.refl s
    have h2 := frame_emit (if stopConstCarrier = true then
        Jam.emit s [HwCall.radio i (some obj) RadioCall.stopConstCarrier] else s)
        [HwCall.radio i (some obj) RadioCall.powerDown, HwCall.deleteRF24 obj]
        (by simp [isLifecycle])
    have h3 := frame_setUnit (Jam.emit (if stopConstCarrier = true then
        Jam.emit s [HwCall.radio i (some obj) RadioCall.stopConstCarrier] else s)
        [HwCall.radio i (some obj) RadioCall.powerDown, HwCall.deleteRF24 obj]) i none
    have hunit : unit (Jam.emit (if stopConstCarrier = true then
        Jam.emit s [HwCall.radio i (some obj) RadioCall.stopConstCarrier] else s)
        [HwCall.radio i (some obj) RadioCall.powerDown, HwCall.deleteRF24 obj]) i = unit s i := by
      split_ifs <;> rfl
    rw [hunit] at h3
    exact h1.trans (h2.trans h3)

theorem frame_hspi_init (s : State) : Frame s (__hspi_init s) := by
  have h1 : Frame s { Jam.emit s [HwCall.newSPI s.objects] with
      __hp := some s.objects, objects := s.objects + 1 } :=
    ⟨rfl, rfl, rfl, rfl, rfl, [HwCall.newSPI s.objects], rfl, by simp [isLifecycle]⟩
  have h2 : ∀ s : State, Frame s (Jam.emit s ([SpiCall.begin, SpiCall.setFrequency 16000000,
      SpiCall.setBitOrder_MSBFIRST, SpiCall.setDataMode_SPI_MODE0].map (HwCall.spi s.__hp))) :=
    fun s => frame_emit _ _ (by simp [isLifecycle])
  have h3 : ∀ s : State, Frame s (forEachRadio __hspi_init_body s) := by
    intro s
    apply frame_forEachRadio
    intro i s
    exact frame_emit _ _ (by simp [isLifecycle])
  exact h1.trans ((h2 _).trans (h3 _))

theorem frame_hspi_deinit (s : State) : Frame s (__hspi_deinit s) := by
  unfold Jam.__hspi_deinit
  split
  · exact Frame.refl s
  · exact ⟨rfl, rfl, rfl, rfl, rfl, _, rfl, by simp [isLifecycle]⟩

theorem frame_jam_start (s : State) : Frame s (jam_start s) := by
  have h1 : Frame s (if s.__is_initialized = true then s else __hspi_init (__init_radios s)) := by
    split_ifs
    · exact Frame.refl s
    · exact (frame_init_radios s).trans (frame_hspi_init _)
  have h2 : ∀ s : State, Frame s (if s.__constCarrier = true then forEachRadio jam_start_body s
      else s) := by
    intro s
    split_ifs
    · exact frame_forEachRadio _ (fun i s => frame_emit _ _ (by simp [isLifecycle])) s
    · exact Frame.refl s
  have h3 := h1.trans (h2 _)
  exact ⟨h3.nrf24_count, h3.mode, h3.jam, h3.constCarrier, h3.configs, h3.hw⟩

theorem jam_start_is_initialized (s : State) : (jam_start s).__is_initialized = true := rfl

/-- What `jam_stop` leaves alone, the mode and the carrier flag apart. -/
theorem jam_stop_frame (s : State) :
    (jam_stop s).__nrf24_count = s.__nrf24_count ∧ (jam_stop s).__mode = s.__mode ∧
    (jam_stop s).__radios.map (List.map config) = s.__radios.map (List.map config) ∧
    ∃ calls, (jam_stop s).hw = s.hw ++ calls ∧ ∀ c ∈ calls, isLifecycle c = true := by
  unfold jam_stop
  split_ifs
  · have h := (frame_deinit_radios s.__constCarrier s).trans (frame_hspi_deinit _)
    exact ⟨h.nrf24_count, h.mode, h.configs, h.hw⟩
  · exact ⟨rfl, rfl, rfl, [], by simp, by simp⟩
theorem enter_frame (constCarrier : Bool) (jam : jam_mode_e) (s : State) :
    (enter constCarrier jam s).__nrf24_count = s.__nrf24_count ∧
    (enter constCarrier jam s).__mode = s.__mode ∧
    (enter constCarrier jam s).__radios.map (List.map config) =
      s.__radios.map (List.map config) ∧
    ∃ calls, (enter constCarrier jam s).hw = s.hw ++ calls ∧
      ∀ c ∈ calls, isLifecycle c = true := by
  unfold enter
  split_ifs
  · have h := frame_jam_start s
    exact ⟨h.nrf24_count, h.mode, h.configs, h.hw⟩
  · exact ⟨rfl, rfl, rfl, [], by simp, by simp⟩

theorem enter_jam (constCarrier : Bool) (jam : jam_mode_e) (s : State) :
    (enter constCarrier jam s).__jam = if s.__jam = JAMMING_IDLE then jam else s.__jam := by
  unfold enter
  split_ifs <;> rfl

theorem enter_of_ne_idle (constCarrier : Bool) (jam : jam_mode_e) (s : State)
    (h : s.__jam ≠ JAMMING_IDLE) : enter constCarrier jam s = s := by
  rw [enter, if_neg h]

/-! ## The Standalone pass -/

/-- The counter values of the rounds of a Standalone pass, in order: the
`total_channels` values that follow the first one, modulo 256. -/
theorem standalone_counters (t ch n : Nat) (hn : 1 ≤ n) (ht : t ≤ 255) (hch : ch < 256) :
    ∃ rounds, standalone t ch n = some rounds ∧
      rounds.map Prod.snd = (List.range t).map (fun k => (ch + k) % 256) := by
  refine ⟨_, standalone_eq t ch n hn hch, ?_⟩
  have key : ∀ k, k ≤ n →
      ((List.range k).flatMap (fun r => (List.range (count t n r)).map
        (fun j => (r, (ch + offset t n r + j) % 256)))).map Prod.snd =
      (List.range (offset t n k)).map (fun k => (ch + k) % 256) := by
    intro k
    induction k with
    | zero => intro _; simp [offset]
    | succ k ih =>
      intro hk
      rw [List.range_succ, List.flatMap_append, List.map_append, ih (by omega), offset_succ,
        List.flatMap_singleton, List.map_map, Nat.add_comm (offset t n k),
        List.range_eq_range' (n := count t n k + offset t n k),
        ← List.range'_append_1 0 (offset t n k) (count t n k), List.map_append]
      congr 1
      · rw [List.range_eq_range']
      · rw [List.range'_eq_map_range, List.map_map]
        apply List.map_congr_left
        intro j _
        simp only [Function.comp, Nat.zero_add]
        congr 1
        omega
  rw [key n (Nat.le_refl n), offset_total t n hn ht]

theorem flatMap_single_eq_map {α β : Type} (l : List α) (f : α → β) :
    l.flatMap (fun x => [f x]) = l.map f := by
  induction l with
  | nil => rfl
  | cons a l ih => simp [ih]

theorem issued_pass (left : Bool) (s s1 : State) (boot calls : List HwCall)
    (h : s1.hw = s.hw ++ boot) : issued s (pass left s1 calls) = boot ++ calls := by
  simp [issued, pass, emit, h]

theorem channels_lifecycle (boot : List HwCall) (h : ∀ c ∈ boot, isLifecycle c = true) :
    channels boot = [] ∧ ∀ radio_i, channelsOn radio_i boot = [] := by
  have key : ∀ c ∈ boot, channelOf c = none ∧ ∀ radio_i, channelOn radio_i c = none := by
    intro c hc
    have := h c hc
    cases c with
    | radio i p rc => cases rc <;> simp_all [isLifecycle, channelOf, channelOn]
    | _ => simp [channelOf, channelOn]
  refine ⟨?_, fun radio_i => ?_⟩
  · rw [channels, List.filterMap_eq_nil_iff]
    exact fun c hc => (key c hc).1
  · rw [channelsOn, List.filterMap_eq_nil_iff]
    exact fun c hc => (key c hc).2 radio_i

theorem channels_append (a b : List HwCall) : channels (a ++ b) = channels a ++ channels b := by
  simp [channels]

theorem channels_rounds (s : State) (f : Nat → Nat) (rounds : List (Nat × Nat)) :
    channels (rounds.flatMap fun r => [setChannel s r.1 (f r.2)]) =
      (rounds.map Prod.snd).map f ∧
    channels (rounds.flatMap fun r => [setChannel s r.1 (f r.2), writeFast s r.1]) =
      (rounds.map Prod.snd).map f := by
  induction rounds with
  | nil => exact ⟨rfl, rfl⟩
  | cons a l ih =>
    constructor
    · rw [List.flatMap_cons, channels_append, ih.1]
      simp [channels, setChannel, channelOf]
    · rw [List.flatMap_cons, channels_append, ih.2]
      simp [channels, setChannel, writeFast, channelOf]

/-- The channels of one Standalone pass entered through `enter`: the image
under `f` of the counter values. -/
theorem standalone_pass_channels (s : State) (constCarrier : Bool) (jam : jam_mode_e)
    (t ch : Nat) (f : Nat → Nat) (ht : t ≤ 255) (hch : ch < 256)
    (hn : 1 ≤ s.__nrf24_count) :
    ∃ rounds, standalone t ch (enter constCarrier jam s).__nrf24_count = some rounds ∧
      channels (issued s (pass true (enter constCarrier jam s) (rounds.flatMap fun r =>
        [setChannel (enter constCarrier jam s) r.1 (f r.2)]))) =
          (List.range t).map (fun k => f ((ch + k) % 256)) ∧
      channels (issued s (pass true (enter constCarrier jam s) (rounds.flatMap fun r =>
        [setChannel (enter constCarrier jam s) r.1 (f r.2),
          writeFast (enter constCarrier jam s) r.1]))) =
          (List.range t).map (fun k => f ((ch + k) % 256)) := by
  obtain ⟨hc, -, -, boot, hboot, hlife⟩ := enter_frame constCarrier jam s
  obtain ⟨rounds, hr, hsnd⟩ := standalone_counters t ch s.__nrf24_count hn ht hch
  refine ⟨rounds, by rw [hc, hr], ?_, ?_⟩
  · rw [issued_pass _ _ _ _ _ hboot, channels_append, (channels_lifecycle boot hlife).1,
      (channels_rounds _ f rounds).1, hsnd, List.map_map]
    rfl
  · rw [issued_pass _ _ _ _ _ hboot, channels_append, (channels_lifecycle boot hlife).1,
      (channels_rounds _ f rounds).2, hsnd, List.map_map]
    rfl

theorem channelsOn_append (radio_i : Nat) (a b : List HwCall) :
    channelsOn radio_i (a ++ b) = channelsOn radio_i a ++ channelsOn radio_i b := by
  simp [channelsOn]

theorem channelsOn_allRadios (s : State) (radio_i c : Nat) (hi : radio_i < s.__nrf24_count) :
    channelsOn radio_i (allRadios s fun r => [setChannel s r c]) = [c] ∧
    channelsOn radio_i (allRadios s fun r => [setChannel s r c, writeFast s r]) = [c] := by
  have h1 : ∀ r, channelsOn radio_i [setChannel s r c] = if r = radio_i then [c] else [] := by
    intro r
    by_cases h : r = radio_i <;> simp [channelsOn, setChannel, channelOn, h]
  have h2 : ∀ r, channelsOn radio_i [setChannel s r c, writeFast s r] =
      if r = radio_i then [c] else [] := by
    intro r
    by_cases h : r = radio_i <;> simp [channelsOn, setChannel, writeFast, channelOn, h]
  constructor
  · rw [allRadios, channelsOn, List.filterMap_flatMap]
    exact (List.flatMap_congr fun r _ => h1 r).trans
      (flatMap_range_single (fun _ => [c]) _ _ hi)
  · rw [allRadios, channelsOn, List.filterMap_flatMap]
    exact (List.flatMap_congr fun r _ => h2 r).trans
      (flatMap_range_single (fun _ => [c]) _ _ hi)

/-- In a Simultaneous pass every radio is tuned to the channel of every round
of the channel loop, in the order of the rounds. -/
theorem channelsOn_simultaneous (s : State) (f : Nat → Nat) (chans : List Nat) (radio_i : Nat)
    (hi : radio_i < s.__nrf24_count) :
    channelsOn radio_i (chans.flatMap fun ch => allRadios s fun r => [setChannel s r (f ch)]) =
      chans.map f ∧
    channelsOn radio_i (chans.flatMap fun ch =>
      allRadios s fun r => [setChannel s r (f ch), writeFast s r]) = chans.map f := by
  induction chans with
  | nil => exact ⟨rfl, rfl⟩
  | cons a l ih =>
    constructor
    · rw [List.flatMap_cons, channelsOn_append, ih.1, (channelsOn_allRadios s radio_i _ hi).1]
      rfl
    · rw [List.flatMap_cons, channelsOn_append, ih.2, (channelsOn_allRadios s radio_i _ hi).2]
      rfl

/-- The channels on one radio of a protocol call whose pass, if any, is a
Simultaneous pass over the rounds `chans`. -/
theorem simultaneous_pass_channels (s : State) (constCarrier : Bool) (jam : jam_mode_e)
    (left : Bool) (f : Nat → Nat) (chans : List Nat) (radio_i : Nat)
    (hi : radio_i < s.__nrf24_count) :
    channelsOn radio_i (issued s (pass left (enter constCarrier jam s) (chans.flatMap fun ch =>
      allRadios (enter constCarrier jam s) fun r =>
        [setChannel (enter constCarrier jam s) r (f ch)]))) = chans.map f ∧
    channelsOn radio_i (issued s (pass left (enter constCarrier jam s) (chans.flatMap fun ch =>
      allRadios (enter constCarrier jam s) fun r =>
        [setChannel (enter constCarrier jam s) r (f ch),
          writeFast (enter constCarrier jam s) r]))) = chans.map f ∧
    channelsOn radio_i (issued s ⟨Status.returns, enter constCarrier jam s⟩) = [] := by
  obtain ⟨hc, -, -, boot, hboot, hlife⟩ := enter_frame constCarrier jam s
  have hi1 : radio_i < (enter constCarrier jam s).__nrf24_count := by rw [hc]; exact hi
  refine ⟨?_, ?_, ?_⟩
  · rw [issued_pass _ _ _ _ _ hboot, channelsOn_append, (channels_lifecycle boot hlife).2,
      (channelsOn_simultaneous _ f chans radio_i hi1).1]
    rfl
  · rw [issued_pass _ _ _ _ _ hboot, channelsOn_append, (channels_lifecycle boot hlife).2,
      (channelsOn_simultaneous _ f chans radio_i hi1).2]
    rfl
  · have : issued s ⟨Status.returns, enter constCarrier jam s⟩ = boot := by
      simp [issued, hboot]
    rw [this, (channels_lifecycle boot hlife).2]

/-- C4: in Simultaneous mode, for every protocol entry point with any arguments
(random draws and unassigned `channel` values taken from an arbitrary `env`),
and any two radios `i`, `j` of the pool, the channel values tuned on radio `i`
by the call are, element by element and in the same order, the channel values
tuned on radio `j`. -/
theorem C4_simultaneous_identical (c : Call) (s : State)
    (hm : s.__mode = JAM_TX_SIMULTANEOUS) (i j : Nat)
    (hi : i < s.__nrf24_count) (hj : j < s.__nrf24_count) :
    channelsOn i (issued s (c.run s)) = channelsOn j (issued s (c.run s)) := by
  have hmode : ∀ (cc : Bool) (jam : jam_mode_e),
      (enter cc jam s).__mode = JAM_TX_SIMULTANEOUS :=
    fun cc jam => (enter_frame cc jam s).2.1.trans hm
  cases c with
  | bluetooth_jam env method =>
    by_cases hX : (enter true JAMMING_BLUETOOTH s).__jam = JAMMING_BLUETOOTH
    · simp only [Call.run, bluetooth_jam, hX, hmode, ↓reduceIte, reduceCtorEq]
      exact (simultaneous_pass_channels s true _ _ _ _ i hi).1.trans
        (simultaneous_pass_channels s true _ _ _ _ j hj).1.symm
    · simp only [Call.run, bluetooth_jam, hX, ↓reduceIte]
      exact (simultaneous_pass_channels s true _ true id [] i hi).2.2.trans
        (simultaneous_pass_channels s true _ true id [] j hj).2.2.symm
  | drone_jam env method =>
    by_cases hX : (enter true JAMMING_DRONE s).__jam = JAMMING_DRONE
    · simp only [Call.run, drone_jam, hX, hmode, ↓reduceIte, reduceCtorEq]
      exact (simultaneous_pass_channels s true _ _ _ _ i hi).1.trans
        (simultaneous_pass_channels s true _ _ _ _ j hj).1.symm
    · simp only [Call.run, drone_jam, hX, ↓reduceIte]
      exact (simultaneous_pass_channels s true _ true id [] i hi).2.2.trans
        (simultaneous_pass_channels s true _ true id [] j hj).2.2.symm
  | ble_jam =>
    by_cases hX : (enter false JAMMING_BLE s).__jam = JAMMING_BLE
    · simp only [Call.run, ble_jam, hX, hmode, ↓reduceIte, reduceCtorEq]
      exact (simultaneous_pass_channels s false _ _ _ _ i hi).1.trans
        (simultaneous_pass_channels s false _ _ _ _ j hj).1.symm
    · simp only [Call.run, ble_jam, hX, ↓reduceIte]
      exact (simultaneous_pass_channels s false _ true id [] i hi).2.2.trans
        (simultaneous_pass_channels s false _ true id [] j hj).2.2.symm
  | wifi_jam channel =>
    by_cases hX : (enter false JAMMING_WIFI s).__jam = JAMMING_WIFI
    · simp only [Call.run, wifi_jam, hX, hmode, ↓reduceIte, reduceCtorEq]
      split_ifs
      · exact (simultaneous_pass_channels s false _ _ id _ i hi).2.1.trans
          (simultaneous_pass_channels s false _ _ id _ j hj).2.1.symm
      · exact (simultaneous_pass_channels s false _ _ id _ i hi).2.1.trans
          (simultaneous_pass_channels s false _ _ id _ j hj).2.1.symm
    · simp only [Call.run, wifi_jam, hX, ↓reduceIte]
      exact (simultaneous_pass_channels s false _ true id [] i hi).2.2.trans
        (simultaneous_pass_channels s false _ true id [] j hj).2.2.symm
  | zigbee_jam =>
    by_cases hX : (enter false JAMMING_ZIGBEE s).__jam = JAMMING_ZIGBEE
    · simp only [Call.run, zigbee_jam, hX, hmode, ↓reduceIte, reduceCtorEq]
      rw [← List.flatMap_assoc]
      exact (simultaneous_pass_channels s false _ _ id _ i hi).2.1.trans
        (simultaneous_pass_channels s false _ _ id _ j hj).2.1.symm
    · simp only [Call.run, zigbee_jam, hX, ↓reduceIte]
      exact (simultaneous_pass_channels s false _ true id [] i hi).2.2.trans
        (simultaneous_pass_channels s false _ true id [] j hj).2.2.symm
  | misc_jam channel1 channel2 =>
    by_cases hX : (enter true JAMMING_MISC s).__jam = JAMMING_MISC
    · simp only [Call.run, misc_jam, hX, hmode, ↓reduceIte, reduceCtorEq]
      exact (simultaneous_pass_channels s true _ _ id _ i hi).2.1.trans
        (simultaneous_pass_channels s true _ _ id _ j hj).2.1.symm
    · simp only [Call.run, misc_jam, hX, ↓reduceIte]
      exact (simultaneous_pass_channels s true _ true id [] i hi).2.2.trans
        (simultaneous_pass_channels s true _ true id [] j hj).2.2.symm

/-- Three loaded radios in Simultaneous mode: a Zigbee pass tunes radio 0 and radio 2 alike. -/
theorem C4_simultaneous_identical_witness :
    (set_jam_tx_mode JAM_TX_SIMULTANEOUS
      (load_radios (fun _ => ⟨none, 0, 0, 0⟩) (fun i => ⟨i, i + 8, 0⟩) 3 init).2).__mode =
        JAM_TX_SIMULTANEOUS ∧
    channelsOn 0 (issued (set_jam_tx_mode JAM_TX_SIMULTANEOUS
        (load_radios (fun _ => ⟨none, 0, 0, 0⟩) (fun i => ⟨i, i + 8, 0⟩) 3 init).2)
      (Call.zigbee_jam.run (set_jam_tx_mode JAM_TX_SIMULTANEOUS
        (load_radios (fun _ => ⟨none, 0, 0, 0⟩) (fun i => ⟨i, i + 8, 0⟩) 3 init).2))) =
    channelsOn 2 (issued (set_jam_tx_mode JAM_TX_SIMULTANEOUS
        (load_radios (fun _ => ⟨none, 0, 0, 0⟩) (fun i => ⟨i, i + 8, 0⟩) 3 init).2)
      (Call.zigbee_jam.run (set_jam_tx_mode JAM_TX_SIMULTANEOUS
        (load_radios (fun _ => ⟨none, 0, 0, 0⟩) (fun i => ⟨i, i + 8, 0⟩) 3 init).2))) :=
  ⟨by decide, C4_simultaneous_identical Call.zigbee_jam
    (set_jam_tx_mode JAM_TX_SIMULTANEOUS
      (load_radios (fun _ => ⟨none, 0, 0, 0⟩) (fun i => ⟨i, i + 8, 0⟩) 3 init).2)
    (by decide) 0 2 (by decide) (by decide)⟩

/-! ## The session state machine -/

/-- C5: when the mode is some non-idle `Y`, a call of the entry point of a
different mode returns at once and leaves the whole state as it is: mode,
carrier flag, tx mode, bootstrap flag, pool, and the hardware trace (no action
is issued); in particular `zigbee_jam` in mode Bluetooth leaves the mode
Bluetooth. -/
theorem C5_sticky_mode (c : Call) (s : State) (hY : s.__jam ≠ JAMMING_IDLE)
    (hX : s.__jam ≠ c.jam) :
    c.run s = ⟨Status.returns, s⟩ ∧ issued s (c.run s) = [] ∧
    (s.__jam = JAMMING_BLUETOOTH → (zigbee_jam s).state.__jam = JAMMING_BLUETOOTH) := by
  have h : c.run s = ⟨Status.returns, s⟩ := by
    cases c <;> simp only [Call.jam] at hX <;>
      simp only [Call.run, bluetooth_jam, drone_jam, ble_jam, wifi_jam, zigbee_jam, misc_jam,
        enter_of_ne_idle _ _ s hY, hX, ↓reduceIte]
  refine ⟨h, by simp [h, issued], fun hb => ?_⟩
  simp only [zigbee_jam, enter_of_ne_idle _ _ s hY, hb, reduceCtorEq, ↓reduceIte]

/-- Three loaded radios in mode Bluetooth: `zigbee_jam` returns the state unchanged. -/
theorem C5_sticky_mode_witness :
    (bluetooth_jam ⟨fun _ => 0, fun _ => 0⟩ 0
      (load_radios (fun _ => ⟨none, 0, 0, 0⟩) (fun i => ⟨i, i + 8, 0⟩) 3 init).2).state.__jam ≠
        JAMMING_IDLE ∧
    Call.zigbee_jam.run (bluetooth_jam ⟨fun _ => 0, fun _ => 0⟩ 0
      (load_radios (fun _ => ⟨none, 0, 0, 0⟩) (fun i => ⟨i, i + 8, 0⟩) 3 init).2).state =
    ⟨Status.returns, (bluetooth_jam ⟨fun _ => 0, fun _ => 0⟩ 0
      (load_radios (fun _ => ⟨none, 0, 0, 0⟩) (fun i => ⟨i, i + 8, 0⟩) 3 init).2).state⟩ :=
  ⟨by decide, (C5_sticky_mode Call.zigbee_jam (bluetooth_jam ⟨fun _ => 0, fun _ => 0⟩ 0
      (load_radios (fun _ => ⟨none, 0, 0, 0⟩) (fun i => ⟨i, i + 8, 0⟩) 3 init).2).state
    (by decide) (by decide)).1⟩

theorem emit_nil (s : State) : emit s [] = s := by
  simp [emit]

/-- Every protocol call ends in the state its entry block produced, with
further hardware actions at most. -/
theorem run_shape (c : Call) (s : State) :
    ∃ calls, (c.run s).state = emit (enter (protocolDefault c.jam) c.jam s) calls := by
  cases c <;>
    simp only [Call.run, Call.jam, protocolDefault, bluetooth_jam, drone_jam, ble_jam, wifi_jam,
      zigbee_jam, misc_jam, pass, standalonePass] <;>
    repeat' split
  all_goals first
    | exact ⟨_, rfl⟩
    | exact ⟨[], (emit_nil _).symm⟩

theorem forU8_left_iff (cond : Nat → Bool) (fuel ch : Nat) (hch : ch < 256) :
    (forU8 cond fuel ch).2 = true ↔ ∃ k, k ≤ fuel ∧ cond ((ch + k) % 256) = false := by
  induction fuel generalizing ch with
  | zero =>
    simp only [forU8, Bool.not_eq_true', Nat.le_zero]
    constructor
    · intro h; exact ⟨0, rfl, by simpa [Nat.mod_eq_of_lt hch] using h⟩
    · rintro ⟨k, rfl, h⟩; simpa [Nat.mod_eq_of_lt hch] using h
  | succ fuel ih =>
    rw [forU8]
    by_cases hc : cond ch = true
    · rw [if_pos hc]
      simp only
      rw [ih _ (Nat.mod_lt _ (by decide))]
      constructor
      · rintro ⟨k, hk, h⟩
        refine ⟨k + 1, by omega, ?_⟩
        rw [show (ch + (k + 1)) % 256 = ((ch + 1) % 256 + k) % 256 by omega]
        exact h
      · rintro ⟨k, hk, h⟩
        cases k with
        | zero => simp [Nat.mod_eq_of_lt hch, hc] at h
        | succ k =>
          refine ⟨k, by omega, ?_⟩
          rw [show ((ch + 1) % 256 + k) % 256 = (ch + (k + 1)) % 256 by omega]
          exact h
    · rw [if_neg hc]
      simp only [true_iff]
      exact ⟨0, by omega, by simpa [Nat.mod_eq_of_lt hch] using hc⟩

/-- A loop over a `uint8_t` counter is left exactly when some value of the
counter fails its condition. -/
theorem channelLoop_left_iff (cond : Nat → Bool) (ch : Nat) (hch : ch < 256) :
    (channelLoop cond ch).2 = true ↔ ∃ v, v < 256 ∧ cond v = false := by
  rw [channelLoop, forU8_left_iff cond 256 ch hch]
  constructor
  · rintro ⟨k, _, h⟩
    exact ⟨(ch + k) % 256, Nat.mod_lt _ (by decide), h⟩
  · rintro ⟨v, hv, h⟩
    refine ⟨(v + 256 - ch) % 256, by omega, ?_⟩
    rw [show (ch + (v + 256 - ch) % 256) % 256 = v by omega]
    exact h

theorem standalonePass_status (t ch : Nat) (s : State) (body : Nat → Nat → List HwCall) :
    (standalonePass t ch s body).status =
      if s.__nrf24_count = 0 then Status.divisionByZero else Status.returns := by
  unfold standalonePass standalone
  split_ifs <;> rfl

theorem pass_returns_iff (left : Bool) (s : State) (calls : List HwCall) :
    (pass left s calls).status = Status.returns ↔ left = true := by
  cases left <;> simp [pass]

/-- When a protocol call made in mode Idle returns. -/
theorem run_returns_iff (c : Call) (s : State) (ht : c.typed) (hidle : s.__jam = JAMMING_IDLE) :
    (c.run s).status = Status.returns ↔
      (s.__mode = JAM_TX_STANDALONE → 1 ≤ s.__nrf24_count) ∧
      (s.__mode = JAM_TX_SIMULTANEOUS → ¬ c.endless) := by
  have hjam : ∀ (cc : Bool) (jam : jam_mode_e), (enter cc jam s).__jam = jam := by
    intro cc jam; rw [enter_jam, if_pos hidle]
  have hmode : ∀ (cc : Bool) (jam : jam_mode_e), (enter cc jam s).__mode = s.__mode :=
    fun cc jam => (enter_frame cc jam s).2.1
  have hcount : ∀ (cc : Bool) (jam : jam_mode_e),
      (enter cc jam s).__nrf24_count = s.__nrf24_count :=
    fun cc jam => (enter_frame cc jam s).1
  have hdiv : (if s.__nrf24_count = 0 then Status.divisionByZero else Status.returns) =
      Status.returns ↔ 1 ≤ s.__nrf24_count := by
    split_ifs with h
    · simp [h]
    · simp; omega
  cases hm : s.__mode with
  | JAM_TX_STANDALONE =>
    simp only [reduceCtorEq, false_implies, and_true, true_implies]
    cases c <;>
      simp only [Call.run, bluetooth_jam, drone_jam, ble_jam, wifi_jam, zigbee_jam, misc_jam,
        hjam, hmode, hm, ↓reduceIte]
    case wifi_jam channel =>
      split_ifs <;> rw [standalonePass_status, hcount, hdiv]
    all_goals rw [standalonePass_status, hcount, hdiv]
  | JAM_TX_SIMULTANEOUS =>
    simp only [reduceCtorEq, false_implies, true_and, true_implies]
    cases c <;>
      simp only [Call.run, bluetooth_jam, drone_jam, ble_jam, wifi_jam, zigbee_jam, misc_jam,
        hjam, hmode, hm, ↓reduceIte, reduceCtorEq, Call.endless, not_false_eq_true, iff_true,
        pass_returns_iff]
    case bluetooth_jam env method =>
      rw [channelLoop_left_iff _ 0 (by decide)]
      exact ⟨255, by decide, by split_ifs <;> simp⟩
    case drone_jam env method =>
      rw [channelLoop_left_iff _ 0 (by decide)]
      exact ⟨255, by decide, by simp⟩
    case ble_jam =>
      rw [channelLoop_left_iff _ 0 (by decide)]
      exact ⟨255, by decide, by simp⟩
    case wifi_jam channel =>
      simp only [Call.typed] at ht
      split_ifs with hneg
      · rw [pass_returns_iff, channelLoop_left_iff _ 1 (by decide)]
        have : ¬ (47 ≤ channel) := by omega
        simp only [this, not_false_eq_true, iff_true]
        exact ⟨255, by decide, by simp⟩
      · have hstart : ((channel * 5 + 1) % 256).toNat < 256 := by omega
        rw [pass_returns_iff, channelLoop_left_iff _ _ hstart]
        constructor
        · rintro ⟨v, hv, h⟩
          simp only [decide_eq_false_iff_not] at h
          omega
        · intro h
          exact ⟨255, by decide, by simp only [decide_eq_false_iff_not]; omega⟩
    case zigbee_jam => decide
    case misc_jam channel1 channel2 =>
      simp only [Call.typed] at ht
      rw [channelLoop_left_iff _ _ ht.1]
      constructor
      · rintro ⟨v, hv, h⟩
        simp only [decide_eq_false_iff_not] at h
        omega
      · intro h
        exact ⟨255, by decide, by simp only [decide_eq_false_iff_not]; omega⟩

theorem enter_idle (constCarrier : Bool) (jam : jam_mode_e) (s : State)
    (hidle : s.__jam = JAMMING_IDLE) :
    (enter constCarrier jam s).__jam = jam ∧ (enter constCarrier jam s).__is_initialized = true ∧
    (enter constCarrier jam s).__constCarrier = constCarrier := by
  rw [enter, if_pos hidle]
  exact ⟨rfl, rfl, rfl⟩

/-- In every state reached from a state with the property: while the
hardware is not bootstrapped the mode is Idle and the carrier flag is clear. -/
theorem steps_idle_invariant (s0 s : State)
    (h0 : s0.__is_initialized = false → s0.__jam = JAMMING_IDLE ∧ s0.__constCarrier = false)
    (h : Steps s0 s) :
    s.__is_initialized = false → s.__jam = JAMMING_IDLE ∧ s.__constCarrier = false := by
  induction h with
  | refl => exact h0
  | step op s' _ _ _ ih =>
    cases op with
    | load_radios fresh radios_config count =>
      simp only [Op.run, load_radios]
      split_ifs <;> exact ih
    | set_jam_tx_mode mode => exact ih
    | jam_start =>
      intro h
      exact absurd h (by simp [Op.run, jam_start_is_initialized])
    | jam_stop =>
      simp only [Op.run, jam_stop]
      split_ifs with hi
      · exact fun _ => ⟨rfl, rfl⟩
      · exact ih
    | protocol c =>
      obtain ⟨calls, hc⟩ := run_shape c s'
      simp only [Op.run, hc]
      by_cases hidle : s'.__jam = JAMMING_IDLE
      · intro h
        have := (enter_idle (protocolDefault c.jam) c.jam s' hidle).2.1
        simp only [emit] at h
        rw [this] at h
        cases h
      · rw [enter_of_ne_idle _ _ s' hidle]
        exact ih

theorem take_set_succ {α : Type} (rs : List α) (i : Nat) (a : α) (h : i < rs.length) :
    (rs.set i a).take (i + 1) = rs.take i ++ [a] := by
  induction rs generalizing i with
  | nil => simp at h
  | cons b rs ih =>
    cases i with
    | zero => simp
    | succ i => simpa using ih i (by simpa using h)

/-- The loop of `load_radios` runs to its end when every remaining power
level is valid, and has then written the remaining units. -/
theorem load_radios_loop_valid (radios_config : Nat → radio_config_s) (k i : Nat)
    (rs : List __radio_t) (hlen : rs.length = i + k)
    (hv : ∀ j, i ≤ j → j < i + k → (radios_config j).pa_level ≤ RF24_PA_MAX) :
    load_radios_loop radios_config k i rs =
      (true, rs.take i ++ (List.range' i k).map fun j => loaded (radios_config j)) := by
  induction k generalizing i rs with
  | zero =>
    rw [load_radios_loop, List.range'_zero, List.map_nil, List.append_nil,
      List.take_of_length_le (by omega)]
  | succ k ih =>
    have hi := hv i (Nat.le_refl i) (by omega)
    rw [load_radios_loop]
    simp only [gt_iff_lt, Nat.not_lt.mpr hi, ↓reduceIte]
    rw [ih (i + 1) _ (by rw [List.length_set]; omega) (fun j h1 h2 => hv j (by omega) (by omega)),
      take_set_succ rs i _ (by omega), List.range'_succ, List.map_cons, List.append_assoc]
    rfl

/-- The loop of `load_radios` takes the early return when a remaining power
level is invalid. -/
theorem load_radios_loop_invalid (radios_config : Nat → radio_config_s) (k i : Nat)
    (rs : List __radio_t)
    (hv : ∃ j, i ≤ j ∧ j < i + k ∧ RF24_PA_MAX < (radios_config j).pa_level) :
    (load_radios_loop radios_config k i rs).1 = false := by
  induction k generalizing i rs with
  | zero => obtain ⟨j, h1, h2, -⟩ := hv; omega
  | succ k ih =>
    rw [load_radios_loop]
    simp only [gt_iff_lt]
    split_ifs with h
    · rfl
    · obtain ⟨j, h1, h2, h3⟩ := hv
      apply ih
      refine ⟨j, ?_, by omega, h3⟩
      rcases Nat.eq_or_lt_of_le h1 with h4 | h4
      · subst h4; exact absurd h3 h
      · exact h4

theorem load_radios_of_valid (fresh : Nat → __radio_t) (radios_config : Nat → radio_config_s)
    (count : Nat) (s : State) (hnew : s.__radios = none)
    (hv : ∀ i, i < count → (radios_config i).pa_level ≤ RF24_PA_MAX) :
    load_radios fresh radios_config count s =
      (true,
        { s with
          __nrf24_count := count
          __radios := some ((List.range count).map fun i => loaded (radios_config i)) }) := by
  rw [load_radios, if_neg (by simp [hnew]),
    load_radios_loop_valid radios_config count 0 _ (by simp) (fun j _ h => hv j (by omega))]
  simp [List.range_eq_range']

theorem load_radios_true (fresh : Nat → __radio_t) (radios_config : Nat → radio_config_s)
    (count : Nat) (s : State) (h : (load_radios fresh radios_config count s).1 = true) :
    s.__radios = none ∧ ∀ i, i < count → (radios_config i).pa_level ≤ RF24_PA_MAX := by
  by_cases hnew : s.__radios = none
  · refine ⟨hnew, fun i hi => ?_⟩
    by_contra hbad
    have := load_radios_loop_invalid radios_config count 0 ((List.range count).map fresh)
      ⟨i, Nat.zero_le i, by omega, by omega⟩
    rw [load_radios, if_neg (by simp [hnew])] at h
    simp only at h
    rw [this] at h
    cases h
  · rw [load_radios, if_pos hnew] at h
    cases h

theorem load_radios_loaded (fresh : Nat → __radio_t) (radios_config : Nat → radio_config_s)
    (count : Nat) (s : State) (hl : s.__radios ≠ none) :
    load_radios fresh radios_config count s = (false, s) := by
  rw [load_radios, if_pos hl]

/-- C8: on a pool that was never loaded (`__radios` is null), `load_radios`
returns true exactly when each of the `count` records has a power level of at
most `RF24_PA_MAX`; and when it returns true, the only change of the state is
that `__nrf24_count` is `count` and `__radios` holds `count` units, unit `i`
with the pins and power level of `radios_config[i]` and a null driver pointer:
no hardware action has been issued. -/
theorem C8_load_radios (fresh : Nat → __radio_t) (radios_config : Nat → radio_config_s)
    (count : Nat) (s : State) (hnew : s.__radios = none) :
    ((load_radios fresh radios_config count s).1 = true ↔
      ∀ i, i < count → (radios_config i).pa_level ≤ RF24_PA_MAX) ∧
    ((load_radios fresh radios_config count s).1 = true →
      (load_radios fresh radios_config count s).2 =
        { s with __nrf24_count := count,
                 __radios := some ((List.range count).map fun i => loaded (radios_config i)) } ∧
      (load_radios fresh radios_config count s).2.hw = s.hw ∧
      ∀ i, i < count → unit (load_radios fresh radios_config count s).2 i =
        ⟨none, (radios_config i).ce_pin, (radios_config i).csn_pin,
          (radios_config i).pa_level⟩) := by
  constructor
  · constructor
    · exact fun h => (load_radios_true fresh radios_config count s h).2
    · intro hv
      rw [load_radios_of_valid fresh radios_config count s hnew hv]
  · intro h
    rw [load_radios_of_valid fresh radios_config count s hnew
      (load_radios_true fresh radios_config count s h).2]
    refine ⟨rfl, rfl, ?_⟩
    intro i hi
    simp [unit, loaded, List.getD_eq_getElem?_getD, hi]

/-- At program start two records of power level 3 are accepted. -/
theorem C8_load_radios_witness :
    init.__radios = none ∧
    (load_radios (fun _ => ⟨some 5, 9, 9, 9⟩) (fun i => ⟨i, i + 8, 3⟩) 2 init).1 = true :=
  ⟨rfl, (C8_load_radios (fun _ => ⟨some 5, 9, 9, 9⟩) (fun i => ⟨i, i + 8, 3⟩) 2 init rfl).1.2
    (by decide)⟩

/-- A public operation on a loaded pool keeps the number of units and the pins
and power level of every unit. -/
theorem op_keeps_pool (op : Op) (s : State) (hl : s.__radios ≠ none) :
    (op.run s).state.__nrf24_count = s.__nrf24_count ∧
    (op.run s).state.__radios.map (List.map config) = s.__radios.map (List.map config) := by
  cases op with
  | load_radios fresh radios_config count =>
    simp only [Op.run, load_radios_loaded _ _ _ s hl, and_self]
  | set_jam_tx_mode mode => exact ⟨rfl, rfl⟩
  | jam_start => exact ⟨(frame_jam_start s).nrf24_count, (frame_jam_start s).configs⟩
  | jam_stop => exact ⟨(jam_stop_frame s).1, (jam_stop_frame s).2.2.1⟩
  | protocol c =>
    obtain ⟨calls, hc⟩ := run_shape c s
    simp only [Op.run, hc]
    exact ⟨(enter_frame _ _ s).1, (enter_frame _ _ s).2.2.1⟩

theorem steps_keep_pool (s0 s : State) (hl : s0.__radios ≠ none) (h : Steps s0 s) :
    s.__radios ≠ none ∧ s.__nrf24_count = s0.__nrf24_count ∧
    s.__radios.map (List.map config) = s0.__radios.map (List.map config) := by
  induction h with
  | refl => exact ⟨hl, rfl, rfl⟩
  | step op s' _ _ _ ih =>
    obtain ⟨h1, h2⟩ := op_keeps_pool op s' ih.1
    refine ⟨?_, h1.trans ih.2.1, h2.trans ih.2.2⟩
    intro hnone
    rw [hnone] at h2
    cases hs : s'.__radios with
    | none => exact ih.1 hs
    | some rs => rw [hs] at h2; cases h2

/-- C9: after a `load_radios` call that returned true, and after any further
public operations, every `load_radios` call returns false and changes nothing;
the pool still has the `count` units of the first call, with the pins and power
level of its records, in their order. -/
theorem C9_load_radios_once (fresh : Nat → __radio_t) (radios_config : Nat → radio_config_s)
    (count : Nat) (s0 : State) (hload : (load_radios fresh radios_config count s0).1 = true)
    (s : State) (hs : Steps (load_radios fresh radios_config count s0).2 s)
    (fresh' : Nat → __radio_t) (radios_config' : Nat → radio_config_s) (count' : Nat) :
    load_radios fresh' radios_config' count' s = (false, s) ∧
    s.__nrf24_count = count ∧
    s.__radios.map (List.map config) = some ((List.range count).map radios_config) := by
  obtain ⟨hnew, hv⟩ := load_radios_true fresh radios_config count s0 hload
  rw [load_radios_of_valid fresh radios_config count s0 hnew hv] at hs
  obtain ⟨h1, h2, h3⟩ := steps_keep_pool _ s (by simp) hs
  refine ⟨load_radios_loaded _ _ _ s h1, h2, ?_⟩
  rw [h3]
  simp only [Option.map_some', List.map_map, Option.some.injEq]
  apply List.map_congr_left
  intro i _
  rfl

/-- After a load of three radios and `jam_start`, a further load is refused and changes nothing. -/
theorem C9_load_radios_once_witness :
    (load_radios (fun _ => ⟨none, 0, 0, 0⟩) (fun i => ⟨i, i + 8, 0⟩) 3 init).1 = true ∧
    Steps (load_radios (fun _ => ⟨none, 0, 0, 0⟩) (fun i => ⟨i, i + 8, 0⟩) 3 init).2
      (Op.jam_start.run
        (load_radios (fun _ => ⟨none, 0, 0, 0⟩) (fun i => ⟨i, i + 8, 0⟩) 3 init).2).state ∧
    load_radios (fun _ => ⟨none, 0, 0, 0⟩) (fun i => ⟨i + 1, i + 2, 1⟩) 2
      (Op.jam_start.run
        (load_radios (fun _ => ⟨none, 0, 0, 0⟩) (fun i => ⟨i, i + 8, 0⟩) 3 init).2).state =
      (false, (Op.jam_start.run
        (load_radios (fun _ => ⟨none, 0, 0, 0⟩) (fun i => ⟨i, i + 8, 0⟩) 3 init).2).state) :=
  ⟨by decide, Steps.step Op.jam_start _ Steps.refl trivial rfl,
    (C9_load_radios_once (fun _ => ⟨none, 0, 0, 0⟩) (fun i => ⟨i, i + 8, 0⟩) 3 init (by decide)
      _ (Steps.step Op.jam_start _ Steps.refl trivial rfl)
      (fun _ => ⟨none, 0, 0, 0⟩) (fun i => ⟨i + 1, i + 2, 1⟩) 2).1⟩

/-- C10, the code at the failing input: on the pool at program start,
`load_radios` of one record with the invalid power level 4 returns false but
leaves `__radios` non-null and `__nrf24_count = 1`; the retry with the valid
power level 0 is then rejected as well, and so is every later call. -/
theorem C10_rejected_load_blocks_retry :
    (load_radios (fun _ => ⟨some 7, 0, 0, 9⟩) (fun _ => ⟨1, 2, 4⟩) 1 init).1 = false ∧
    (load_radios (fun _ => ⟨some 7, 0, 0, 9⟩) (fun _ => ⟨1, 2, 4⟩) 1 init).2.__radios =
      some [⟨some 7, 1, 2, 9⟩] ∧
    (load_radios (fun _ => ⟨some 7, 0, 0, 9⟩) (fun _ => ⟨1, 2, 4⟩) 1 init).2.__nrf24_count = 1 ∧
    (load_radios (fun _ => ⟨none, 0, 0, 0⟩) (fun _ => ⟨1, 2, 0⟩) 1
      (load_radios (fun _ => ⟨some 7, 0, 0, 9⟩) (fun _ => ⟨1, 2, 4⟩) 1 init).2).1 = false ∧
    ∀ (fresh : Nat → __radio_t) (radios_config : Nat → radio_config_s) (count : Nat),
      (load_radios fresh radios_config count
        (load_radios (fun _ => ⟨some 7, 0, 0, 9⟩) (fun _ => ⟨1, 2, 4⟩) 1 init).2).1 = false := by
  refine ⟨by decide, by decide, by decide, by decide, fun fresh radios_config count => ?_⟩
  rw [load_radios_loaded fresh radios_config count _ (by decide)]

/-! ## Re-invoking `jam_start` -/

theorem emit_emit (s : State) (a b : List HwCall) : emit (emit s a) b = emit s (a ++ b) := by
  simp [emit]

/-- A loop over the radios whose body only issues calls, which do not depend
on the calls issued before, issues the calls of its rounds in order. -/
theorem forEachRadio_emit (g : Nat → State → List HwCall)
    (hg : ∀ i s c, g i (emit s c) = g i s) (s : State) :
    forEachRadio (fun i s => emit s (g i s)) s =
      emit s ((List.range s.__nrf24_count).flatMap fun i => g i s) := by
  unfold forEachRadio
  generalize List.range s.__nrf24_count = l
  have key : ∀ (l : List Nat) (c : List HwCall),
      l.foldl (fun s i => emit s (g i s)) (emit s c) =
        emit s (c ++ l.flatMap fun i => g i s) := by
    intro l
    induction l with
    | nil => intro c; simp
    | cons a l ih =>
      intro c
      rw [List.foldl_cons, hg, emit_emit, ih, List.flatMap_cons, List.append_assoc]
  have h := key l []
  rw [emit_nil, List.nil_append] at h
  exact h

theorem jam_start_loop (s : State) :
    forEachRadio jam_start_body s =
      emit s ((List.range s.__nrf24_count).map fun i =>
        HwCall.radio i (unit s i).radio (RadioCall.startConstCarrier RF24_PA_MAX 45)) := by
  have h := forEachRadio_emit (fun i s =>
    [HwCall.radio i (unit s i).radio (RadioCall.startConstCarrier RF24_PA_MAX 45)])
    (fun _ _ _ => rfl) s
  rw [flatMap_single_eq_map] at h
  exact h

/-- What `jam_start` does when the hardware is bootstrapped already. -/
theorem jam_start_again (s : State) (hi : s.__is_initialized = true) :
    jam_start s = if s.__constCarrier = true then
      emit s ((List.range s.__nrf24_count).map fun i =>
        HwCall.radio i (unit s i).radio (RadioCall.startConstCarrier RF24_PA_MAX 45))
      else s := by
  have heta : ∀ t : State, t.__is_initialized = true → { t with __is_initialized := true } = t := by
    intro t ht
    cases t
    simp_all
  unfold jam_start
  simp only [hi, ↓reduceIte]
  split_ifs with hc
  · rw [jam_start_loop]
    exact heta _ hi
  · exact heta _ hi

/-- In every state reached from a state with the property, the carrier flag is
the protocol default of the mode (clear in mode Idle). -/
theorem steps_constCarrier (s0 s : State)
    (h0 : s0.__constCarrier = protocolDefault s0.__jam) (h : Steps s0 s) :
    s.__constCarrier = protocolDefault s.__jam := by
  induction h with
  | refl => exact h0
  | step op s' _ _ _ ih =>
    cases op with
    | load_radios fresh radios_config count =>
      simp only [Op.run, load_radios]
      split_ifs <;> exact ih
    | set_jam_tx_mode mode => exact ih
    | jam_start =>
      simp only [Op.run]
      rw [(frame_jam_start s').constCarrier, (frame_jam_start s').jam]
      exact ih
    | jam_stop =>
      simp only [Op.run, jam_stop]
      split_ifs
      · rfl
      · exact ih
    | protocol c =>
      obtain ⟨calls, hc⟩ := run_shape c s'
      simp only [Op.run, hc]
      by_cases hidle : s'.__jam = JAMMING_IDLE
      · obtain ⟨h1, -, h3⟩ := enter_idle (protocolDefault c.jam) c.jam s' hidle
        show (enter _ _ s').__constCarrier = protocolDefault (enter _ _ s').__jam
        rw [h1, h3]
      · rw [enter_of_ne_idle _ _ s' hidle]
        exact ih

/-- C11, as the code has it: in a reachable state whose hardware is
bootstrapped, `jam_start` constructs and initialises nothing and changes no
variable; in the modes Idle, BLE, WiFi and Zigbee it changes nothing at all and
issues no hardware call; in the modes Bluetooth, Drone and Misc, with every
unit's driver pointer bound to a constructed and undeleted object, it issues
one `startConstCarrier(RF24_PA_MAX, 45)` per radio through that pointer, in
index order, and nothing else. -/
theorem C11_jam_start_again (s : State) (hr : Reachable s) (hi : s.__is_initialized = true) :
    ((s.__jam = JAMMING_IDLE ∨ s.__jam = JAMMING_BLE ∨ s.__jam = JAMMING_WIFI ∨
        s.__jam = JAMMING_ZIGBEE) → jam_start s = s) ∧
    ((s.__jam = JAMMING_BLUETOOTH ∨ s.__jam = JAMMING_DRONE ∨ s.__jam = JAMMING_MISC) →
      (∀ i, i < s.__nrf24_count → validHandle s.hw (unit s i).radio = true) →
      jam_start s = emit s ((List.range s.__nrf24_count).map fun i =>
        HwCall.radio i (unit s i).radio (RadioCall.startConstCarrier RF24_PA_MAX 45))) := by
  have hcc := steps_constCarrier init s rfl hr
  constructor
  · intro hj
    have : s.__constCarrier = false := by
      rw [hcc]; rcases hj with h | h | h | h <;> rw [h] <;> rfl
    rw [jam_start_again s hi, if_neg (by simp [this])]
  · intro hj _
    have : s.__constCarrier = true := by
      rw [hcc]; rcases hj with h | h | h <;> rw [h] <;> rfl
    rw [jam_start_again s hi, if_pos this]

/-- After `load_radios` of three radios and `bluetooth_jam(0)` the mode is
Bluetooth and the three driver pointers are bound to the objects 0, 1 and 2; a
further `jam_start` issues `startConstCarrier` on each radio and nothing else. -/
theorem C11_jam_start_again_witness :
    Reachable ((Op.protocol (Call.bluetooth_jam ⟨fun _ => 0, fun _ => 0⟩ 0)).run
      ((Op.load_radios (fun _ => ⟨none, 0, 0, 0⟩) (fun i => ⟨i, i + 8, 0⟩) 3).run
        init).state).state ∧
    handles ((Op.protocol (Call.bluetooth_jam ⟨fun _ => 0, fun _ => 0⟩ 0)).run
      ((Op.load_radios (fun _ => ⟨none, 0, 0, 0⟩) (fun i => ⟨i, i + 8, 0⟩) 3).run
        init).state).state = [some 0, some 1, some 2] ∧
    jam_start ((Op.protocol (Call.bluetooth_jam ⟨fun _ => 0, fun _ => 0⟩ 0)).run
      ((Op.load_radios (fun _ => ⟨none, 0, 0, 0⟩) (fun i => ⟨i, i + 8, 0⟩) 3).run
        init).state).state =
    emit ((Op.protocol (Call.bluetooth_jam ⟨fun _ => 0, fun _ => 0⟩ 0)).run
      ((Op.load_radios (fun _ => ⟨none, 0, 0, 0⟩) (fun i => ⟨i, i + 8, 0⟩) 3).run
        init).state).state
      [HwCall.radio 0 (some 0) (RadioCall.startConstCarrier RF24_PA_MAX 45),
        HwCall.radio 1 (some 1) (RadioCall.startConstCarrier RF24_PA_MAX 45),
        HwCall.radio 2 (some 2) (RadioCall.startConstCarrier RF24_PA_MAX 45)] :=
  ⟨Steps.step (Op.protocol (Call.bluetooth_jam ⟨fun _ => 0, fun _ => 0⟩ 0)) _
      (Steps.step _ _ Steps.refl (by show 3 < 256; decide) (by decide))
      (by show 0 < 256; decide) (by decide),
    by decide,
    (C11_jam_start_again _
      (Steps.step (Op.protocol (Call.bluetooth_jam ⟨fun _ => 0, fun _ => 0⟩ 0)) _
        (Steps.step (Op.load_radios (fun _ => ⟨none, 0, 0, 0⟩) (fun i => ⟨i, i + 8, 0⟩) 3) _
          Steps.refl (by show 3 < 256; decide) (by decide))
        (by show 0 < 256; decide) (by decide))
      (by decide)).2 (Or.inl (by decide)) (by decide)⟩

/-- C11 as stated fails: after `load_radios` of one radio and
`bluetooth_jam(0)` the hardware is bootstrapped and the mode is Bluetooth, and
a further `jam_start` issues `startConstCarrier(RF24_PA_MAX, 45)` on radio 0. -/
theorem C11_jam_start_again_counterexample :
    Reachable ((Op.protocol (Call.bluetooth_jam ⟨fun _ => 0, fun _ => 0⟩ 0)).run
      ((Op.load_radios (fun _ => ⟨none, 0, 0, 0⟩) (fun _ => ⟨9, 10, 0⟩) 1).run
        init).state).state ∧
    ((Op.protocol (Call.bluetooth_jam ⟨fun _ => 0, fun _ => 0⟩ 0)).run
      ((Op.load_radios (fun _ => ⟨none, 0, 0, 0⟩) (fun _ => ⟨9, 10, 0⟩) 1).run
        init).state).state.__is_initialized = true ∧
    ((Op.protocol (Call.bluetooth_jam ⟨fun _ => 0, fun _ => 0⟩ 0)).run
      ((Op.load_radios (fun _ => ⟨none, 0, 0, 0⟩) (fun _ => ⟨9, 10, 0⟩) 1).run
        init).state).state.__jam = JAMMING_BLUETOOTH ∧
    since ((Op.protocol (Call.bluetooth_jam ⟨fun _ => 0, fun _ => 0⟩ 0)).run
        ((Op.load_radios (fun _ => ⟨none, 0, 0, 0⟩) (fun _ => ⟨9, 10, 0⟩) 1).run
          init).state).state
      (jam_start ((Op.protocol (Call.bluetooth_jam ⟨fun _ => 0, fun _ => 0⟩ 0)).run
        ((Op.load_radios (fun _ => ⟨none, 0, 0, 0⟩) (fun _ => ⟨9, 10, 0⟩) 1).run
          init).state).state) =
      [HwCall.radio 0 (some 0) (RadioCall.startConstCarrier RF24_PA_MAX 45)] :=
  ⟨Steps.step _ _ (Steps.step _ _ Steps.refl (by show 1 < 256; decide) (by decide))
      (by show 0 < 256; decide) (by decide), by decide, by decide, by decide⟩

/-! ## Construction and release of the handles -/

theorem init_radios_fold (suf pre : List __radio_t) (s : State)
    (hs : s.__radios = some (pre ++ suf)) :
    (List.range' pre.length suf.length).foldl (fun s i => __init_radios_body i s) s =
      { s with
        __radios := some (pre ++ bound s.objects suf)
        hw := s.hw ++ constructions s.objects suf
        objects := s.objects + suf.length } := by
  induction suf generalizing pre s with
  | nil =>
    cases s
    simp_all [bound, constructions]
  | cons u t ih =>
    rw [List.length_cons, List.range'_succ, List.foldl_cons]
    have hstep : __init_radios_body pre.length s =
        { s with
          __radios := some ((pre ++ [{ u with radio := some s.objects }]) ++ t)
          hw := s.hw ++ [HwCall.newRF24 s.objects u.ce_pin u.csn_pin]
          objects := s.objects + 1 } := by
      simp [__init_radios_body, unit, setUnit, emit, hs, List.getElem_append_right]
    rw [hstep]
    have := ih (pre ++ [{ u with radio := some s.objects }])
      { s with
        __radios := some ((pre ++ [{ u with radio := some s.objects }]) ++ t)
        hw := s.hw ++ [HwCall.newRF24 s.objects u.ce_pin u.csn_pin]
        objects := s.objects + 1 } rfl
    rw [List.length_append, List.length_singleton] at this
    rw [this]
    simp [bound, constructions, List.range'_succ, Nat.add_assoc, Nat.add_comm 1]

/-- What `__init_radios` does to a pool of `__nrf24_count` units. -/
theorem init_radios_eq (s : State) (rs : List __radio_t) (hs : s.__radios = some rs)
    (hlen : rs.length = s.__nrf24_count) :
    __init_radios s =
      { s with
        __radios := some (bound s.objects rs)
        hw := s.hw ++ constructions s.objects rs
        objects := s.objects + rs.length } := by
  have h := init_radios_fold rs [] s (by simpa using hs)
  have hr : List.range s.__nrf24_count = List.range' 0 rs.length := by
    rw [← hlen, List.range_eq_range']
  rw [__init_radios, forEachRadio, hr]
  simpa using h

theorem bound_length (obj : Nat) (rs : List __radio_t) : (bound obj rs).length = rs.length := by
  simp [bound]

theorem bound_handles (obj : Nat) (rs : List __radio_t) :
    (bound obj rs).map (fun u => u.radio) = (List.range' obj rs.length).map some := by
  induction rs generalizing obj with
  | nil => rfl
  | cons u t ih =>
    have := ih (obj + 1)
    simp only [bound] at this
    simp [bound, List.range'_succ, this]

theorem constructions_objects (obj : Nat) (rs : List __radio_t) :
    constructedRF24 (constructions obj rs) = List.range' obj rs.length ∧
    constructedSPI (constructions obj rs) = [] ∧ deletedRF24 (constructions obj rs) = [] ∧
    deletedSPI (constructions obj rs) = [] ∧
    ∀ c ∈ constructions obj rs, isStartCarrier c = false := by
  induction rs generalizing obj with
  | nil => simp [constructions, constructedRF24, constructedSPI, deletedRF24, deletedSPI]
  | cons u t ih =>
    obtain ⟨h1, h2, h3, h4, h5⟩ := ih (obj + 1)
    simp only [constructions, constructedRF24, constructedSPI, deletedRF24, deletedSPI] at *
    simp [List.range'_succ, h1, h2, h3, h4, isStartCarrier]
    exact h5

/-- Calls on a radio or on the bus construct and delete nothing. -/
theorem no_objects (calls : List HwCall)
    (h : ∀ c ∈ calls, (∃ i p r, c = HwCall.radio i p r) ∨ ∃ p r, c = HwCall.spi p r) :
    constructedRF24 calls = [] ∧ constructedSPI calls = [] ∧ deletedRF24 calls = [] ∧
    deletedSPI calls = [] := by
  simp only [constructedRF24, constructedSPI, deletedRF24, deletedSPI, List.filterMap_eq_nil_iff]
  refine ⟨?_, ?_, ?_, ?_⟩ <;>
  · intro c hc
    rcases h c hc with ⟨i, p, r, rfl⟩ | ⟨p, r, rfl⟩ <;> rfl

/-- What `__hspi_init` does: one bus object, then calls on the bus and the
radios only. -/
theorem hspi_init_eq (s : State) :
    ∃ calls, __hspi_init s =
      { s with
        __hp := some s.objects
        hw := s.hw ++ HwCall.newSPI s.objects :: calls
        objects := s.objects + 1 } ∧
      (∀ c ∈ calls, (∃ i p r, c = HwCall.radio i p r) ∨ ∃ p r, c = HwCall.spi p r) ∧
      (∀ c ∈ calls, isStartCarrier c = false) ∧
      ∀ i p r, HwCall.radio i p r ∈ calls → i < s.__nrf24_count ∧ p = (unit s i).radio := by
  have hloop := forEachRadio_emit (fun i s =>
    [RadioCall.begin s.__hp, RadioCall.setAutoAck false, RadioCall.stopListening,
      RadioCall.setRetries 0 0, RadioCall.setPayloadSize 5, RadioCall.setAddressWidth 3,
      RadioCall.setPALevel ((unit s i).pa_level % 256) true, RadioCall.setDataRate_RF24_2MBPS,
      RadioCall.setCRCLength_RF24_CRC_DISABLED].map (HwCall.radio i (unit s i).radio))
    (fun _ _ _ => rfl)
  have hbody : (fun i s => emit s
      ([RadioCall.begin s.__hp, RadioCall.setAutoAck false, RadioCall.stopListening,
      RadioCall.setRetries 0 0, RadioCall.setPayloadSize 5, RadioCall.setAddressWidth 3,
      RadioCall.setPALevel ((unit s i).pa_level % 256) true, RadioCall.setDataRate_RF24_2MBPS,
      RadioCall.setCRCLength_RF24_CRC_DISABLED].map (HwCall.radio i (unit s i).radio))) =
      __hspi_init_body := rfl
  rw [hbody] at hloop
  refine ⟨[SpiCall.begin, SpiCall.setFrequency 16000000, SpiCall.setBitOrder_MSBFIRST,
      SpiCall.setDataMode_SPI_MODE0].map (HwCall.spi (some s.objects)) ++
    (List.range s.__nrf24_count).flatMap (fun i =>
      [RadioCall.begin (some s.objects), RadioCall.setAutoAck false, RadioCall.stopListening,
        RadioCall.setRetries 0 0, RadioCall.setPayloadSize 5, RadioCall.setAddressWidth 3,
        RadioCall.setPALevel ((unit s i).pa_level % 256) true, RadioCall.setDataRate_RF24_2MBPS,
        RadioCall.setCRCLength_RF24_CRC_DISABLED].map (HwCall.radio i (unit s i).radio)),
    ?_, ?_, ?_, ?_⟩
  · rw [__hspi_init]
    simp only [hloop]
    simp only [emit, List.append_assoc, List.singleton_append]
    rfl
  · intro c hc
    simp only [List.map_cons, List.map_nil, List.mem_append, List.mem_cons, List.mem_flatMap,
      List.mem_range, List.not_mem_nil, or_false] at hc
    rcases hc with h | ⟨i, _, h⟩
    · rcases h with h | h | h | h <;> exact Or.inr ⟨_, _, h⟩
    · rcases h with h | h | h | h | h | h | h | h | h <;> exact Or.inl ⟨_, _, _, h⟩
  · intro c hc
    simp only [List.map_cons, List.map_nil, List.mem_append, List.mem_cons, List.mem_flatMap,
      List.mem_range, List.not_mem_nil, or_false] at hc
    rcases hc with h | ⟨i, _, h⟩
    · rcases h with h | h | h | h <;> rw [h] <;> rfl
    · rcases h with h | h | h | h | h | h | h | h | h <;> rw [h] <;> rfl
  · intro i p r hc
    simp only [List.map_cons, List.map_nil, List.mem_append, List.mem_cons, List.mem_flatMap,
      List.mem_range, List.not_mem_nil, or_false] at hc
    rcases hc with h | ⟨j, hj, h⟩
    · rcases h with h | h | h | h <;> cases h
    · rcases h with h | h | h | h | h | h | h | h | h <;> cases h <;> exact ⟨hj, rfl⟩

theorem objects_append (a b : List HwCall) :
    constructedRF24 (a ++ b) = constructedRF24 a ++ constructedRF24 b ∧
    constructedSPI (a ++ b) = constructedSPI a ++ constructedSPI b ∧
    deletedRF24 (a ++ b) = deletedRF24 a ++ deletedRF24 b ∧
    deletedSPI (a ++ b) = deletedSPI a ++ deletedSPI b := by
  simp [constructedRF24, constructedSPI, deletedRF24, deletedSPI]

theorem deinit_radios_fold (b : Bool) (suf pre : List __radio_t) (s : State)
    (hs : s.__radios = some (pre ++ suf)) :
    ∃ calls, (List.range' pre.length suf.length).foldl
        (fun s i => __deinit_radios_body b i s) s =
      { s with
        __radios := some (pre ++ suf.map fun u => { u with radio := none })
        hw := s.hw ++ calls } ∧
      deletedRF24 calls = suf.filterMap (fun u => u.radio) ∧
      constructedRF24 calls = [] ∧ constructedSPI calls = [] ∧ deletedSPI calls = [] ∧
      ∀ c ∈ calls, isStartCarrier c = false := by
  induction suf generalizing pre s with
  | nil =>
    refine ⟨[], ?_, rfl, rfl, rfl, rfl, by simp⟩
    cases s
    simp_all
  | cons u t ih =>
    rw [List.length_cons, List.range'_succ, List.foldl_cons]
    have hu : unit s pre.length = u := by
      simp [unit, hs, List.getElem_append_right]
    cases hr : u.radio with
    | none =>
      have hstep : __deinit_radios_body b pre.length s = s := by
        simp only [__deinit_radios_body, hu, hr]
      have hueq : ({ u with radio := none } : __radio_t) = u := by
        cases u; simp_all
      obtain ⟨calls, h1, h2, h3, h4, h5, h6⟩ := ih (pre ++ [u]) s (by simp [hs])
      rw [List.length_append, List.length_singleton] at h1
      refine ⟨calls, ?_, ?_, h3, h4, h5, h6⟩
      · rw [hstep, h1]
        simp [hueq]
      · simp [h2, hr]
    | some obj =>
      have hstep : __deinit_radios_body b pre.length s =
          { s with
            __radios := some ((pre ++ [{ u with radio := none }]) ++ t)
            hw := s.hw ++ ((if b = true then
                [HwCall.radio pre.length (some obj) RadioCall.stopConstCarrier] else []) ++
              [HwCall.radio pre.length (some obj) RadioCall.powerDown, HwCall.deleteRF24 obj]) } := by
        simp only [__deinit_radios_body, hu, hr]
        cases b <;> simp [setUnit, emit, hs]
      obtain ⟨calls, h1, h2, h3, h4, h5, h6⟩ := ih (pre ++ [{ u with radio := none }])
        { s with
          __radios := some ((pre ++ [{ u with radio := none }]) ++ t)
          hw := s.hw ++ ((if b = true then
              [HwCall.radio pre.length (some obj) RadioCall.stopConstCarrier] else []) ++
            [HwCall.radio pre.length (some obj) RadioCall.powerDown, HwCall.deleteRF24 obj]) } rfl
      rw [List.length_append, List.length_singleton] at h1
      refine ⟨((if b = true then
            [HwCall.radio pre.length (some obj) RadioCall.stopConstCarrier] else []) ++
          [HwCall.radio pre.length (some obj) RadioCall.powerDown, HwCall.deleteRF24 obj]) ++ calls,
        ?_, ?_, ?_, ?_, ?_, ?_⟩
      · rw [hstep, h1]
        simp
      · rw [(objects_append _ _).2.2.1, h2]
        cases b <;> simp [deletedRF24, hr]
      · rw [(objects_append _ _).1, h3]
        cases b <;> simp [constructedRF24]
      · rw [(objects_append _ _).2.1, h4]
        cases b <;> simp [constructedSPI]
      · rw [(objects_append _ _).2.2.2, h5]
        cases b <;> simp [deletedSPI]
      · have hexp : ∀ c ∈ ((if b = true then
            [HwCall.radio pre.length (some obj) RadioCall.stopConstCarrier] else []) ++
            [HwCall.radio pre.length (some obj) RadioCall.powerDown, HwCall.deleteRF24 obj]),
            isStartCarrier c = false := by
          cases b <;> simp [isStartCarrier]
        intro c hc
        rcases List.mem_append.mp hc with h | h
        · exact hexp c h
        · exact h6 c h

theorem since_of_hw (s s' : State) (calls : List HwCall) (h : s'.hw = s.hw ++ calls) :
    since s s' = calls := by
  simp [since, h]

theorem objects_cons_newSPI (obj : Nat) (l : List HwCall) :
    constructedRF24 (HwCall.newSPI obj :: l) = constructedRF24 l ∧
    constructedSPI (HwCall.newSPI obj :: l) = obj :: constructedSPI l ∧
    deletedRF24 (HwCall.newSPI obj :: l) = deletedRF24 l ∧
    deletedSPI (HwCall.newSPI obj :: l) = deletedSPI l := by
  simp [constructedRF24, constructedSPI, deletedRF24, deletedSPI]

/-- What `jam_start` does on a pool of `__nrf24_count` units whose hardware is
not bootstrapped: it constructs one driver object per unit, in index order,
binds it to the unit, and constructs one bus object. -/
theorem jam_start_fresh (s : State) (rs : List __radio_t) (hs : s.__radios = some rs)
    (hlen : rs.length = s.__nrf24_count) (hi : s.__is_initialized = false) :
    ∃ calls rs', (jam_start s).hw = s.hw ++ calls ∧
      constructedRF24 calls = List.range' s.objects rs.length ∧
      constructedSPI calls = [s.objects + rs.length] ∧
      deletedRF24 calls = [] ∧ deletedSPI calls = [] ∧
      (jam_start s).__radios = some rs' ∧ rs'.length = rs.length ∧
      rs'.map (fun u => u.radio) = (List.range' s.objects rs.length).map some ∧
      (jam_start s).__hp = some (s.objects + rs.length) ∧
      (jam_start s).objects = s.objects + rs.length + 1 ∧
      (jam_start s).__is_initialized = true ∧
      (jam_start s).__nrf24_count = s.__nrf24_count ∧
      (jam_start s).__constCarrier = s.__constCarrier := by
  obtain ⟨bus, hbus, hbus1, -⟩ := hspi_init_eq (__init_radios s)
  rw [init_radios_eq s rs hs hlen] at hbus
  obtain ⟨c1, c2, c3, c4, -⟩ := constructions_objects s.objects rs
  obtain ⟨b1, b2, b3, b4⟩ := no_objects bus hbus1
  have hcar : ∀ t : State, ∃ car, (if t.__constCarrier = true then forEachRadio jam_start_body t
      else t) = emit t car ∧ constructedRF24 car = [] ∧ constructedSPI car = [] ∧
      deletedRF24 car = [] ∧ deletedSPI car = [] := by
    intro t
    split_ifs
    · refine ⟨_, jam_start_loop t, ?_⟩
      apply no_objects
      intro c hc
      obtain ⟨i, -, rfl⟩ := List.mem_map.mp hc
      exact Or.inl ⟨_, _, _, rfl⟩
    · exact ⟨[], (emit_nil t).symm, rfl, rfl, rfl, rfl⟩
  obtain ⟨car, hcar1, k1, k2, k3, k4⟩ := hcar (__hspi_init (__init_radios s))
  have hj : jam_start s = { emit (__hspi_init (__init_radios s)) car with
      __is_initialized := true } := by
    rw [jam_start]
    simp only [hi, Bool.false_eq_true, ↓reduceIte]
    rw [hcar1]
  rw [init_radios_eq s rs hs hlen, hbus] at hj
  refine ⟨constructions s.objects rs ++ HwCall.newSPI (s.objects + rs.length) :: bus ++ car,
    bound s.objects rs, ?_, ?_, ?_, ?_, ?_, ?_, bound_length _ _, bound_handles _ _, ?_, ?_, ?_,
    ?_, ?_⟩
  · rw [hj]; simp [emit]
  · rw [(objects_append _ _).1, (objects_append _ _).1, c1, k1,
      (objects_cons_newSPI _ _).1, b1]
    simp
  · rw [(objects_append _ _).2.1, (objects_append _ _).2.1, c2, k2,
      (objects_cons_newSPI _ _).2.1, b2]
    simp
  · rw [(objects_append _ _).2.2.1, (objects_append _ _).2.2.1, c3, k3,
      (objects_cons_newSPI _ _).2.2.1, b3]
    simp
  · rw [(objects_append _ _).2.2.2, (objects_append _ _).2.2.2, c4, k4,
      (objects_cons_newSPI _ _).2.2.2, b4]
    simp
  all_goals (rw [hj]; try rfl)

/-- What `jam_stop` does on a bootstrapped pool of `__nrf24_count` units: it
deletes every bound driver object and the bus object, and leaves every driver
pointer and the bus pointer null. -/
theorem jam_stop_bootstrapped (s : State) (rs : List __radio_t) (hs : s.__radios = some rs)
    (hlen : rs.length = s.__nrf24_count) (hi : s.__is_initialized = true) (bus : Nat)
    (hp : s.__hp = some bus) :
    ∃ calls, (jam_stop s).hw = s.hw ++ calls ∧
      deletedRF24 calls = rs.filterMap (fun u => u.radio) ∧ deletedSPI calls = [bus] ∧
      constructedRF24 calls = [] ∧ constructedSPI calls = [] ∧
      (jam_stop s).__radios = some (rs.map fun u => { u with radio := none }) ∧
      (jam_stop s).__hp = none ∧ (jam_stop s).objects = s.objects ∧
      (jam_stop s).__is_initialized = false ∧
      (jam_stop s).__nrf24_count = s.__nrf24_count := by
  obtain ⟨calls, h1, h2, h3, h4, h5, -⟩ :=
    deinit_radios_fold s.__constCarrier rs [] s (by simpa using hs)
  have hr : List.range s.__nrf24_count = List.range' 0 rs.length := by
    rw [← hlen, List.range_eq_range']
  have hd : __deinit_radios s.__constCarrier s =
      { s with
        __radios := some (rs.map fun u => { u with radio := none })
        hw := s.hw ++ calls } := by
    rw [__deinit_radios, forEachRadio, hr]
    simpa using h1
  have hj : jam_stop s =
      { s with
        __hp := none
        __radios := some (rs.map fun u => { u with radio := none })
        hw := s.hw ++ (calls ++ [HwCall.spi (some bus) SpiCall.finish, HwCall.deleteSPI bus])
        __constCarrier := false
        __is_initialized := false
        __jam := JAMMING_IDLE } := by
    rw [jam_stop, if_pos hi, hd]
    simp [__hspi_deinit, hp, emit]
  refine ⟨calls ++ [HwCall.spi (some bus) SpiCall.finish, HwCall.deleteSPI bus],
    ?_, ?_, ?_, ?_, ?_, ?_, ?_, ?_, ?_, ?_⟩
  · rw [hj]
  · rw [(objects_append _ _).2.2.1, h2]; simp [deletedRF24]
  · rw [(objects_append _ _).2.2.2, h5]; simp [deletedSPI]
  · rw [(objects_append _ _).1, h3]; simp [constructedRF24]
  · rw [(objects_append _ _).2.1, h4]; simp [constructedSPI]
  all_goals (rw [hj])

/-- What the lifecycle functions construct and release after a successful
`load_radios` of `count` radios made while the hardware is not bootstrapped:
`jam_start; jam_start` constructs one driver object per radio, the `i`-th bound
to radio `i`, and one bus object; `jam_start; jam_stop` leaves every pointer
null and deletes what the start constructed; `jam_start; jam_stop; jam_start`
constructs a second run of objects and binds the units to it. -/
theorem bootstrap_once_per_start (fresh : Nat → __radio_t)
    (radios_config : Nat → radio_config_s) (count : Nat) (s0 s : State)
    (hload : (load_radios fresh radios_config count s0).1 = true)
    (hi0 : s0.__is_initialized = false)
    (hs : s = (load_radios fresh radios_config count s0).2) :
    (constructedRF24 (since s (jam_start (jam_start s))) = List.range' s.objects count ∧
      constructedSPI (since s (jam_start (jam_start s))) = [s.objects + count] ∧
      handles (jam_start (jam_start s)) = (List.range' s.objects count).map some) ∧
    (handles (jam_stop (jam_start s)) = List.replicate count none ∧
      (jam_stop (jam_start s)).__hp = none ∧
      deletedRF24 (since s (jam_stop (jam_start s))) = List.range' s.objects count ∧
      deletedSPI (since s (jam_stop (jam_start s))) = [s.objects + count]) ∧
    (constructedRF24 (since s (jam_start (jam_stop (jam_start s)))) =
        List.range' s.objects count ++ List.range' (s.objects + count + 1) count ∧
      constructedSPI (since s (jam_start (jam_stop (jam_start s)))) =
        [s.objects + count, s.objects + count + 1 + count] ∧
      handles (jam_start (jam_stop (jam_start s))) =
        (List.range' (s.objects + count + 1) count).map some) := by
  obtain ⟨hnew, hv⟩ := load_radios_true fresh radios_config count s0 hload
  rw [load_radios_of_valid fresh radios_config count s0 hnew hv] at hs
  have hrs : s.__radios = some ((List.range count).map fun i => loaded (radios_config i)) := by
    rw [hs]
  have hlen : ((List.range count).map fun i => loaded (radios_config i)).length =
      s.__nrf24_count := by
    rw [hs]; simp
  have hi : s.__is_initialized = false := by rw [hs]; exact hi0
  have hcount : s.__nrf24_count = count := by rw [hs]
  obtain ⟨a, ra, a0, a1, a2, a3, a4, a5, a6, a7, a8, a9, a10, a11, a12⟩ :=
    jam_start_fresh s _ hrs hlen hi
  simp only [List.length_map, List.length_range] at a1 a2 a6 a7 a8 a9
  -- the second start of `jam_start; jam_start`
  have hagain := jam_start_again (jam_start s) a10
  have hA : ∃ b, (jam_start (jam_start s)).hw = (jam_start s).hw ++ b ∧
      constructedRF24 b = [] ∧ constructedSPI b = [] ∧
      (jam_start (jam_start s)).__radios = (jam_start s).__radios := by
    rw [hagain]
    split_ifs
    · refine ⟨_, rfl, ?_, ?_, rfl⟩
      · exact (no_objects _ (fun c hc => by
          obtain ⟨i, -, rfl⟩ := List.mem_map.mp hc
          exact Or.inl ⟨_, _, _, rfl⟩)).1
      · exact (no_objects _ (fun c hc => by
          obtain ⟨i, -, rfl⟩ := List.mem_map.mp hc
          exact Or.inl ⟨_, _, _, rfl⟩)).2.1
    · exact ⟨[], by simp, rfl, rfl, rfl⟩
  obtain ⟨b, b0, b1, b2, b3⟩ := hA
  -- the stop and the second start of `jam_start; jam_stop; jam_start`
  obtain ⟨c, c0, c1, c2, c3, c4, c5, c6, c7, c8, c9⟩ :=
    jam_stop_bootstrapped (jam_start s) ra a5 (by rw [a6, a11, hcount]) a10 _ a8
  have hlen2 : (ra.map fun u => { u with radio := none }).length =
      (jam_stop (jam_start s)).__nrf24_count := by
    rw [c9, a11, hcount, List.length_map, a6]
  obtain ⟨d, rd, d0, d1, d2, d3, d4, d5, d6, d7, d8, d9, d10, d11, d12⟩ :=
    jam_start_fresh (jam_stop (jam_start s)) _ c5 hlen2 c8
  simp only [List.length_map, a6, c7, a9] at d1 d2 d6 d7 d8 d9
  refine ⟨⟨?_, ?_, ?_⟩, ⟨?_, c6, ?_, ?_⟩, ⟨?_, ?_, ?_⟩⟩
  · rw [since_of_hw s _ (a ++ b) (by rw [b0, a0, List.append_assoc]),
      (objects_append _ _).1, a1, b1, List.append_nil]
  · rw [since_of_hw s _ (a ++ b) (by rw [b0, a0, List.append_assoc]),
      (objects_append _ _).2.1, a2, b2, List.append_nil]
  · rw [handles, b3, a5]
    exact a7
  · rw [handles, c5]
    simp only [Option.getD_some, List.map_map]
    rw [List.eq_replicate_iff]
    refine ⟨by simp [a6], ?_⟩
    intro x hx
    obtain ⟨u, -, rfl⟩ := List.mem_map.mp hx
    rfl
  · rw [since_of_hw s _ (a ++ c) (by rw [c0, a0, List.append_assoc]),
      (objects_append _ _).2.2.1, a3, c1, List.nil_append]
    have : ra.filterMap (fun u => u.radio) = (ra.map fun u => u.radio).filterMap id := by
      rw [List.filterMap_map]; rfl
    rw [this, a7, List.filterMap_map]
    simp
  · rw [since_of_hw s _ (a ++ c) (by rw [c0, a0, List.append_assoc]),
      (objects_append _ _).2.2.2, a4, c2, List.nil_append]
  · rw [since_of_hw s _ (a ++ c ++ d) (by simp [d0, c0, a0]),
      (objects_append _ _).1, (objects_append _ _).1, a1, c3, d1, List.append_nil]
  · rw [since_of_hw s _ (a ++ c ++ d) (by simp [d0, c0, a0]),
      (objects_append _ _).2.1, (objects_append _ _).2.1, a2, c4, d2, List.append_nil]
    rfl
  · rw [handles, d5]
    exact d7

/-- C12, the code at the failing input: `jam_start` at program start marks the
hardware bootstrapped and constructs the bus object 0; `load_radios` of two
radios then succeeds and stores two units whose driver pointers are null.
From that state `jam_start; jam_start` constructs no driver object and no bus
object and leaves both pointers null, and `jam_start; jam_stop; jam_start`
constructs each radio's driver object once (the objects 1 and 2, in the last
start) and the bus once, and the stop in between deletes no driver object. -/
theorem C12_load_while_bootstrapped :
    Reachable (load_radios (fun _ => ⟨some 7, 0, 0, 9⟩) (fun i => ⟨i, i + 8, 0⟩) 2
      (jam_start init)).2 ∧
    (load_radios (fun _ => ⟨some 7, 0, 0, 9⟩) (fun i => ⟨i, i + 8, 0⟩) 2
      (jam_start init)).1 = true ∧
    (load_radios (fun _ => ⟨some 7, 0, 0, 9⟩) (fun i => ⟨i, i + 8, 0⟩) 2
      (jam_start init)).2.__is_initialized = true ∧
    (constructedRF24 (since
        (load_radios (fun _ => ⟨some 7, 0, 0, 9⟩) (fun i => ⟨i, i + 8, 0⟩) 2 (jam_start init)).2
        (jam_start (jam_start (load_radios (fun _ => ⟨some 7, 0, 0, 9⟩)
          (fun i => ⟨i, i + 8, 0⟩) 2 (jam_start init)).2))) = [] ∧
      constructedSPI (since
        (load_radios (fun _ => ⟨some 7, 0, 0, 9⟩) (fun i => ⟨i, i + 8, 0⟩) 2 (jam_start init)).2
        (jam_start (jam_start (load_radios (fun _ => ⟨some 7, 0, 0, 9⟩)
          (fun i => ⟨i, i + 8, 0⟩) 2 (jam_start init)).2))) = [] ∧
      handles (jam_start (jam_start (load_radios (fun _ => ⟨some 7, 0, 0, 9⟩)
        (fun i => ⟨i, i + 8, 0⟩) 2 (jam_start init)).2)) = [none, none]) ∧
    (constructedRF24 (since
        (load_radios (fun _ => ⟨some 7, 0, 0, 9⟩) (fun i => ⟨i, i + 8, 0⟩) 2 (jam_start init)).2
        (jam_start (jam_stop (jam_start (load_radios (fun _ => ⟨some 7, 0, 0, 9⟩)
          (fun i => ⟨i, i + 8, 0⟩) 2 (jam_start init)).2)))) = [1, 2] ∧
      constructedSPI (since
        (load_radios (fun _ => ⟨some 7, 0, 0, 9⟩) (fun i => ⟨i, i + 8, 0⟩) 2 (jam_start init)).2
        (jam_start (jam_stop (jam_start (load_radios (fun _ => ⟨some 7, 0, 0, 9⟩)
          (fun i => ⟨i, i + 8, 0⟩) 2 (jam_start init)).2)))) = [3] ∧
      deletedRF24 (since
        (load_radios (fun _ => ⟨some 7, 0, 0, 9⟩) (fun i => ⟨i, i + 8, 0⟩) 2 (jam_start init)).2
        (jam_stop (jam_start (load_radios (fun _ => ⟨some 7, 0, 0, 9⟩)
          (fun i => ⟨i, i + 8, 0⟩) 2 (jam_start init)).2))) = []) :=
  ⟨Steps.step (Op.load_radios (fun _ => ⟨some 7, 0, 0, 9⟩) (fun i => ⟨i, i + 8, 0⟩) 2) _
      (Steps.step Op.jam_start _ Steps.refl trivial rfl) (by show 2 < 256; decide) rfl,
    by decide, by decide, ⟨by decide, by decide, by decide⟩,
    ⟨by decide, by decide, by decide⟩⟩

/-- C13, the code at the failing input: `jam_start` at program start marks the
hardware bootstrapped with no unit to bind; `load_radios` of one radio then
stores a unit whose driver pointer is null while the hardware stays marked
bootstrapped; `bluetooth_jam(0)` finds the mode Idle, its `jam_start` binds
nothing, and the pass calls `setChannel` through the null pointer of radio 0
for each of the 21 table entries. -/
theorem C13_unbound_handle_while_bootstrapped :
    Reachable ((Op.load_radios (fun _ => ⟨some 7, 0, 0, 9⟩) (fun _ => ⟨9, 10, 0⟩) 1).run
      (Op.jam_start.run init).state).state ∧
    ((Op.load_radios (fun _ => ⟨some 7, 0, 0, 9⟩) (fun _ => ⟨9, 10, 0⟩) 1).run
      (Op.jam_start.run init).state).state.__is_initialized = true ∧
    handles ((Op.load_radios (fun _ => ⟨some 7, 0, 0, 9⟩) (fun _ => ⟨9, 10, 0⟩) 1).run
      (Op.jam_start.run init).state).state = [none] ∧
    ((Op.protocol (Call.bluetooth_jam ⟨fun _ => 0, fun _ => 0⟩ 0)).run
      ((Op.load_radios (fun _ => ⟨some 7, 0, 0, 9⟩) (fun _ => ⟨9, 10, 0⟩) 1).run
        (Op.jam_start.run init).state).state).status = Status.returns ∧
    issued ((Op.load_radios (fun _ => ⟨some 7, 0, 0, 9⟩) (fun _ => ⟨9, 10, 0⟩) 1).run
        (Op.jam_start.run init).state).state
      ((Op.protocol (Call.bluetooth_jam ⟨fun _ => 0, fun _ => 0⟩ 0)).run
        ((Op.load_radios (fun _ => ⟨some 7, 0, 0, 9⟩) (fun _ => ⟨9, 10, 0⟩) 1).run
          (Op.jam_start.run init).state).state) =
      bluetooth_channels.map fun c => HwCall.radio 0 none (RadioCall.setChannel c) :=
  ⟨Steps.step (Op.load_radios (fun _ => ⟨some 7, 0, 0, 9⟩) (fun _ => ⟨9, 10, 0⟩) 1) _
      (Steps.step Op.jam_start _ Steps.refl trivial rfl) (by show 1 < 256; decide) rfl,
    by decide, by decide, by decide, by decide⟩

/-- C14, the code at the failing input: with two radios loaded, in Standalone
mode, `misc_jam(0, 255)` computes `total_channels = 256` in a `uint8_t`, that
is 0, and returns without tuning any channel of the range 0..255;
`misc_jam(0, 254)`, one channel shorter, tunes 0..254 in ascending order. -/
theorem C14_full_range_tunes_nothing :
    (((255 : Int) - (0 : Int) + 1) % 256).toNat = 0 ∧
    (misc_jam 0 255
      (load_radios (fun _ => ⟨none, 0, 0, 0⟩) (fun i => ⟨i, i + 8, 0⟩) 2 init).2).status =
      Status.returns ∧
    (misc_jam 0 255
      (load_radios (fun _ => ⟨none, 0, 0, 0⟩) (fun i => ⟨i, i + 8, 0⟩) 2 init).2).state.__jam =
      JAMMING_MISC ∧
    channels (issued (load_radios (fun _ => ⟨none, 0, 0, 0⟩) (fun i => ⟨i, i + 8, 0⟩) 2 init).2
      (misc_jam 0 255
        (load_radios (fun _ => ⟨none, 0, 0, 0⟩) (fun i => ⟨i, i + 8, 0⟩) 2 init).2)) = [] ∧
    channels (issued (load_radios (fun _ => ⟨none, 0, 0, 0⟩) (fun i => ⟨i, i + 8, 0⟩) 2 init).2
      (misc_jam 0 254
        (load_radios (fun _ => ⟨none, 0, 0, 0⟩) (fun i => ⟨i, i + 8, 0⟩) 2 init).2)) =
      List.range 255 := by
  refine ⟨by decide, by decide, by decide, by decide, ?_⟩
  obtain ⟨rounds, hr, -, h⟩ := standalone_pass_channels
    (load_radios (fun _ => ⟨none, 0, 0, 0⟩) (fun i => ⟨i, i + 8, 0⟩) 2 init).2
    true JAMMING_MISC 255 0 (fun k => k) (by decide) (by decide) (by decide)
  have hjam : (enter true JAMMING_MISC
      (load_radios (fun _ => ⟨none, 0, 0, 0⟩) (fun i => ⟨i, i + 8, 0⟩) 2 init).2).__jam =
      JAMMING_MISC := by decide
  have hmode : (enter true JAMMING_MISC
      (load_radios (fun _ => ⟨none, 0, 0, 0⟩) (fun i => ⟨i, i + 8, 0⟩) 2 init).2).__mode =
      JAM_TX_STANDALONE := by decide
  have ht : (((254 : Nat) : Int) - ((0 : Nat) : Int) + 1) % 256 = 255 := by decide
  simp only [misc_jam, hjam, hmode, ↓reduceIte, standalonePass, ht]
  have h255 : Int.toNat 255 = 255 := rfl
  simp only [h255, hr]
  refine h.trans ?_
  apply List.ext_getElem
  · simp
  · intro i h1 h2
    simp only [List.length_map, List.length_range] at h1
    simp only [List.getElem_map, List.getElem_range]
    omega

/-- C16, the code at the failing inputs: with one radio loaded, in
Simultaneous mode, `misc_jam(0, 255)` and `wifi_jam(47)` do not return: the
condition of their channel loop (`ch <= 255`, and `ch < 258`) holds for every
value of the `uint8_t` counter, so the loop is not left after any number of
rounds.  In Standalone mode the same two calls return. -/
theorem C16_endless_simultaneous_loops :
    (Call.misc_jam 0 255).typed ∧ (Call.wifi_jam 47).typed ∧
    (misc_jam 0 255 (set_jam_tx_mode JAM_TX_SIMULTANEOUS
      (load_radios (fun _ => ⟨none, 0, 0, 0⟩) (fun _ => ⟨9, 10, 0⟩) 1 init).2)).status =
      Status.endlessLoop ∧
    (wifi_jam 47 (set_jam_tx_mode JAM_TX_SIMULTANEOUS
      (load_radios (fun _ => ⟨none, 0, 0, 0⟩) (fun _ => ⟨9, 10, 0⟩) 1 init).2)).status =
      Status.endlessLoop ∧
    (∀ fuel, (forU8 (fun ch => decide (ch ≤ 255)) fuel 0).2 = false) ∧
    (∀ fuel, (forU8 (fun ch => decide ((ch : Int) < 47 * 5 + 23)) fuel
      (((47 : Int) * 5 + 1) % 256).toNat).2 = false) ∧
    (misc_jam 0 255
      (load_radios (fun _ => ⟨none, 0, 0, 0⟩) (fun _ => ⟨9, 10, 0⟩) 1 init).2).status =
      Status.returns ∧
    (wifi_jam 47
      (load_radios (fun _ => ⟨none, 0, 0, 0⟩) (fun _ => ⟨9, 10, 0⟩) 1 init).2).status =
      Status.returns := by
  refine ⟨⟨by decide, by decide⟩, ⟨by decide, by decide⟩, by decide, by decide, ?_, ?_,
    by decide, by decide⟩
  · intro fuel
    cases h : (forU8 (fun ch => decide (ch ≤ 255)) fuel 0).2 with
    | false => rfl
    | true =>
      obtain ⟨k, -, hk⟩ := (forU8_left_iff _ fuel 0 (by decide)).1 h
      simp only [decide_eq_false_iff_not] at hk
      omega
  · intro fuel
    have hstart : (((47 : Int) * 5 + 1) % 256).toNat < 256 := by decide
    cases h : (forU8 (fun ch => decide ((ch : Int) < 47 * 5 + 23)) fuel
        (((47 : Int) * 5 + 1) % 256).toNat).2 with
    | false => rfl
    | true =>
      obtain ⟨k, -, hk⟩ := (forU8_left_iff _ fuel _ hstart).1 h
      simp only [decide_eq_false_iff_not] at hk
      omega

/-! ## The passes of WiFi, Zigbee and Misc -/

theorem paired_append (a b : List HwCall) (ha : Paired a) (hb : Paired b) : Paired (a ++ b) := by
  induction ha with
  | nil => exact hb
  | tune i p ch rest _ ih => exact Paired.tune i p ch _ ih
  | other c rest hc _ ih => exact Paired.other c _ hc ih

theorem paired_flatMap {α : Type} (l : List α) (f : α → List HwCall)
    (h : ∀ x ∈ l, Paired (f x)) : Paired (l.flatMap f) := by
  induction l with
  | nil => exact Paired.nil
  | cons a l ih =>
    rw [List.flatMap_cons]
    exact paired_append _ _ (h a (List.mem_cons_self a l))
      (ih fun x hx => h x (List.mem_cons_of_mem a hx))

theorem paired_lifecycle (boot : List HwCall) (h : ∀ c ∈ boot, isLifecycle c = true) :
    Paired boot := by
  induction boot with
  | nil => exact Paired.nil
  | cons a l ih =>
    exact Paired.other a l (h a (List.mem_cons_self a l))
      (ih fun x hx => h x (List.mem_cons_of_mem a hx))

/-- In a paired trace every `setChannel` is followed at once by the
`writeFast` of the filler text on the same radio. -/
theorem paired_follow (l : List HwCall) (h : Paired l) (k radio_i : Nat) (p : Option Nat)
    (channel : Nat) (hk : l[k]? = some (HwCall.radio radio_i p (RadioCall.setChannel channel))) :
    l[k + 1]? =
      some (HwCall.radio radio_i p (RadioCall.writeFast jam_text sizeof_jam_text)) := by
  induction h generalizing k with
  | nil => simp at hk
  | tune i q ch rest _ ih =>
    cases k with
    | zero =>
      simp only [List.getElem?_cons_zero, Option.some.injEq, HwCall.radio.injEq,
        RadioCall.setChannel.injEq] at hk
      obtain ⟨rfl, rfl, -⟩ := hk
      simp
    | succ k =>
      cases k with
      | zero => simp at hk
      | succ k =>
        simp only [List.getElem?_cons_succ] at hk ⊢
        exact ih k hk
  | other c rest hc _ ih =>
    cases k with
    | zero =>
      simp only [List.getElem?_cons_zero, Option.some.injEq] at hk
      rw [hk] at hc
      simp [isLifecycle] at hc
    | succ k =>
      simp only [List.getElem?_cons_succ] at hk ⊢
      exact ih k hk

/-- A paired trace has as many `writeFast` calls as `setChannel` calls. -/
theorem paired_count (l : List HwCall) (h : Paired l) :
    l.countP isWriteFast = l.countP isSetChannel := by
  induction h with
  | nil => rfl
  | tune i q ch rest _ ih =>
    simp [List.countP_cons, isWriteFast, isSetChannel, ih]
  | other c rest hc _ ih =>
    have h1 : isWriteFast c = false := by
      cases c with
      | radio i p r => cases r <;> simp_all [isLifecycle, isWriteFast]
      | _ => rfl
    have h2 : isSetChannel c = false := by
      cases c with
      | radio i p r => cases r <;> simp_all [isLifecycle, isSetChannel]
      | _ => rfl
    simp [List.countP_cons, h1, h2, ih]

theorem issued_state (st : Status) (s s1 : State) (boot : List HwCall)
    (h : s1.hw = s.hw ++ boot) : issued s ⟨st, s1⟩ = boot := by
  simp [issued, h]

/-- The trace of a call whose pass tunes and then transmits in every round. -/
theorem paired_passes (s : State) (constCarrier : Bool) (jam : jam_mode_e) :
    (∀ (t ch : Nat) (f : Nat → Nat),
      Paired (issued s (standalonePass t ch (enter constCarrier jam s) fun radio_i c =>
        [setChannel (enter constCarrier jam s) radio_i (f c),
          writeFast (enter constCarrier jam s) radio_i]))) ∧
    (∀ (left : Bool) (chans : List Nat),
      Paired (issued s (pass left (enter constCarrier jam s) (chans.flatMap fun ch =>
        allRadios (enter constCarrier jam s) fun radio_i =>
          [setChannel (enter constCarrier jam s) radio_i ch,
            writeFast (enter constCarrier jam s) radio_i])))) ∧
    Paired (issued s ⟨Status.returns, enter constCarrier jam s⟩) := by
  obtain ⟨-, -, -, boot, hboot, hlife⟩ := enter_frame constCarrier jam s
  have hb := paired_lifecycle boot hlife
  have hpair : ∀ i c, Paired [setChannel (enter constCarrier jam s) i c,
      writeFast (enter constCarrier jam s) i] :=
    fun i c => Paired.tune i _ c [] Paired.nil
  refine ⟨fun t ch f => ?_, fun left chans => ?_, ?_⟩
  · unfold standalonePass
    cases standalone t ch (enter constCarrier jam s).__nrf24_count with
    | none =>
      simp only
      rw [issued_state _ _ _ _ hboot]
      exact hb
    | some rounds =>
      simp only
      rw [issued_pass _ _ _ _ _ hboot]
      exact paired_append _ _ hb (paired_flatMap _ _ fun r _ => hpair r.1 (f r.2))
  · rw [issued_pass _ _ _ _ _ hboot]
    refine paired_append _ _ hb (paired_flatMap _ _ fun ch _ => ?_)
    exact paired_flatMap _ _ fun i _ => hpair i ch
  · rw [issued_state _ _ _ _ hboot]
    exact hb

/-- The trace of a call whose pass issues no `writeFast`. -/
theorem unfilled_passes (s : State) (constCarrier : Bool) (jam : jam_mode_e) :
    (∀ (t ch : Nat) (body : Nat → Nat → List HwCall),
      (∀ i c, ∀ x ∈ body i c, isWriteFast x = false) →
      ∀ x ∈ issued s (standalonePass t ch (enter constCarrier jam s) body),
        isWriteFast x = false) ∧
    (∀ (left : Bool) (calls : List HwCall), (∀ x ∈ calls, isWriteFast x = false) →
      ∀ x ∈ issued s (pass left (enter constCarrier jam s) calls), isWriteFast x = false) ∧
    ∀ x ∈ issued s ⟨Status.returns, enter constCarrier jam s⟩, isWriteFast x = false := by
  obtain ⟨-, -, -, boot, hboot, hlife⟩ := enter_frame constCarrier jam s
  have hb : ∀ x ∈ boot, isWriteFast x = false := by
    intro x hx
    have := hlife x hx
    cases x with
    | radio i p r => cases r <;> simp_all [isLifecycle, isWriteFast]
    | _ => rfl
  refine ⟨fun t ch body hbody => ?_, fun left calls hcalls => ?_, ?_⟩
  · unfold standalonePass
    cases standalone t ch (enter constCarrier jam s).__nrf24_count with
    | none =>
      simp only
      rw [issued_state _ _ _ _ hboot]
      exact hb
    | some rounds =>
      simp only
      rw [issued_pass _ _ _ _ _ hboot]
      intro x hx
      rcases List.mem_append.mp hx with h | h
      · exact hb x h
      · obtain ⟨r, -, hr⟩ := List.mem_flatMap.mp h
        exact hbody r.1 r.2 x hr
  · rw [issued_pass _ _ _ _ _ hboot]
    intro x hx
    rcases List.mem_append.mp hx with h | h
    · exact hb x h
    · exact hcalls x h
  · rw [issued_state _ _ _ _ hboot]
    exact hb

theorem setChannel_not_writeFast (s : State) (i c : Nat) :
    ∀ x ∈ [setChannel s i c], isWriteFast x = false := by
  intro x hx
  rw [List.mem_singleton] at hx
  rw [hx]
  rfl

theorem allRadios_not_writeFast (s : State) (chans : List Nat) (f : Nat → Nat) :
    ∀ x ∈ chans.flatMap (fun ch => allRadios s fun radio_i => [setChannel s radio_i (f ch)]),
      isWriteFast x = false := by
  intro x hx
  obtain ⟨ch, -, h⟩ := List.mem_flatMap.mp hx
  obtain ⟨i, -, h⟩ := List.mem_flatMap.mp h
  exact setChannel_not_writeFast s i _ x h

/-- C18: in the hardware trace of a call of `wifi_jam`, `zigbee_jam` or
`misc_jam`, in either tx mode and with any arguments, every `setChannel` is
followed at once by a `writeFast` of the filler text through the same pointer of
the same radio, and there are as many `writeFast` calls as `setChannel` calls;
a call of `bluetooth_jam`, `drone_jam` or `ble_jam` issues no `writeFast`. -/
theorem C18_filler_follows_tuning (c : Call) (s : State) :
    ((c.jam = JAMMING_WIFI ∨ c.jam = JAMMING_ZIGBEE ∨ c.jam = JAMMING_MISC) →
      (∀ k radio_i p channel,
        (issued s (c.run s))[k]? =
          some (HwCall.radio radio_i p (RadioCall.setChannel channel)) →
        (issued s (c.run s))[k + 1]? =
          some (HwCall.radio radio_i p (RadioCall.writeFast jam_text sizeof_jam_text))) ∧
      (issued s (c.run s)).countP isWriteFast = (issued s (c.run s)).countP isSetChannel) ∧
    ((c.jam = JAMMING_BLUETOOTH ∨ c.jam = JAMMING_DRONE ∨ c.jam = JAMMING_BLE) →
      ∀ x ∈ issued s (c.run s), isWriteFast x = false) := by
  constructor
  · intro hc
    have hp : Paired (issued s (c.run s)) := by
      cases c with
      | bluetooth_jam env method => simp [Call.jam] at hc
      | drone_jam env method => simp [Call.jam] at hc
      | ble_jam => simp [Call.jam] at hc
      | wifi_jam channel =>
        simp only [Call.run, wifi_jam]
        split_ifs
        · exact (paired_passes s false JAMMING_WIFI).1 _ _ (fun k => k)
        · exact (paired_passes s false JAMMING_WIFI).2.1 _ _
        · exact (paired_passes s false JAMMING_WIFI).1 _ _ (fun k => k)
        · exact (paired_passes s false JAMMING_WIFI).2.1 _ _
        · exact (paired_passes s false JAMMING_WIFI).2.2
      | zigbee_jam =>
        simp only [Call.run, zigbee_jam]
        split_ifs
        · exact (paired_passes s false JAMMING_ZIGBEE).1 _ _ (fun k => (4 + 5 * k) % 256)
        · rw [← List.flatMap_assoc]
          exact (paired_passes s false JAMMING_ZIGBEE).2.1 _ _
        · exact (paired_passes s false JAMMING_ZIGBEE).2.2
      | misc_jam channel1 channel2 =>
        simp only [Call.run, misc_jam]
        split_ifs
        · exact (paired_passes s true JAMMING_MISC).1 _ _ (fun k => k)
        · exact (paired_passes s true JAMMING_MISC).2.1 _ _
        · exact (paired_passes s true JAMMING_MISC).2.2
    exact ⟨fun k radio_i p channel hk => paired_follow _ hp k radio_i p channel hk,
      paired_count _ hp⟩
  · intro hc
    cases c with
    | wifi_jam channel => simp [Call.jam] at hc
    | zigbee_jam => simp [Call.jam] at hc
    | misc_jam channel1 channel2 => simp [Call.jam] at hc
    | bluetooth_jam env method =>
      by_cases hX : (enter true JAMMING_BLUETOOTH s).__jam = JAMMING_BLUETOOTH
      · by_cases hM : (enter true JAMMING_BLUETOOTH s).__mode = JAM_TX_STANDALONE
        · simp only [Call.run, bluetooth_jam, hX, hM, ↓reduceIte]
          refine (unfilled_passes s true JAMMING_BLUETOOTH).1 _ _ _ fun i c x hx => ?_
          split_ifs at hx
          · exact setChannel_not_writeFast _ _ _ x hx
          · exact setChannel_not_writeFast _ _ _ x hx
          · exact setChannel_not_writeFast _ _ _ x hx
          · simp at hx
        · simp only [Call.run, bluetooth_jam, hX, hM, ↓reduceIte]
          exact (unfilled_passes s true JAMMING_BLUETOOTH).2.1 _ _
            (allRadios_not_writeFast _ _ _)
      · simp only [Call.run, bluetooth_jam, hX, ↓reduceIte]
        exact (unfilled_passes s true JAMMING_BLUETOOTH).2.2
    | drone_jam env method =>
      by_cases hX : (enter true JAMMING_DRONE s).__jam = JAMMING_DRONE
      · by_cases hM : (enter true JAMMING_DRONE s).__mode = JAM_TX_STANDALONE
        · simp only [Call.run, drone_jam, hX, hM, ↓reduceIte]
          refine (unfilled_passes s true JAMMING_DRONE).1 _ _ _ fun i c x hx => ?_
          split_ifs at hx
          · exact setChannel_not_writeFast _ _ _ x hx
          · exact setChannel_not_writeFast _ _ _ x hx
          · simp at hx
        · simp only [Call.run, drone_jam, hX, hM, ↓reduceIte]
          exact (unfilled_passes s true JAMMING_DRONE).2.1 _ _
            (allRadios_not_writeFast _ _ _)
      · simp only [Call.run, drone_jam, hX, ↓reduceIte]
        exact (unfilled_passes s true JAMMING_DRONE).2.2
    | ble_jam =>
      simp only [Call.run, ble_jam]
      split_ifs
      · exact (unfilled_passes s false JAMMING_BLE).1 _ _ _
          fun i c => setChannel_not_writeFast _ _ _
      · exact (unfilled_passes s false JAMMING_BLE).2.1 _ _
          (allRadios_not_writeFast _ _ (fun ch => ble_channels.getD ch 0))
      · exact (unfilled_passes s false JAMMING_BLE).2.2

/-- Three radios loaded, Simultaneous mode: the trace of a Zigbee pass has as
many `writeFast` calls as `setChannel` calls. -/
theorem C18_filler_follows_tuning_witness :
    (Call.zigbee_jam.jam = JAMMING_WIFI ∨ Call.zigbee_jam.jam = JAMMING_ZIGBEE ∨
      Call.zigbee_jam.jam = JAMMING_MISC) ∧
    (issued (set_jam_tx_mode JAM_TX_SIMULTANEOUS
        (load_radios (fun _ => ⟨none, 0, 0, 0⟩) (fun i => ⟨i, i + 8, 0⟩) 3 init).2)
      (Call.zigbee_jam.run (set_jam_tx_mode JAM_TX_SIMULTANEOUS
        (load_radios (fun _ => ⟨none, 0, 0, 0⟩) (fun i => ⟨i, i + 8, 0⟩) 3 init).2))).countP
        isWriteFast =
    (issued (set_jam_tx_mode JAM_TX_SIMULTANEOUS
        (load_radios (fun _ => ⟨none, 0, 0, 0⟩) (fun i => ⟨i, i + 8, 0⟩) 3 init).2)
      (Call.zigbee_jam.run (set_jam_tx_mode JAM_TX_SIMULTANEOUS
        (load_radios (fun _ => ⟨none, 0, 0, 0⟩) (fun i => ⟨i, i + 8, 0⟩) 3 init).2))).countP
        isSetChannel :=
  ⟨Or.inr (Or.inl rfl),
    ((C18_filler_follows_tuning Call.zigbee_jam (set_jam_tx_mode JAM_TX_SIMULTANEOUS
      (load_radios (fun _ => ⟨none, 0, 0, 0⟩) (fun i => ⟨i, i + 8, 0⟩) 3 init).2)).1
      (Or.inr (Or.inl rfl))).2⟩

/-! ## Where constant emission is started -/

theorem quiet_refl (s : State) : Quiet s s :=
  ⟨[], by simp, by simp⟩

theorem quiet_trans {s s' s'' : State} (h : Quiet s s') (h' : Quiet s' s'') : Quiet s s'' := by
  obtain ⟨c1, e1, q1⟩ := h
  obtain ⟨c2, e2, q2⟩ := h'
  refine ⟨c1 ++ c2, by rw [e2, e1, List.append_assoc], fun c hc => ?_⟩
  rcases List.mem_append.mp hc with h | h
  · exact q1 c h
  · exact q2 c h

theorem quiet_emit (s : State) (calls : List HwCall)
    (h : ∀ c ∈ calls, isStartCarrier c = false) : Quiet s (emit s calls) :=
  ⟨calls, rfl, h⟩

theorem quiet_forEachRadio (body : Nat → State → State)
    (hbody : ∀ radio_i s, Quiet s (body radio_i s)) (s : State) :
    Quiet s (forEachRadio body s) :=
  forEachRadio_invariant (Quiet s) body (fun i _ h => quiet_trans h (hbody i _)) s (quiet_refl s)

theorem quiet_init_radios (s : State) : Quiet s (__init_radios s) := by
  apply quiet_forEachRadio
  intro i s
  exact ⟨[HwCall.newRF24 s.objects (unit s i).ce_pin (unit s i).csn_pin], rfl,
    by simp [isStartCarrier]⟩

theorem quiet_hspi_init (s : State) : Quiet s (__hspi_init s) := by
  obtain ⟨calls, h, -, hq, -⟩ := hspi_init_eq s
  refine ⟨HwCall.newSPI s.objects :: calls, by rw [h], fun c hc => ?_⟩
  rcases List.mem_cons.mp hc with h | h
  · rw [h]; rfl
  · exact hq c h

theorem quiet_deinit_radios (stopConstCarrier : Bool) (s : State) :
    Quiet s (__deinit_radios stopConstCarrier s) := by
  apply quiet_forEachRadio
  intro i s
  cases hu : (unit s i).radio with
  | none =>
    simp only [__deinit_radios_body, hu]
    exact quiet_refl s
  | some obj =>
    simp only [__deinit_radios_body, hu]
    refine ⟨(if stopConstCarrier = true then
        [HwCall.radio i (some obj) RadioCall.stopConstCarrier] else []) ++
      [HwCall.radio i (some obj) RadioCall.powerDown, HwCall.deleteRF24 obj], ?_, ?_⟩
    · cases stopConstCarrier <;> simp [setUnit, emit]
    · cases stopConstCarrier <;> simp [isStartCarrier]

theorem quiet_hspi_deinit (s : State) : Quiet s (__hspi_deinit s) := by
  unfold __hspi_deinit
  split
  · exact quiet_refl s
  · exact ⟨_, rfl, by simp [isStartCarrier]⟩

theorem quiet_jam_stop (s : State) : Quiet s (jam_stop s) := by
  unfold jam_stop
  split_ifs
  · obtain ⟨calls, h, hq⟩ :=
      quiet_trans (quiet_deinit_radios s.__constCarrier s) (quiet_hspi_deinit _)
    exact ⟨calls, h, hq⟩
  · exact quiet_refl s

/-- While the carrier flag is clear `jam_start` starts no constant emission. -/
theorem quiet_jam_start (s : State) (hcc : s.__constCarrier = false) :
    Quiet s (jam_start s) := by
  have h1 : Quiet s (if s.__is_initialized = true then s else __hspi_init (__init_radios s)) := by
    split_ifs
    · exact quiet_refl s
    · exact quiet_trans (quiet_init_radios s) (quiet_hspi_init _)
  have hcc1 : (if s.__is_initialized = true then s
      else __hspi_init (__init_radios s)).__constCarrier = false := by
    split_ifs
    · exact hcc
    · rw [(frame_hspi_init _).constCarrier, (frame_init_radios s).constCarrier]
      exact hcc
  obtain ⟨calls, h, hq⟩ := h1
  refine ⟨calls, ?_, hq⟩
  rw [← h, jam_start]
  simp only [hcc1, Bool.false_eq_true, ↓reduceIte]

theorem quiet_enter (constCarrier : Bool) (jam : jam_mode_e) (s : State)
    (hcc : s.__jam = JAMMING_IDLE → s.__constCarrier = false) :
    Quiet s (enter constCarrier jam s) := by
  unfold enter
  split_ifs with hidle
  · obtain ⟨calls, h, hq⟩ := quiet_jam_start s (hcc hidle)
    exact ⟨calls, h, hq⟩
  · exact quiet_refl s

theorem standalonePass_calls (t ch : Nat) (s : State) (body : Nat → Nat → List HwCall)
    (hbody : ∀ i c, ∀ x ∈ body i c, isStartCarrier x = false) :
    Quiet s (standalonePass t ch s body).state := by
  unfold standalonePass
  cases standalone t ch s.__nrf24_count with
  | none => exact quiet_refl s
  | some rounds =>
    refine quiet_emit s _ fun x hx => ?_
    obtain ⟨r, -, hr⟩ := List.mem_flatMap.mp hx
    exact hbody r.1 r.2 x hr

theorem tuning_not_start (s : State) (i c : Nat) :
    (∀ x ∈ [setChannel s i c], isStartCarrier x = false) ∧
    ∀ x ∈ [setChannel s i c, writeFast s i], isStartCarrier x = false := by
  constructor <;> intro x hx <;> simp at hx
  · rw [hx]; rfl
  · rcases hx with h | h <;> rw [h] <;> rfl

theorem simultaneous_calls (s : State) (left : Bool) (chans : List Nat) (f : Nat → Nat) :
    Quiet s (pass left s (chans.flatMap fun ch =>
      allRadios s fun radio_i => [setChannel s radio_i (f ch)])).state ∧
    Quiet s (pass left s (chans.flatMap fun ch =>
      allRadios s fun radio_i => [setChannel s radio_i (f ch), writeFast s radio_i])).state := by
  constructor
  · refine quiet_emit s _ fun x hx => ?_
    obtain ⟨ch, -, h⟩ := List.mem_flatMap.mp hx
    obtain ⟨i, -, h⟩ := List.mem_flatMap.mp h
    exact (tuning_not_start s i _).1 x h
  · refine quiet_emit s _ fun x hx => ?_
    obtain ⟨ch, -, h⟩ := List.mem_flatMap.mp hx
    obtain ⟨i, -, h⟩ := List.mem_flatMap.mp h
    exact (tuning_not_start s i _).2 x h

/-- A protocol call made while `mode = Idle` implies a clear carrier flag
issues no `startConstCarrier`. -/
theorem quiet_run (c : Call) (s : State)
    (hcc : s.__jam = JAMMING_IDLE → s.__constCarrier = false) :
    Quiet s (c.run s).state := by
  cases c with
  | bluetooth_jam env method =>
    refine quiet_trans (quiet_enter true JAMMING_BLUETOOTH s hcc) ?_
    by_cases hX : (enter true JAMMING_BLUETOOTH s).__jam = JAMMING_BLUETOOTH
    · by_cases hM : (enter true JAMMING_BLUETOOTH s).__mode = JAM_TX_STANDALONE
      · simp only [Call.run, bluetooth_jam, hX, hM, ↓reduceIte]
        refine standalonePass_calls _ _ _ _ fun i c x hx => ?_
        split_ifs at hx
        · exact (tuning_not_start _ _ _).1 x hx
        · exact (tuning_not_start _ _ _).1 x hx
        · exact (tuning_not_start _ _ _).1 x hx
        · simp at hx
      · simp only [Call.run, bluetooth_jam, hX, hM, ↓reduceIte]
        exact (simultaneous_calls _ _ _ _).1
    · simp only [Call.run, bluetooth_jam, hX, ↓reduceIte]
      exact quiet_refl _
  | drone_jam env method =>
    refine quiet_trans (quiet_enter true JAMMING_DRONE s hcc) ?_
    by_cases hX : (enter true JAMMING_DRONE s).__jam = JAMMING_DRONE
    · by_cases hM : (enter true JAMMING_DRONE s).__mode = JAM_TX_STANDALONE
      · simp only [Call.run, drone_jam, hX, hM, ↓reduceIte]
        refine standalonePass_calls _ _ _ _ fun i c x hx => ?_
        split_ifs at hx
        · exact (tuning_not_start _ _ _).1 x hx
        · exact (tuning_not_start _ _ _).1 x hx
        · simp at hx
      · simp only [Call.run, drone_jam, hX, hM, ↓reduceIte]
        exact (simultaneous_calls _ _ _ _).1
    · simp only [Call.run, drone_jam, hX, ↓reduceIte]
      exact quiet_refl _
  | ble_jam =>
    refine quiet_trans (quiet_enter false JAMMING_BLE s hcc) ?_
    simp only [Call.run, ble_jam]
    split_ifs
    · exact standalonePass_calls _ _ _ _ fun i c => (tuning_not_start _ _ _).1
    · exact (simultaneous_calls _ _ _ (fun ch => ble_channels.getD ch 0)).1
    · exact quiet_refl _
  | wifi_jam channel =>
    refine quiet_trans (quiet_enter false JAMMING_WIFI s hcc) ?_
    simp only [Call.run, wifi_jam]
    split_ifs
    · exact standalonePass_calls _ _ _ _ fun i c => (tuning_not_start _ _ _).2
    · exact (simultaneous_calls _ _ _ (fun ch => ch)).2
    · exact standalonePass_calls _ _ _ _ fun i c => (tuning_not_start _ _ _).2
    · exact (simultaneous_calls _ _ _ (fun ch => ch)).2
    · exact quiet_refl _
  | zigbee_jam =>
    refine quiet_trans (quiet_enter false JAMMING_ZIGBEE s hcc) ?_
    simp only [Call.run, zigbee_jam]
    split_ifs
    · exact standalonePass_calls _ _ _ _ fun i c => (tuning_not_start _ _ _).2
    · rw [← List.flatMap_assoc]
      exact (simultaneous_calls _ _ _ (fun ch => ch)).2
    · exact quiet_refl _
  | misc_jam channel1 channel2 =>
    refine quiet_trans (quiet_enter true JAMMING_MISC s hcc) ?_
    simp only [Call.run, misc_jam]
    split_ifs
    · exact standalonePass_calls _ _ _ _ fun i c => (tuning_not_start _ _ _).2
    · exact (simultaneous_calls _ _ _ (fun ch => ch)).2
    · exact quiet_refl _

theorem steps_of_without_start (s s' : State) (h : StepsWithoutStart s s') : Steps s s' := by
  induction h with
  | refl => exact Steps.refl
  | step op s'' _ _ ht hr ih => exact Steps.step op s'' ih ht hr

/-- A public operation other than a `jam_start` made with the carrier flag set
issues no `startConstCarrier`. -/
theorem quiet_op (op : Op) (s : State)
    (hcc : s.__jam = JAMMING_IDLE → s.__constCarrier = false)
    (hop : op ≠ Op.jam_start ∨ s.__constCarrier = false) :
    Quiet s (op.run s).state := by
  cases op with
  | load_radios fresh radios_config count =>
    simp only [Op.run, load_radios]
    split_ifs
    · exact quiet_refl s
    · exact ⟨[], by simp, by simp⟩
  | set_jam_tx_mode mode => exact ⟨[], by simp [Op.run, set_jam_tx_mode], by simp⟩
  | jam_start =>
    rcases hop with h | h
    · exact absurd rfl h
    · exact quiet_jam_start s h
  | jam_stop => exact quiet_jam_stop s
  | protocol c => exact quiet_run c s hcc

/-- C20: in every state reachable from program start, mode Idle implies a
clear carrier flag; a state reached without any direct call of `jam_start`
(by `load_radios`, `set_jam_tx_mode`, `jam_stop` and the six protocol entry
points only) has no `startConstCarrier` in its hardware trace; and a public
operation that issues a `startConstCarrier` is a direct `jam_start` made while
the mode is Bluetooth, Drone or Misc. -/
theorem C20_carrier_started_only_by_direct_start (s : State) (hr : Reachable s) :
    (s.__jam = JAMMING_IDLE → s.__constCarrier = false) ∧
    (StepsWithoutStart init s → ∀ c ∈ s.hw, isStartCarrier c = false) ∧
    (∀ op : Op, (∃ c ∈ since s (op.run s).state, isStartCarrier c = true) →
      op = Op.jam_start ∧
      (s.__jam = JAMMING_BLUETOOTH ∨ s.__jam = JAMMING_DRONE ∨ s.__jam = JAMMING_MISC)) := by
  have hidle : ∀ t : State, Steps init t → t.__jam = JAMMING_IDLE → t.__constCarrier = false := by
    intro t ht hj
    rw [steps_constCarrier init t rfl ht, hj]
    rfl
  refine ⟨hidle s hr, ?_, ?_⟩
  · intro hw
    have key : Quiet init s := by
      clear hr
      induction hw with
      | refl => exact quiet_refl init
      | step op s' hs' hne _ _ ih =>
        exact quiet_trans ih
          (quiet_op op s' (hidle s' (steps_of_without_start init s' hs')) (Or.inl hne))
    obtain ⟨calls, h, hq⟩ := key
    intro c hc
    rw [h] at hc
    exact hq c (by simpa [init] using hc)
  · rintro op ⟨c, hc, hstart⟩
    have hnot : ¬ Quiet s (op.run s).state := by
      rintro ⟨calls, h, hq⟩
      rw [since_of_hw s _ calls h] at hc
      rw [hq c hc] at hstart
      cases hstart
    have hcc : s.__constCarrier = true := by
      cases h : s.__constCarrier with
      | true => rfl
      | false => exact absurd (quiet_op op s (hidle s hr) (Or.inr h)) hnot
    constructor
    · by_contra hne
      exact hnot (quiet_op op s (hidle s hr) (Or.inl hne))
    · have h := steps_constCarrier init s rfl hr
      rw [hcc] at h
      cases hj : s.__jam <;> rw [hj] at h <;> simp [protocolDefault] at h ⊢

/-- After `load_radios` of three radios and `bluetooth_jam(0)`, reached without
a direct `jam_start`, the hardware trace holds no `startConstCarrier`. -/
theorem C20_carrier_started_only_by_direct_start_witness :
    Reachable ((Op.protocol (Call.bluetooth_jam ⟨fun _ => 0, fun _ => 0⟩ 0)).run
      ((Op.load_radios (fun _ => ⟨none, 0, 0, 0⟩) (fun i => ⟨i, i + 8, 0⟩) 3).run
        init).state).state ∧
    ∀ c ∈ ((Op.protocol (Call.bluetooth_jam ⟨fun _ => 0, fun _ => 0⟩ 0)).run
      ((Op.load_radios (fun _ => ⟨none, 0, 0, 0⟩) (fun i => ⟨i, i + 8, 0⟩) 3).run
        init).state).state.hw, isStartCarrier c = false :=
  ⟨Steps.step (Op.protocol (Call.bluetooth_jam ⟨fun _ => 0, fun _ => 0⟩ 0)) _
      (Steps.step (Op.load_radios (fun _ => ⟨none, 0, 0, 0⟩) (fun i => ⟨i, i + 8, 0⟩) 3) _
        Steps.refl (by show 3 < 256; decide) (by decide)) (by show 0 < 256; decide) (by decide),
    (C20_carrier_started_only_by_direct_start _
      (Steps.step (Op.protocol (Call.bluetooth_jam ⟨fun _ => 0, fun _ => 0⟩ 0)) _
        (Steps.step (Op.load_radios (fun _ => ⟨none, 0, 0, 0⟩) (fun i => ⟨i, i + 8, 0⟩) 3) _
          Steps.refl (by show 3 < 256; decide) (by decide))
        (by show 0 < 256; decide) (by decide))).2.1
      (StepsWithoutStart.step (Op.protocol (Call.bluetooth_jam ⟨fun _ => 0, fun _ => 0⟩ 0)) _
        (StepsWithoutStart.step
          (Op.load_radios (fun _ => ⟨none, 0, 0, 0⟩) (fun i => ⟨i, i + 8, 0⟩) 3) _
          StepsWithoutStart.refl (fun h => Op.noConfusion h) (by show 3 < 256; decide)
          (by decide))
        (fun h => Op.noConfusion h) (by show 0 < 256; decide) (by decide))⟩

/-! ## The shape of the pool -/

theorem load_radios_loop_length (radios_config : Nat → radio_config_s) (k i : Nat)
    (rs : List __radio_t) : (load_radios_loop radios_config k i rs).2.length = rs.length := by
  induction k generalizing i rs with
  | zero => rfl
  | succ k ih =>
    rw [load_radios_loop]
    simp only
    split_ifs
    · simp
    · rw [ih]; simp

theorem configs_length (a b : Option (List __radio_t))
    (h : a.map (List.map config) = b.map (List.map config)) :
    (a.getD []).length = (b.getD []).length := by
  cases a <;> cases b <;> simp at h
  · rfl
  · have := congrArg List.length h
    simpa using this

/-- In every reachable state the array `__radios` has `__nrf24_count` elements
(none when the pointer is null), so that `__radios[radio_i]` is an element of
the array in every loop over `radio_i < __nrf24_count`. -/
theorem reachable_pool_shape (s : State) (h : Reachable s) :
    (s.__radios.getD []).length = s.__nrf24_count := by
  induction h with
  | refl => rfl
  | step op s' _ _ _ ih =>
    cases op with
    | load_radios fresh radios_config count =>
      simp only [Op.run, load_radios]
      split_ifs
      · exact ih
      · simp [load_radios_loop_length]
    | set_jam_tx_mode mode => exact ih
    | jam_start =>
      simp only [Op.run]
      rw [configs_length _ _ (frame_jam_start s').configs, (frame_jam_start s').nrf24_count]
      exact ih
    | jam_stop =>
      simp only [Op.run]
      rw [configs_length _ _ (jam_stop_frame s').2.2.1, (jam_stop_frame s').1]
      exact ih
    | protocol c =>
      obtain ⟨calls, hc⟩ := run_shape c s'
      simp only [Op.run, hc]
      show ((enter _ _ s').__radios.getD []).length = (enter _ _ s').__nrf24_count
      rw [configs_length _ _ (enter_frame _ _ s').2.2.1, (enter_frame _ _ s').1]
      exact ih


/-! ## Entry from mode Idle -/

theorem chPerRadioLoop_radio (radio_i c ch : Nat) :
    ∀ r ∈ (chPerRadioLoop radio_i c ch).1, r.1 = radio_i := by
  induction c generalizing ch with
  | zero => simp [chPerRadioLoop]
  | succ c ih =>
    intro r hr
    simp only [chPerRadioLoop, List.mem_cons] at hr
    rcases hr with rfl | hr
    · rfl
    · exact ih _ r hr

theorem radioLoop_radio (t n k radio_i ch : Nat) :
    ∀ r ∈ radioLoop t n k radio_i ch, r.1 < radio_i + k := by
  induction k generalizing radio_i ch with
  | zero => simp [radioLoop]
  | succ k ih =>
    intro r hr
    simp only [radioLoop, List.mem_append] at hr
    rcases hr with hr | hr
    · have := chPerRadioLoop_radio _ _ _ r hr
      omega
    · have := ih _ _ r hr
      omega

/-- Every round of a Standalone pass is a round of a radio of the pool. -/
theorem standalone_radio (t ch n : Nat) (rounds : List (Nat × Nat))
    (h : standalone t ch n = some rounds) : ∀ r ∈ rounds, r.1 < n := by
  unfold standalone at h
  split_ifs at h
  cases h
  intro r hr
  simpa using radioLoop_radio t n n 0 ch r hr

theorem throughUnits_nil (s : State) : ThroughUnits s [] := by
  intro x hx
  simp at hx

theorem tuning_through (s : State) (i c : Nat) (hi : i < s.__nrf24_count) :
    ThroughUnits s [setChannel s i c] ∧ ThroughUnits s [setChannel s i c, writeFast s i] := by
  constructor <;> intro x hx <;> simp at hx
  · exact ⟨i, _, hi, hx⟩
  · rcases hx with h | h <;> exact ⟨i, _, hi, h⟩

theorem standalonePass_through (t ch : Nat) (s : State) (body : Nat → Nat → List HwCall)
    (hbody : ∀ i c, i < s.__nrf24_count → ThroughUnits s (body i c)) :
    ∃ calls, (standalonePass t ch s body).state = emit s calls ∧ ThroughUnits s calls := by
  unfold standalonePass
  cases h : standalone t ch s.__nrf24_count with
  | none => exact ⟨[], (emit_nil s).symm, throughUnits_nil s⟩
  | some rounds =>
    refine ⟨_, rfl, fun x hx => ?_⟩
    obtain ⟨r, hr, hx⟩ := List.mem_flatMap.mp hx
    exact hbody r.1 r.2 (standalone_radio t ch _ rounds h r hr) x hx

theorem simultaneous_through (s : State) (left : Bool) (chans : List Nat) (f : Nat → Nat) :
    (∃ calls, (pass left s (chans.flatMap fun ch =>
      allRadios s fun radio_i => [setChannel s radio_i (f ch)])).state = emit s calls ∧
      ThroughUnits s calls) ∧
    ∃ calls, (pass left s (chans.flatMap fun ch =>
      allRadios s fun radio_i => [setChannel s radio_i (f ch), writeFast s radio_i])).state =
        emit s calls ∧ ThroughUnits s calls := by
  constructor
  · refine ⟨_, rfl, fun x hx => ?_⟩
    obtain ⟨ch, -, h⟩ := List.mem_flatMap.mp hx
    obtain ⟨i, hi, h⟩ := List.mem_flatMap.mp h
    exact (tuning_through s i _ (List.mem_range.mp hi)).1 x h
  · refine ⟨_, rfl, fun x hx => ?_⟩
    obtain ⟨ch, -, h⟩ := List.mem_flatMap.mp hx
    obtain ⟨i, hi, h⟩ := List.mem_flatMap.mp h
    exact (tuning_through s i _ (List.mem_range.mp hi)).2 x h

/-- Every hardware action of a pass is a call on a radio of the pool, made
through the driver pointer the unit has when the pass begins. -/
theorem run_through (c : Call) (s : State) :
    ∃ calls, (c.run s).state = emit (enter (protocolDefault c.jam) c.jam s) calls ∧
      ThroughUnits (enter (protocolDefault c.jam) c.jam s) calls := by
  cases c with
  | bluetooth_jam env method =>
    simp only [Call.jam, protocolDefault]
    by_cases hX : (enter true JAMMING_BLUETOOTH s).__jam = JAMMING_BLUETOOTH
    · by_cases hM : (enter true JAMMING_BLUETOOTH s).__mode = JAM_TX_STANDALONE
      · simp only [Call.run, bluetooth_jam, hX, hM, ↓reduceIte]
        refine standalonePass_through _ _ _ _ fun i c hi => ?_
        split_ifs
        · exact (tuning_through _ _ _ hi).1
        · exact (tuning_through _ _ _ hi).1
        · exact (tuning_through _ _ _ hi).1
        · exact throughUnits_nil _
      · simp only [Call.run, bluetooth_jam, hX, hM, ↓reduceIte]
        exact (simultaneous_through _ _ _ _).1
    · simp only [Call.run, bluetooth_jam, hX, ↓reduceIte]
      exact ⟨[], (emit_nil _).symm, throughUnits_nil _⟩
  | drone_jam env method =>
    simp only [Call.jam, protocolDefault]
    by_cases hX : (enter true JAMMING_DRONE s).__jam = JAMMING_DRONE
    · by_cases hM : (enter true JAMMING_DRONE s).__mode = JAM_TX_STANDALONE
      · simp only [Call.run, drone_jam, hX, hM, ↓reduceIte]
        refine standalonePass_through _ _ _ _ fun i c hi => ?_
        split_ifs
        · exact (tuning_through _ _ _ hi).1
        · exact (tuning_through _ _ _ hi).1
        · exact throughUnits_nil _
      · simp only [Call.run, drone_jam, hX, hM, ↓reduceIte]
        exact (simultaneous_through _ _ _ _).1
    · simp only [Call.run, drone_jam, hX, ↓reduceIte]
      exact ⟨[], (emit_nil _).symm, throughUnits_nil _⟩
  | ble_jam =>
    simp only [Call.jam, protocolDefault, Call.run, ble_jam]
    split_ifs
    · exact standalonePass_through _ _ _ _ fun i c hi => (tuning_through _ _ _ hi).1
    · exact (simultaneous_through _ _ _ (fun ch => ble_channels.getD ch 0)).1
    · exact ⟨[], (emit_nil _).symm, throughUnits_nil _⟩
  | wifi_jam channel =>
    simp only [Call.jam, protocolDefault, Call.run, wifi_jam]
    split_ifs
    · exact standalonePass_through _ _ _ _ fun i c hi => (tuning_through _ _ _ hi).2
    · exact (simultaneous_through _ _ _ (fun ch => ch)).2
    · exact standalonePass_through _ _ _ _ fun i c hi => (tuning_through _ _ _ hi).2
    · exact (simultaneous_through _ _ _ (fun ch => ch)).2
    · exact ⟨[], (emit_nil _).symm, throughUnits_nil _⟩
  | zigbee_jam =>
    simp only [Call.jam, protocolDefault, Call.run, zigbee_jam]
    split_ifs
    · exact standalonePass_through _ _ _ _ fun i c hi => (tuning_through _ _ _ hi).2
    · rw [← List.flatMap_assoc]
      exact (simultaneous_through _ _ _ (fun ch => ch)).2
    · exact ⟨[], (emit_nil _).symm, throughUnits_nil _⟩
  | misc_jam channel1 channel2 =>
    simp only [Call.jam, protocolDefault, Call.run, misc_jam]
    split_ifs
    · exact standalonePass_through _ _ _ _ fun i c hi => (tuning_through _ _ _ hi).2
    · exact (simultaneous_through _ _ _ (fun ch => ch)).2
    · exact ⟨[], (emit_nil _).symm, throughUnits_nil _⟩

theorem bound_getD (obj : Nat) (rs : List __radio_t) (i : Nat) (d : __radio_t)
    (hi : i < rs.length) : ((bound obj rs).getD i d).radio = some (obj + i) := by
  have h := congrArg (fun l => l[i]?) (bound_handles obj rs)
  simp only [List.getElem?_map, List.getElem?_range' _ _ hi, Nat.one_mul, Option.map_some'] at h
  rw [List.getD_eq_getElem?_getD]
  cases hb : (bound obj rs)[i]? with
  | none => rw [hb] at h; simp at h
  | some u =>
    rw [hb] at h
    simpa using h

theorem constructions_not_radio (obj : Nat) (rs : List __radio_t) (i : Nat) (p : Option Nat)
    (r : RadioCall) : HwCall.radio i p r ∉ constructions obj rs := by
  induction rs generalizing obj with
  | nil => simp [constructions]
  | cons u t ih =>
    have := ih (obj + 1)
    simp only [constructions] at this
    simp [constructions, List.range'_succ, this]

/-- What `__init_radios` does to a pool of `__nrf24_count` units: it binds
every unit to a driver object it constructs, and calls no radio. -/
theorem init_radios_binds (s : State)
    (hshape : (s.__radios.getD []).length = s.__nrf24_count) :
    ∃ cons, (__init_radios s).hw = s.hw ++ cons ∧
      (__init_radios s).__nrf24_count = s.__nrf24_count ∧
      (__init_radios s).__constCarrier = s.__constCarrier ∧
      (∀ i p r, HwCall.radio i p r ∉ cons) ∧ deletedRF24 cons = [] ∧
      ∀ i, i < s.__nrf24_count → (unit (__init_radios s) i).radio = some (s.objects + i) ∧
        s.objects + i ∈ constructedRF24 cons := by
  cases hrad : s.__radios with
  | none =>
    have hn : s.__nrf24_count = 0 := by rw [← hshape, hrad]; rfl
    have h0 : __init_radios s = s := by
      simp only [__init_radios, forEachRadio, hn, List.range_zero, List.foldl_nil]
    rw [h0]
    refine ⟨[], by simp, rfl, rfl, by simp, rfl, ?_⟩
    intro i hi
    omega
  | some rs =>
    have hlen : rs.length = s.__nrf24_count := by rw [← hshape, hrad]; rfl
    rw [init_radios_eq s rs hrad hlen]
    obtain ⟨c1, -, c3, -, -⟩ := constructions_objects s.objects rs
    refine ⟨constructions s.objects rs, rfl, rfl, rfl, ?_, c3, ?_⟩
    · exact fun i p r => constructions_not_radio _ _ i p r
    · intro i hi
      refine ⟨?_, ?_⟩
      · simp only [unit, Option.getD_some]
        exact bound_getD _ _ _ _ (by omega)
      · rw [c1, List.mem_range']
        exact ⟨i, by omega, by omega⟩

/-- What `jam_start` does to the driver pointers of a pool whose hardware is not
bootstrapped, while the carrier flag is clear: it binds every unit to a driver
object it constructs, every call it makes on a radio goes through that object,
and it deletes nothing. -/
theorem jam_start_binds (s : State)
    (hshape : (s.__radios.getD []).length = s.__nrf24_count)
    (hi : s.__is_initialized = false) (hcc : s.__constCarrier = false) :
    ∃ boot, (jam_start s).hw = s.hw ++ boot ∧ deletedRF24 boot = [] ∧
      (∀ i p r, HwCall.radio i p r ∈ boot → i < s.__nrf24_count ∧ p = some (s.objects + i)) ∧
      ∀ i, i < s.__nrf24_count → (unit (jam_start s) i).radio = some (s.objects + i) ∧
        s.objects + i ∈ constructedRF24 boot := by
  obtain ⟨cons, k1, k2, k3, k4, k5, k6⟩ := init_radios_binds s hshape
  obtain ⟨bus, hbus, hbus1, -, hbus3⟩ := hspi_init_eq (__init_radios s)
  have hj : jam_start s = { __hspi_init (__init_radios s) with __is_initialized := true } := by
    rw [jam_start]
    simp only [hi, Bool.false_eq_true, ↓reduceIte]
    rw [hbus]
    simp only [k3, hcc, Bool.false_eq_true, ↓reduceIte]
  rw [hbus] at hj
  refine ⟨cons ++ HwCall.newSPI (__init_radios s).objects :: bus, ?_, ?_, ?_, ?_⟩
  · rw [hj]
    simp [k1]
  · rw [(objects_append _ _).2.2.1, k5, (objects_cons_newSPI _ _).2.2.1,
      (no_objects bus hbus1).2.2.1]
    rfl
  · intro i p r hc
    rw [List.mem_append, List.mem_cons] at hc
    rcases hc with h | h | h
    · exact absurd h (k4 i p r)
    · cases h
    · obtain ⟨h1, h2⟩ := hbus3 i p r h
      rw [k2] at h1
      exact ⟨h1, by rw [h2, (k6 i h1).1]⟩
  · intro i hi
    refine ⟨?_, ?_⟩
    · rw [hj]
      exact (k6 i hi).1
    · rw [(objects_append _ _).1]
      exact List.mem_append_left _ (k6 i hi).2

/-- The entry block of a protocol entry point, in a reachable state in which
every driver pointer is valid if the hardware is bootstrapped: the block
deletes nothing, every call it makes on a radio goes through a pointer to a
constructed driver object, and it leaves every unit with such a pointer. -/
theorem enter_bound (constCarrier : Bool) (jam : jam_mode_e) (s : State) (hr : Reachable s)
    (hbound : s.__is_initialized = true →
      ∀ i, i < s.__nrf24_count → validHandle s.hw (unit s i).radio = true) :
    ∃ boot, (enter constCarrier jam s).hw = s.hw ++ boot ∧ deletedRF24 boot = [] ∧
      (∀ i p r, HwCall.radio i p r ∈ boot →
        ∃ obj, p = some obj ∧ obj ∈ constructedRF24 (s.hw ++ boot)) ∧
      (enter constCarrier jam s).__nrf24_count = s.__nrf24_count ∧
      ∀ i, i < s.__nrf24_count →
        ∃ obj, (unit (enter constCarrier jam s) i).radio = some obj ∧
          obj ∈ constructedRF24 (s.hw ++ boot) := by
  have hkeep : s.__is_initialized = true → ∀ i, i < s.__nrf24_count →
      ∃ obj, (unit s i).radio = some obj ∧ obj ∈ constructedRF24 (s.hw ++ []) := by
    intro hi i hlt
    have hv := hbound hi i hlt
    cases hp : (unit s i).radio with
    | none => rw [hp] at hv; simp [validHandle] at hv
    | some obj =>
      rw [hp] at hv
      simp only [validHandle, Bool.and_eq_true, decide_eq_true_eq] at hv
      exact ⟨obj, rfl, by simpa using hv.1⟩
  by_cases hidle : s.__jam = JAMMING_IDLE
  · have hcc : s.__constCarrier = false := by
      rw [steps_constCarrier init s rfl hr, hidle]
      rfl
    rw [enter, if_pos hidle]
    cases hi : s.__is_initialized with
    | true =>
      have hsame : jam_start s = s := by
        rw [jam_start_again s hi, if_neg (by simp [hcc])]
      rw [hsame]
      exact ⟨[], by simp, rfl, by simp, rfl, hkeep hi⟩
    | false =>
      obtain ⟨boot, b1, b2, b3, b4⟩ :=
        jam_start_binds s (reachable_pool_shape s hr) hi hcc
      refine ⟨boot, b1, b2, fun i p r hm => ?_, (frame_jam_start s).nrf24_count, fun i hlt => ?_⟩
      · obtain ⟨hlt, hp⟩ := b3 i p r hm
        refine ⟨_, hp, ?_⟩
        rw [(objects_append _ _).1]
        exact List.mem_append_right _ (b4 i hlt).2
      · refine ⟨_, (b4 i hlt).1, ?_⟩
        rw [(objects_append _ _).1]
        exact List.mem_append_right _ (b4 i hlt).2
  · rw [enter_of_ne_idle _ _ s hidle]
    have hi : s.__is_initialized = true := by
      cases h : s.__is_initialized with
      | true => rfl
      | false =>
        exact absurd (steps_idle_invariant init s (fun _ => ⟨rfl, rfl⟩) hr h).1 hidle
    exact ⟨[], by simp, rfl, by simp, rfl, hkeep hi⟩

/-- A protocol call made in a reachable state in which every driver pointer is
valid if the hardware is bootstrapped: every call it makes on a radio goes
through a pointer that is not null and points to a constructed driver object,
and the call deletes no driver object. -/
theorem run_bound (c : Call) (s : State) (hr : Reachable s)
    (hbound : s.__is_initialized = true →
      ∀ i, i < s.__nrf24_count → validHandle s.hw (unit s i).radio = true) :
    (∀ i p r, HwCall.radio i p r ∈ issued s (c.run s) →
      ∃ obj, p = some obj ∧ obj ∈ constructedRF24 (c.run s).state.hw) ∧
    deletedRF24 (issued s (c.run s)) = [] := by
  obtain ⟨calls, hc, hthrough⟩ := run_through c s
  obtain ⟨boot, e1, e2, e3, e4, e5⟩ := enter_bound (protocolDefault c.jam) c.jam s hr hbound
  have hhw : (c.run s).state.hw = s.hw ++ (boot ++ calls) := by
    rw [hc]
    simp [emit, e1]
  have hiss : issued s (c.run s) = boot ++ calls := by
    simp [issued, hhw]
  have hsub : ∀ obj, obj ∈ constructedRF24 (s.hw ++ boot) →
      obj ∈ constructedRF24 (c.run s).state.hw := by
    intro obj h
    rw [hhw, ← List.append_assoc, (objects_append _ _).1]
    exact List.mem_append_left _ h
  rw [hiss]
  constructor
  · intro i p r hm
    rcases List.mem_append.mp hm with h | h
    · obtain ⟨obj, hp, ho⟩ := e3 i p r h
      exact ⟨obj, hp, hsub obj ho⟩
    · obtain ⟨j, r', hj, hx⟩ := hthrough _ h
      cases hx
      rw [e4] at hj
      obtain ⟨obj, hp, ho⟩ := e5 i hj
      exact ⟨obj, hp, hsub obj ho⟩
  · rw [(objects_append _ _).2.2.1, e2, List.nil_append]
    refine (no_objects calls fun x hx => ?_).2.2.1
    obtain ⟨j, r', -, rfl⟩ := hthrough x hx
    exact Or.inl ⟨_, _, _, rfl⟩

/-- C6, as the code has it: a protocol entry point called in a reachable state
whose mode is Idle, in Standalone mode with at least one radio loaded, or in
Simultaneous mode with arguments other than a WiFi band of 47 or more and a
Misc range that ends at channel 255, and, if the hardware is bootstrapped
already, with every unit's driver pointer bound to a constructed and undeleted
object, returns, and after the call the mode is that of the entry point, the
hardware is bootstrapped, and the carrier flag is the protocol default: set for
Bluetooth, Drone and Misc, clear for BLE, WiFi and Zigbee.  Every call the
entry point makes on a radio goes through a pointer that is not null and
points to a constructed driver object, and the entry point deletes none. -/
theorem C6_entry_from_idle (c : Call) (s : State) (hr : Reachable s) (ht : c.typed)
    (hidle : s.__jam = JAMMING_IDLE)
    (hpool : s.__mode = JAM_TX_STANDALONE → 1 ≤ s.__nrf24_count)
    (hargs : s.__mode = JAM_TX_SIMULTANEOUS → ¬ c.endless)
    (hbound : s.__is_initialized = true →
      ∀ i, i < s.__nrf24_count → validHandle s.hw (unit s i).radio = true) :
    (c.run s).status = Status.returns ∧
    (c.run s).state.__jam = c.jam ∧ (c.run s).state.__is_initialized = true ∧
    (c.run s).state.__constCarrier = protocolDefault c.jam ∧
    protocolDefault JAMMING_BLUETOOTH = true ∧ protocolDefault JAMMING_DRONE = true ∧
    protocolDefault JAMMING_MISC = true ∧ protocolDefault JAMMING_BLE = false ∧
    protocolDefault JAMMING_WIFI = false ∧ protocolDefault JAMMING_ZIGBEE = false ∧
    (∀ i p r, HwCall.radio i p r ∈ issued s (c.run s) →
      ∃ obj, p = some obj ∧ obj ∈ constructedRF24 (c.run s).state.hw) ∧
    deletedRF24 (issued s (c.run s)) = [] := by
  obtain ⟨calls, hc⟩ := run_shape c s
  obtain ⟨h1, h2, h3⟩ := enter_idle (protocolDefault c.jam) c.jam s hidle
  exact ⟨(run_returns_iff c s ht hidle).2 ⟨hpool, hargs⟩, by rw [hc]; exact h1,
    by rw [hc]; exact h2, by rw [hc]; exact h3, rfl, rfl, rfl, rfl, rfl, rfl,
    run_bound c s hr hbound⟩

/-- Three radios loaded and `jam_start` called: the mode is Idle, the hardware
is bootstrapped and every driver pointer is bound; `misc_jam(10, 20)` returns
in mode Misc. -/
theorem C6_entry_from_idle_witness :
    Reachable (jam_start
      (load_radios (fun _ => ⟨none, 0, 0, 0⟩) (fun i => ⟨i, i + 8, 0⟩) 3 init).2) ∧
    (Call.misc_jam 10 20).typed ∧
    (jam_start
      (load_radios (fun _ => ⟨none, 0, 0, 0⟩) (fun i => ⟨i, i + 8, 0⟩) 3 init).2).__jam =
      JAMMING_IDLE ∧
    (jam_start (load_radios (fun _ => ⟨none, 0, 0, 0⟩)
      (fun i => ⟨i, i + 8, 0⟩) 3 init).2).__is_initialized = true ∧
    handles (jam_start
      (load_radios (fun _ => ⟨none, 0, 0, 0⟩) (fun i => ⟨i, i + 8, 0⟩) 3 init).2) =
      [some 0, some 1, some 2] ∧
    ((Call.misc_jam 10 20).run (jam_start
      (load_radios (fun _ => ⟨none, 0, 0, 0⟩) (fun i => ⟨i, i + 8, 0⟩) 3 init).2)).status =
      Status.returns ∧
    ((Call.misc_jam 10 20).run (jam_start
      (load_radios (fun _ => ⟨none, 0, 0, 0⟩) (fun i => ⟨i, i + 8, 0⟩) 3 init).2)).state.__jam =
      JAMMING_MISC :=
  ⟨Steps.step Op.jam_start _
      (Steps.step (Op.load_radios (fun _ => ⟨none, 0, 0, 0⟩) (fun i => ⟨i, i + 8, 0⟩) 3) _
        Steps.refl (by show 3 < 256; decide) rfl) trivial rfl,
    ⟨by decide, by decide⟩, by decide, by decide, by decide,
    (C6_entry_from_idle (Call.misc_jam 10 20)
      (jam_start (load_radios (fun _ => ⟨none, 0, 0, 0⟩) (fun i => ⟨i, i + 8, 0⟩) 3 init).2)
      (Steps.step Op.jam_start _
        (Steps.step (Op.load_radios (fun _ => ⟨none, 0, 0, 0⟩) (fun i => ⟨i, i + 8, 0⟩) 3) _
          Steps.refl (by show 3 < 256; decide) rfl) trivial rfl)
      ⟨by decide, by decide⟩ (by decide) (fun _ => by decide)
      (fun h => absurd h (by decide)) (fun _ => by decide)).1,
    (C6_entry_from_idle (Call.misc_jam 10 20)
      (jam_start (load_radios (fun _ => ⟨none, 0, 0, 0⟩) (fun i => ⟨i, i + 8, 0⟩) 3 init).2)
      (Steps.step Op.jam_start _
        (Steps.step (Op.load_radios (fun _ => ⟨none, 0, 0, 0⟩) (fun i => ⟨i, i + 8, 0⟩) 3) _
          Steps.refl (by show 3 < 256; decide) rfl) trivial rfl)
      ⟨by decide, by decide⟩ (by decide) (fun _ => by decide)
      (fun h => absurd h (by decide)) (fun _ => by decide)).2.1⟩

/-- C6 as stated fails: at program start (mode Idle, no radio loaded, tx mode
Standalone) `bluetooth_jam(0)` makes the transition and then divides 21 by
`__nrf24_count = 0`; the call does not return, so there is no state after it. -/
theorem C6_entry_from_idle_counterexample :
    Reachable init ∧
    init.__jam = JAMMING_IDLE ∧ init.__mode = JAM_TX_STANDALONE ∧ init.__nrf24_count = 0 ∧
    (Call.bluetooth_jam ⟨fun _ => 0, fun _ => 0⟩ 0).typed ∧
    ((Call.bluetooth_jam ⟨fun _ => 0, fun _ => 0⟩ 0).run init).status = Status.divisionByZero ∧
    ((Call.bluetooth_jam ⟨fun _ => 0, fun _ => 0⟩ 0).run init).status ≠ Status.returns := by
  refine ⟨Steps.refl, rfl, rfl, rfl, ?_, by decide, by decide⟩
  show (0 : Nat) < 256
  decide

/-! ## A Misc range given in reverse -/

/-- C19, as the code has it: take `misc_jam(channel1, channel2)` with
`channel2 < channel1`, called in a reachable state whose mode is Idle or Misc.
In Standalone mode with at least one radio loaded and, if the hardware is
bootstrapped already, every unit's driver pointer bound to a constructed and
undeleted object, the pass returns after tuning exactly
`(channel2 - channel1 + 1) mod 256` channels: the channels that follow
`channel1`, wrapping modulo 256, each call going through a pointer that is not
null and points to a constructed driver object.  In Simultaneous mode the pass
returns without tuning any channel.  When `channel2 < channel1 - 1` the
Standalone count is `257 + channel2 - channel1`, at least 2, and `channel1` is
tuned in Standalone mode and not in Simultaneous mode. -/
theorem C19_misc_reversed_range (channel1 channel2 : Nat) (s : State) (hr : Reachable s)
    (h1 : channel1 < 256) (h21 : channel2 < channel1)
    (hj : s.__jam = JAMMING_IDLE ∨ s.__jam = JAMMING_MISC)
    (hn : s.__mode = JAM_TX_STANDALONE → 1 ≤ s.__nrf24_count)
    (hbound : s.__mode = JAM_TX_STANDALONE → s.__is_initialized = true →
      ∀ i, i < s.__nrf24_count → validHandle s.hw (unit s i).radio = true) :
    (s.__mode = JAM_TX_STANDALONE →
      (misc_jam channel1 channel2 s).status = Status.returns ∧
      channels (issued s (misc_jam channel1 channel2 s)) =
        (List.range ((channel2 + 257 - channel1) % 256)).map (fun k => (channel1 + k) % 256) ∧
      (channel2 + 1 < channel1 →
        (channel2 + 257 - channel1) % 256 = 257 + channel2 - channel1 ∧
        2 ≤ 257 + channel2 - channel1 ∧
        channel1 ∈ channels (issued s (misc_jam channel1 channel2 s))) ∧
      ∀ i p r, HwCall.radio i p r ∈ issued s (misc_jam channel1 channel2 s) →
        ∃ obj, p = some obj ∧
          obj ∈ constructedRF24 (misc_jam channel1 channel2 s).state.hw) ∧
    (s.__mode = JAM_TX_SIMULTANEOUS →
      (misc_jam channel1 channel2 s).status = Status.returns ∧
      channels (issued s (misc_jam channel1 channel2 s)) = []) := by
  have hmode : (enter true JAMMING_MISC s).__mode = s.__mode :=
    (enter_frame true JAMMING_MISC s).2.1
  have hjam : (enter true JAMMING_MISC s).__jam = JAMMING_MISC := by
    rw [enter_jam]; rcases hj with h | h <;> simp [h]
  constructor
  · intro hm
    have ht : (((channel2 : Int) - (channel1 : Int) + 1) % 256).toNat =
        (channel2 + 257 - channel1) % 256 := by omega
    obtain ⟨rounds, hr', -, h⟩ := standalone_pass_channels s true JAMMING_MISC
      ((channel2 + 257 - channel1) % 256) channel1 (fun k => k)
      (by have := Nat.mod_lt (channel2 + 257 - channel1) (show 256 > 0 by decide); omega)
      h1 (hn hm)
    have hch : channels (issued s (misc_jam channel1 channel2 s)) =
        (List.range ((channel2 + 257 - channel1) % 256)).map
          (fun k => (channel1 + k) % 256) := by
      simp only [misc_jam, hjam, hmode, hm, ↓reduceIte, standalonePass, ht, hr']
      exact h
    refine ⟨?_, hch, fun hlt => ⟨by omega, by omega, ?_⟩,
      (run_bound (Call.misc_jam channel1 channel2) s hr (hbound hm)).1⟩
    · simp only [misc_jam, hjam, hmode, hm, ↓reduceIte, standalonePass, ht, hr']
      rfl
    · rw [hch, List.mem_map]
      exact ⟨0, List.mem_range.mpr (by omega), by simp [Nat.mod_eq_of_lt h1]⟩
  · intro hm
    have hloop : channelLoop (fun ch => decide (ch ≤ channel2)) channel1 = ([], true) := by
      rw [channelLoop, show (256 : Nat) = 255 + 1 from rfl, forU8,
        if_neg (by simp only [decide_eq_true_eq]; omega)]
    obtain ⟨-, -, -, boot, hboot, hlife⟩ := enter_frame true JAMMING_MISC s
    simp only [misc_jam, hjam, hmode, hm, ↓reduceIte, reduceCtorEq, hloop, List.flatMap_nil]
    refine ⟨rfl, ?_⟩
    rw [issued_pass _ _ _ _ _ hboot, List.append_nil]
    exact (channels_lifecycle boot hlife).1

/-- Two radios loaded, mode Idle, Standalone: `misc_jam(250, 3)` returns after
tuning the ten channels 250 to 255 and 0 to 3. -/
theorem C19_misc_reversed_range_witness :
    Reachable (load_radios (fun _ => ⟨none, 0, 0, 0⟩) (fun i => ⟨i, i + 8, 0⟩) 2 init).2 ∧
    (250 : Nat) < 256 ∧ (3 : Nat) < 250 ∧
    1 ≤ (load_radios (fun _ => ⟨none, 0, 0, 0⟩) (fun i => ⟨i, i + 8, 0⟩) 2 init).2.__nrf24_count ∧
    channels (issued (load_radios (fun _ => ⟨none, 0, 0, 0⟩) (fun i => ⟨i, i + 8, 0⟩) 2 init).2
      (misc_jam 250 3
        (load_radios (fun _ => ⟨none, 0, 0, 0⟩) (fun i => ⟨i, i + 8, 0⟩) 2 init).2)) =
      (List.range ((3 + 257 - 250) % 256)).map (fun k => (250 + k) % 256) :=
  ⟨Steps.step (Op.load_radios (fun _ => ⟨none, 0, 0, 0⟩) (fun i => ⟨i, i + 8, 0⟩) 2) _
      Steps.refl (by show 2 < 256; decide) rfl,
    by decide, by decide, by decide,
    ((C19_misc_reversed_range 250 3
      (load_radios (fun _ => ⟨none, 0, 0, 0⟩) (fun i => ⟨i, i + 8, 0⟩) 2 init).2
      (Steps.step (Op.load_radios (fun _ => ⟨none, 0, 0, 0⟩) (fun i => ⟨i, i + 8, 0⟩) 2) _
        Steps.refl (by show 2 < 256; decide) rfl)
      (by decide) (by decide) (Or.inl (by decide)) (fun _ => by decide)
      (fun _ h => absurd h (by decide))).1 (by decide)).2.1⟩

/-- C19 as stated fails: at program start (mode Idle, no radio loaded, tx mode
Standalone) `misc_jam(250, 3)` computes the 10 channels of the claim and then
divides them by `__nrf24_count = 0`; the call does not return and tunes no
channel. -/
theorem C19_misc_reversed_range_counterexample :
    Reachable init ∧ init.__jam = JAMMING_IDLE ∧ init.__mode = JAM_TX_STANDALONE ∧
    init.__nrf24_count = 0 ∧ (Call.misc_jam 250 3).typed ∧
    (((3 : Int) - 250 + 1) % 256).toNat = 10 ∧
    (misc_jam 250 3 init).status = Status.divisionByZero ∧
    channels (issued init (misc_jam 250 3 init)) = [] :=
  ⟨Steps.refl, rfl, rfl, rfl, ⟨by decide, by decide⟩, by decide, by decide, by decide⟩

end Jam
